import Mathlib

/-!
UnLua: container proxy, dynamic binding stack, function overrides, registry of
exported types, script watchdog, bind decision, flush of the bind candidates,
module locator by package and object binding.

A shallow embedding of parts of the UnLua plugin
(`Plugins/UnLua/Source/UnLua/Private`) together with theorems about them.

Conventions of the embedding:

* `int32` values are `Int`; lengths of engine arrays are list lengths (the engine
  keeps `ArrayNum` a valid non-negative `int32`).
* A memory slot of one element is a value of the element type `α`; the type-erased
  operations of `UnLua::ITypeInterface` act on slot contents.
* Reading or writing a slot outside the live range of the backing array is not
  defined in C++; the embedding returns `none` there, so `some` results state that
  every access stayed inside the array.
-/

namespace UnLua

/-! ## Element type interface (`UnLua::ITypeInterface`) -/

/-- The element operations used by the container proxy. `Initialize Dest`,
`Destruct Dest` and `Copy Dest Src` give the new contents of the slot `Dest`;
`Identical A B` is the value comparison. -/
structure ITypeInterface (α : Type) where
  Initialize : α → α
  Destruct : α → α
  Copy : α → α → α
  Identical : α → α → Bool

/-- The engine constant `INDEX_NONE`. -/
def INDEX_NONE : Int := -1

/-! ## The engine's untyped array (`FScriptArray`)

`FScriptArray` is engine code. It is modelled by the list of its live element
slots. `Raw k` is the content of freshly allocated, not yet constructed memory at
slot `k`. -/

/-- The live slots of an engine script array; `ArrayNum` is the length of `Data`. -/
structure FScriptArray (α : Type) where
  Data : List α
deriving DecidableEq, Repr

namespace FScriptArray

variable {α : Type}

/-- Engine function `FScriptArray::Num`. -/
def Num (s : FScriptArray α) : Int := (s.Data.length : Int)

/-- The `Count` uninitialised slots that start at slot `Start`. -/
def RawSlots (Raw : Nat → α) (Start : Nat) (Count : Int) : List α :=
  (List.range Count.toNat).map (fun k => Raw (Start + k))

/-- Engine function `FScriptArray::Add(Count, ElementSize)`: grows the array by `Count`
uninitialised slots at the end and returns the old length. -/
def Add (Raw : Nat → α) (s : FScriptArray α) (Count : Int) : Int × FScriptArray α :=
  (s.Num, ⟨s.Data ++ RawSlots Raw s.Data.length Count⟩)

/-- Engine function `FScriptArray::Remove(Index, Count, ElementSize)`: removes `Count` slots at
`Index`, moving the tail down. Requires `0 ≤ Index`, `0 ≤ Count`,
`Index + Count ≤ Num`. -/
def Remove (s : FScriptArray α) (Index Count : Int) : Option (FScriptArray α) :=
  if 0 ≤ Index ∧ 0 ≤ Count ∧ Index + Count ≤ s.Num then
    some ⟨s.Data.take Index.toNat ++ s.Data.drop (Index.toNat + Count.toNat)⟩
  else none

/-- Engine function `FScriptArray::Empty(Slack, ElementSize)`: drops every slot (only the capacity
depends on `Slack`). -/
def Empty (_s : FScriptArray α) (_Slack : Int) : FScriptArray α := ⟨[]⟩

end FScriptArray

/-! ## The container proxy (`FLuaArray`, `Containers/LuaArray.h`) -/

/-- Type `FLuaArray::EScriptArrayFlag`. -/
inductive EScriptArrayFlag where
  | OwnedByOther
  | OwnedBySelf
deriving DecidableEq, Repr

/-- The state of an `FLuaArray`: the backing script array, the one-element scratch
buffer and the ownership flag. The element interface `Inner` is passed to the
operations. -/
structure FLuaArray (α : Type) where
  ScriptArray : FScriptArray α
  ElementCache : α
  ScriptArrayFlag : EScriptArrayFlag
deriving DecidableEq, Repr

namespace FLuaArray

variable {α : Type}

/-- Method `FLuaArray::Num`. -/
def Num (a : FLuaArray α) : Int := a.ScriptArray.Num

/-- Method `FLuaArray::IsValidIndex`. -/
def IsValidIndex (a : FLuaArray α) (Index : Int) : Bool :=
  decide (Index ≥ 0) && decide (Index < a.Num)

/-- Method `FLuaArray::GetData(Index)`: the slot at `Index`, `none` outside the array. -/
def GetData (a : FLuaArray α) (Index : Int) : Option α :=
  if 0 ≤ Index then a.ScriptArray.Data[Index.toNat]? else none

/-- A write through the pointer `GetData(Index)`: the slot gets the contents `v`. -/
def Store (a : FLuaArray α) (Index : Int) (v : α) : Option (FLuaArray α) :=
  if 0 ≤ Index ∧ Index < a.Num then
    some { a with ScriptArray := ⟨a.ScriptArray.Data.set Index.toNat v⟩ }
  else none

/-- Method `FLuaArray::Construct(Index, Count)`: `Inner->Initialize` on `Count`
consecutive slots from `Index`. -/
def Construct (Inner : ITypeInterface α) (a : FLuaArray α) (Index : Int) : Nat → Option (FLuaArray α)
  | 0 => some a
  | Count + 1 => do
    let Dest ← a.GetData Index
    let a ← a.Store Index (Inner.Initialize Dest)
    Construct Inner a (Index + 1) Count

/-- Method `FLuaArray::Destruct(Index, Count)`: `Inner->Destruct` on `Count` consecutive
slots from `Index`. -/
def Destruct (Inner : ITypeInterface α) (a : FLuaArray α) (Index : Int) : Nat → Option (FLuaArray α)
  | 0 => some a
  | Count + 1 => do
    let Dest ← a.GetData Index
    let a ← a.Store Index (Inner.Destruct Dest)
    Destruct Inner a (Index + 1) Count

/-- Method `FLuaArray::AddDefaulted(Count)`. -/
def AddDefaulted (Inner : ITypeInterface α) (Raw : Nat → α) (a : FLuaArray α) (Count : Int) :
    Option (Int × FLuaArray α) := do
  let (Index, s) := a.ScriptArray.Add Raw Count
  let a ← Construct Inner { a with ScriptArray := s } Index Count.toNat
  pure (Index, a)

/-- Method `FLuaArray::Add(Item)`: returns the index of the added element. -/
def Add (Inner : ITypeInterface α) (Raw : Nat → α) (a : FLuaArray α) (Item : α) :
    Option (Int × FLuaArray α) := do
  let (Index, a) ← AddDefaulted Inner Raw a 1
  let Dest ← a.GetData Index
  let a ← a.Store Index (Inner.Copy Dest Item)
  pure (Index, a)

/-- Method `FLuaArray::Find(Item)`: the first index whose element is `Identical` to
`Item`, `INDEX_NONE` when there is none. -/
def Find (Inner : ITypeInterface α) (a : FLuaArray α) (Item : α) : Int :=
  let i := a.ScriptArray.Data.findIdx (fun CurrentItem => Inner.Identical Item CurrentItem)
  if i < a.ScriptArray.Data.length then (i : Int) else INDEX_NONE

/-- Method `FLuaArray::Remove(Index)`. -/
def Remove (Inner : ITypeInterface α) (a : FLuaArray α) (Index : Int) : Option (FLuaArray α) :=
  if a.IsValidIndex Index then do
    let a ← Destruct Inner a Index 1
    let s ← a.ScriptArray.Remove Index 1
    pure { a with ScriptArray := s }
  else some a

/-- Method `FLuaArray::Clear`. -/
def Clear (Inner : ITypeInterface α) (a : FLuaArray α) : Option (FLuaArray α) :=
  if a.Num ≠ 0 then do
    let a ← Destruct Inner a 0 a.Num.toNat
    pure { a with ScriptArray := a.ScriptArray.Empty 0 }
  else some a

/-- Method `FLuaArray::Reserve(Size)`: the returned flag and the array afterwards. -/
def Reserve (a : FLuaArray α) (Size : Int) : Bool × FLuaArray α :=
  if a.Num > 0 then (false, a)
  else (true, { a with ScriptArray := a.ScriptArray.Empty Size })

/-- Method `FLuaArray::Get(Index, OutItem)`: the array (the method is `const`) and the
contents of the out buffer afterwards. -/
def Get (Inner : ITypeInterface α) (a : FLuaArray α) (Index : Int) (OutItem : α) :
    Option (FLuaArray α × α) :=
  if a.IsValidIndex Index then do
    let Src ← a.GetData Index
    pure (a, Inner.Copy OutItem Src)
  else some (a, OutItem)

/-- Method `FLuaArray::Set(Index, Item)`. -/
def Set (Inner : ITypeInterface α) (a : FLuaArray α) (Index : Int) (Item : α) : Option (FLuaArray α) :=
  if a.IsValidIndex Index then do
    let Dest ← a.GetData Index
    a.Store Index (Inner.Copy Dest Item)
  else some a

/-- The loop of `FLuaArray::RemoveItem`: `Find Inner a Item` is the `Index` of
the loop test (the value of the latest `Find`), `NumRemoved` the running count.
Every round removes one element, so the loop ends. -/
def RemoveItemLoop (Inner : ITypeInterface α) (Item : α) (a : FLuaArray α) (NumRemoved : Int) :
    Option (Int × FLuaArray α) :=
  if Find Inner a Item ≠ INDEX_NONE then
    match h : Remove Inner a (Find Inner a Item) with
    | some b => RemoveItemLoop Inner Item b (NumRemoved + 1)
    | none => none
  else some (NumRemoved, a)
termination_by a.ScriptArray.Data.length
decreasing_by
  rename_i hne
  have hlt : a.ScriptArray.Data.findIdx (fun c => Inner.Identical Item c) < a.ScriptArray.Data.length := by
    by_contra hc
    exact hne (by simp [Find, hc])
  have hF : Find Inner a Item
      = ((a.ScriptArray.Data.findIdx (fun c => Inner.Identical Item c) : Nat) : Int) := by
    simp [Find, hlt]
  rw [hF] at h
  simp only [Remove, IsValidIndex, Num, FScriptArray.Num, Destruct, GetData, Store,
    FScriptArray.Remove] at h
  simp [hlt, Option.bind_eq_some] at h
  obtain ⟨_, ⟨_, rfl⟩, rfl⟩ := h
  simp
  omega

/-- Method `FLuaArray::RemoveItem(Item)`: the number of removed elements and the array
afterwards. -/
def RemoveItem (Inner : ITypeInterface α) (a : FLuaArray α) (Item : α) : Option (Int × FLuaArray α) :=
  RemoveItemLoop Inner Item a 0

/-- One round of the copy loop of `FLuaArray::Append` for a source that is a
different array: copies source element `i` to slot `Index + i`. -/
def AppendStep (Inner : ITypeInterface α) (SourceArray : FLuaArray α) (Index : Int)
    (a : FLuaArray α) (i : Nat) : Option (FLuaArray α) := do
  let Dest ← a.GetData (Index + (i : Int))
  let Src ← SourceArray.GetData (i : Int)
  a.Store (Index + (i : Int)) (Inner.Copy Dest Src)

/-- Method `FLuaArray::Append(SourceArray)` where `SourceArray` is a proxy over another
backing array (its length does not change while the loop runs). The result is the
destination and the source (a `const` reference) afterwards. -/
def Append (Inner : ITypeInterface α) (Raw : Nat → α) (a SourceArray : FLuaArray α) :
    Option (FLuaArray α × FLuaArray α) :=
  if SourceArray.Num > 0 then do
    let (Index, a) ← AddDefaulted Inner Raw a SourceArray.Num
    let a ← (List.range SourceArray.Num.toNat).foldlM (AppendStep Inner SourceArray Index) a
    pure (a, SourceArray)
  else some (a, SourceArray)

end FLuaArray

/-! ## Dynamic binding (`LuaDynamicBinding.cpp`) -/

/-- A `UClass*`: `none` is `nullptr`, `some c` the class with identity `c`. -/
abbrev UClassPtr := Option Nat

/-- Type `FLuaDynamicBindingStackNode`: class, module name and initializer table
reference. -/
structure FLuaDynamicBindingStackNode where
  Class : UClassPtr
  ModuleName : String
  InitializerTableRef : Int
deriving DecidableEq, Repr

/-- Type `FLuaDynamicBinding`: the current tuple and the stack of saved tuples. The
head of `Stack` is the top of the engine array used as a stack. -/
structure FLuaDynamicBinding where
  Class : UClassPtr
  ModuleName : String
  InitializerTableRef : Int
  Stack : List FLuaDynamicBindingStackNode
deriving DecidableEq, Repr

namespace FLuaDynamicBinding

/-- The current `(Class, ModuleName, InitializerTableRef)` tuple. -/
def Current (s : FLuaDynamicBinding) : FLuaDynamicBindingStackNode :=
  ⟨s.Class, s.ModuleName, s.InitializerTableRef⟩

/-- Method `FLuaDynamicBinding::IsValid(InClass)`. -/
def IsValid (s : FLuaDynamicBinding) (InClass : UClassPtr) : Bool :=
  s.Class.isSome && decide (s.Class = InClass) && decide (s.ModuleName.length > 0)

/-- Method `FLuaDynamicBinding::Push`: the returned flag and the state afterwards. -/
def Push (s : FLuaDynamicBinding) (InClass : UClassPtr) (InModuleName : String)
    (InInitializerTableRef : Int) : Bool × FLuaDynamicBinding :=
  let StackNode : FLuaDynamicBindingStackNode :=
    { Class := s.Class, ModuleName := s.ModuleName, InitializerTableRef := s.InitializerTableRef }
  (true, { Class := InClass, ModuleName := InModuleName,
           InitializerTableRef := InInitializerTableRef, Stack := StackNode :: s.Stack })

/-- Method `FLuaDynamicBinding::Pop`: `none` when `check(Stack.Num() > 0)` fails,
otherwise the returned table reference and the state afterwards. -/
def Pop (s : FLuaDynamicBinding) : Option (Int × FLuaDynamicBinding) :=
  match s.Stack with
  | [] => none
  | StackNode :: Rest =>
    let TableRef := s.InitializerTableRef
    some (TableRef, { Class := StackNode.Class, ModuleName := StackNode.ModuleName,
                      InitializerTableRef := StackNode.InitializerTableRef, Stack := Rest })

end FLuaDynamicBinding

/-- A call on the dynamic binding: a `Push` with its arguments or a `Pop`. -/
inductive BindingCall where
  | push (InClass : UClassPtr) (InModuleName : String) (InInitializerTableRef : Int)
  | pop
deriving DecidableEq, Repr

/-- The state after a sequence of calls, `none` when a `Pop` fails its check. -/
def RunBindingCalls (s : FLuaDynamicBinding) : List BindingCall → Option FLuaDynamicBinding
  | [] => some s
  | BindingCall.push c m r :: rest => RunBindingCalls (s.Push c m r).2 rest
  | BindingCall.pop :: rest =>
    match s.Pop with
    | some (_, t) => RunBindingCalls t rest
    | none => none

/-- Stack semantics as the specification words it: the tuples pushed and not yet
popped, most recent first, given the tuples `ts` outstanding before the calls.
`none` when a `pop` has no outstanding `push` (the sequence is not well nested). -/
def OutstandingPushes (ts : List FLuaDynamicBindingStackNode) :
    List BindingCall → Option (List FLuaDynamicBindingStackNode)
  | [] => some ts
  | BindingCall.push c m r :: rest => OutstandingPushes (⟨c, m, r⟩ :: ts) rest
  | BindingCall.pop :: rest =>
    match ts with
    | [] => none
    | _ :: ts => OutstandingPushes ts rest

/-! ## Function overrides (`LuaFunction.cpp`, `LuaOverrides.cpp`)

Engine objects are identified by `ObjId` (their address). The world holds the
reflected functions, the override classes, the registry of `FLuaOverrides` and,
per class, the function map and the native function lookup table. Dereferencing a
pointer to no object and a failed `check` give `none`. Classes passed to the
calls are live for the duration of the calls (no garbage collection in between);
GC rooting, metadata and the function descriptor `Desc` are not part of the state.
The engine functions the code calls (`StaticDuplicateObject`, the function map and
native function table of `UClass`, the unaligned pointer access) are modelled by
their effect on this state.
-/

/-- The address of an engine object. -/
abbrev ObjId := Nat

/-- The values of `FNativeFuncPtr` that matter: the two script entry points of
`ULuaFunction`, the engine's `ProcessInternal`, and any other native entry. -/
inductive FNativeFuncPtr where
  | native (Address : Nat)
  | execCallLua
  | execScriptCallLua
  | ProcessInternal
deriving DecidableEq, Repr

/-- The engine flag `FUNC_Net`. -/
def FUNC_Net : Nat := 0x00000040
/-- The engine flag `FUNC_Native`. -/
def FUNC_Native : Nat := 0x00000400
/-- The engine flag `FUNC_Event`. -/
def FUNC_Event : Nat := 0x00000800
/-- The engine flag `FUNC_BlueprintEvent`. -/
def FUNC_BlueprintEvent : Nat := 0x08000000

/-- The engine bytecode token `EX_StringConst`. -/
def EX_StringConst : Nat := 0x1F
/-- The engine bytecode token `EX_UInt64Const`. -/
def EX_UInt64Const : Nat := 0x36

/-- Constant `ScriptMagicHeader`: `EX_StringConst, 'L', 'U', 'A', 0, EX_UInt64Const`. -/
def ScriptMagicHeader : List Nat := [EX_StringConst, 0x4C, 0x55, 0x41, 0, EX_UInt64Const]

/-- Constant `ScriptMagicHeaderSize`. -/
def ScriptMagicHeaderSize : Nat := ScriptMagicHeader.length

/-- Size `sizeof(ULuaFunction*)` on the 64-bit targets of the plugin. -/
def PointerSize : Nat := 8

/-- Engine function `FPlatformMemory::WriteUnaligned<ULuaFunction*>`: the bytes of a pointer,
least significant first. -/
def WriteUnaligned (Pointer : ObjId) : List Nat :=
  (List.range PointerSize).map (fun i => Pointer / 256 ^ i % 256)

/-- Engine function `FPlatformMemory::ReadUnaligned<ULuaFunction*>`: the pointer stored in the
first `PointerSize` bytes. -/
def ReadUnaligned (Data : List Nat) : ObjId :=
  (Data.take PointerSize).foldr (fun b acc => b + 256 * acc) 0

/-- The members `ULuaFunction` adds to `UFunction`. `From` is a weak pointer. -/
structure ULuaFunctionPart where
  From : Option ObjId
  Overridden : Option ObjId
  bActivated : Bool
  bAdded : Bool
deriving DecidableEq, Repr

/-- A reflected function: name, outer object, flags (`uint32`), dispatch entry,
script body bytes and super struct. `LuaFunction` is `some` exactly for objects
of class `ULuaFunction`. The parameter layout (`Children`, `ChildProperties`,
`PropertyLink`) is not modelled. -/
structure UFunction where
  Name : String
  Outer : ObjId
  FunctionFlags : Nat
  NativeFunc : FNativeFuncPtr
  Script : List Nat
  SuperStruct : Option ObjId
  LuaFunction : Option ULuaFunctionPart
deriving DecidableEq, Repr

/-- Engine function `UFunction::HasAnyFunctionFlags`. -/
def UFunction.HasAnyFunctionFlags (f : UFunction) (FlagsToCheck : Nat) : Bool :=
  f.FunctionFlags &&& FlagsToCheck != 0

/-- Type `ULuaOverridesClass`: the weak pointer to the class it serves and the chain
of its functions, most recently linked first. -/
structure ULuaOverridesClass where
  Owner : Option ObjId
  Children : List ObjId
deriving DecidableEq, Repr

/-- A table indexed by object address with the entry at `Id` replaced. -/
def Assign {β : Type} (Table : ObjId → β) (Id : ObjId) (Value : β) : ObjId → β :=
  fun Key => if Key = Id then Value else Table Key

/-- The part of the engine state the override code reads and writes. -/
structure World where
  Functions : ObjId → Option UFunction
  OverridesClasses : ObjId → Option ULuaOverridesClass
  Overrides : ObjId → Option ObjId
  FuncMap : ObjId → List (String × ObjId)
  NativeFunctionLookupTable : ObjId → List (String × FNativeFuncPtr)
  NextId : ObjId

namespace World

/-- A write to the object of a function. -/
def setFunction (w : World) (Id : ObjId) (f : UFunction) : World :=
  { w with Functions := Assign w.Functions Id (some f) }

/-- Engine function `UClass::AddNativeFunction(Name, Pointer)` on class `Class`. -/
def AddNativeFunction (w : World) (Class : ObjId) (Name : String) (Pointer : FNativeFuncPtr) :
    World :=
  let Table := w.NativeFunctionLookupTable Class ++ [(Name, Pointer)]
  { w with NativeFunctionLookupTable := Assign w.NativeFunctionLookupTable Class Table }

/-- Engine function `UClass::FindFunctionByName(Name, EIncludeSuperFlag::ExcludeSuper)`. -/
def FindFunctionByName (w : World) (Class : ObjId) (Name : String) : Option ObjId :=
  (w.FuncMap Class).lookup Name

/-- Engine function `UClass::AddFunctionToFunctionMap(Function, FuncName)`. -/
def AddFunctionToFunctionMap (w : World) (Class : ObjId) (Function : ObjId) (FuncName : String) :
    World :=
  let Map := (FuncName, Function) :: (w.FuncMap Class).filter (fun e => e.1 != FuncName)
  { w with FuncMap := Assign w.FuncMap Class Map }

/-- Engine function `UClass::RemoveFunctionFromFunctionMap(Function)`, by the name of the function. -/
def RemoveFunctionFromFunctionMap (w : World) (Class : ObjId) (FName : String) : World :=
  let Map := (w.FuncMap Class).filter (fun e => e.1 != FName)
  { w with FuncMap := Assign w.FuncMap Class Map }

/-- Engine function `StaticDuplicateObject` of a function: a new object with the serialised
state of `Source` (flags, script body, super struct) under a new name and outer.
Its dispatch entry is set by the callers; `AsLuaFunction` makes the copy a
`ULuaFunction` with default members. -/
def StaticDuplicateObject (w : World) (Source : UFunction) (DestOuter : ObjId) (DestName : String)
    (AsLuaFunction : Bool) : ObjId × World :=
  let Copy : UFunction :=
    { Name := DestName, Outer := DestOuter, FunctionFlags := Source.FunctionFlags,
      NativeFunc := FNativeFuncPtr.ProcessInternal, Script := Source.Script,
      SuperStruct := Source.SuperStruct,
      LuaFunction := if AsLuaFunction then
        some { From := none, Overridden := none, bActivated := false, bAdded := false }
        else none }
  (w.NextId, { (w.setFunction w.NextId Copy) with NextId := w.NextId + 1 })

end World

namespace ULuaFunction

/-- Method `ULuaFunction::Get(Function)`: the override object of a function, `none`
for `nullptr`. -/
def Get (w : World) (Function : Option ObjId) : Option ObjId :=
  match Function with
  | none => none
  | some Id =>
    match w.Functions Id with
    | none => none
    | some f =>
      if f.LuaFunction.isSome then some Id
      else if f.Script.length < ScriptMagicHeaderSize + PointerSize then none
      else if f.Script.take ScriptMagicHeaderSize ≠ ScriptMagicHeader then none
      else some (ReadUnaligned (f.Script.drop ScriptMagicHeaderSize))

/-- Method `ULuaFunction::IsOverridable`. -/
def IsOverridable (Function : UFunction) : Bool :=
  let FlagMask := FUNC_Native ||| FUNC_Event ||| FUNC_Net
  let FlagResult := FUNC_Native ||| FUNC_Event
  Function.HasAnyFunctionFlags FUNC_BlueprintEvent ||
    (Function.FunctionFlags &&& FlagMask) == FlagResult

/-- The branch `bActive` of `ULuaFunction::SetActive` for a record `Self`
with original `Function` in class `Class`. -/
def Activate (w : World) (Self Function Class : ObjId) : Option World := do
  let self ← w.Functions Self
  let part ← self.LuaFunction
  let function ← w.Functions Function
  if part.bAdded then
    if (w.FindFunctionByName Class self.Name).isSome then none else
    let w := w.setFunction Self
      { self with SuperStruct := some Function,
                  FunctionFlags := self.FunctionFlags ||| FUNC_Native,
                  NativeFunc := FNativeFuncPtr.execCallLua }
    let w := w.AddFunctionToFunctionMap Class Self self.Name
    some (if function.HasAnyFunctionFlags FUNC_Native then
        w.AddNativeFunction Class self.Name FNativeFuncPtr.execCallLua else w)
  else
    let w := w.setFunction Self
      { self with SuperStruct := function.SuperStruct, Script := function.Script }
    let function ← w.Functions Function
    let w := w.setFunction Function
      { function with FunctionFlags := function.FunctionFlags ||| FUNC_Native,
                      NativeFunc := FNativeFuncPtr.execScriptCallLua,
                      Script := ScriptMagicHeader ++ WriteUnaligned Self }
    some (w.AddNativeFunction function.Outer function.Name FNativeFuncPtr.execScriptCallLua)

/-- The branch `!bActive` of `ULuaFunction::SetActive`. -/
def Deactivate (w : World) (Self Function Class : ObjId) : Option World := do
  let self ← w.Functions Self
  let part ← self.LuaFunction
  let function ← w.Functions Function
  if part.bAdded then
    some (w.RemoveFunctionFromFunctionMap Class self.Name)
  else
    let Overridden ← part.Overridden
    let overridden ← w.Functions Overridden
    let w := w.setFunction Function
      { function with Script := self.Script, NativeFunc := overridden.NativeFunc,
                      FunctionFlags := overridden.FunctionFlags }
    some (w.AddNativeFunction function.Outer function.Name overridden.NativeFunc)

/-- Method `ULuaFunction::SetActive(bActive)` on the override object `Self`. -/
def SetActive (w : World) (Self : ObjId) (bActive : Bool) : Option World := do
  let self ← w.Functions Self
  let part ← self.LuaFunction
  if part.bActivated = bActive then some w else
  match part.From.bind (fun Id => (w.Functions Id).map (fun _ => Id)) with
  | none => some w
  | some Function =>
    let overridesClass ← w.OverridesClasses self.Outer
    match overridesClass.Owner with
    | none => some w
    | some Class =>
      let w ← if bActive then Activate w Self Function Class else Deactivate w Self Function Class
      let self ← w.Functions Self
      let part ← self.LuaFunction
      some (w.setFunction Self { self with LuaFunction := some { part with bActivated := bActive } })

/-- Method `ULuaFunction::Override(Function, Class, bAddNew)` on the override object
`Self`. -/
def Override (w : World) (Self : ObjId) (Function : ObjId) (_Class : ObjId) (bAddNew : Bool) :
    Option World := do
  let self ← w.Functions Self
  let part ← self.LuaFunction
  let function ← w.Functions Function
  if (part.From.bind w.Functions).isSome then none else
  let part := { part with bActivated := false, bAdded := bAddNew, From := some Function }
  let w ←
    if function.NativeFunc = FNativeFuncPtr.execScriptCallLua then do
      let LuaFunction ← Get w (some Function)
      let luaFunction ← w.Functions LuaFunction
      let other ← luaFunction.LuaFunction
      let Overridden ← other.Overridden
      some (w.setFunction Self
        { self with LuaFunction := some { part with Overridden := some Overridden } })
    else do
      let DestName := function.Name ++ "__Overridden"
      let w := if function.HasAnyFunctionFlags FUNC_Native then
        w.AddNativeFunction self.Outer DestName function.NativeFunc else w
      let (Overridden, w) := w.StaticDuplicateObject function self.Outer DestName false
      let overridden ← w.Functions Overridden
      let w := w.setFunction Overridden { overridden with NativeFunc := function.NativeFunc }
      let self ← w.Functions Self
      some (w.setFunction Self
        { self with LuaFunction := some { part with Overridden := some Overridden } })
  SetActive w Self true

/-- Method `ULuaFunction::Restore()` on the override object `Self`. The three
assignments to the original and the registration of its native entry read only
`Self` and `Overridden`, whose fields they read are not written in between. -/
def Restore (w : World) (Self : ObjId) : Option World := do
  let self ← w.Functions Self
  let part ← self.LuaFunction
  if part.bAdded then
    let overridesClass ← w.OverridesClasses self.Outer
    match overridesClass.Owner with
    | some OverriddenClass => some (w.RemoveFunctionFromFunctionMap OverriddenClass self.Name)
    | none => some w
  else
    match part.From.bind (fun Id => (w.Functions Id).map (fun f => (Id, f))) with
    | none => some w
    | some (Old, old) =>
      let Overridden ← part.Overridden
      let overridden ← w.Functions Overridden
      let w := w.setFunction Old
        { old with Script := self.Script, NativeFunc := overridden.NativeFunc,
                   FunctionFlags := overridden.FunctionFlags }
      some (w.AddNativeFunction old.Outer old.Name overridden.NativeFunc)

/-- Method `ULuaFunction::Bind()` on the override object `Self`. -/
def Bind (w : World) (Self : ObjId) : Option World := do
  let self ← w.Functions Self
  let part ← self.LuaFunction
  if (part.From.bind w.Functions).isSome then
    if part.bAdded then
      some (w.setFunction Self { self with NativeFunc := FNativeFuncPtr.execCallLua })
    else do
      let Overridden ← part.Overridden
      let overridden ← w.Functions Overridden
      some (w.setFunction Self { self with NativeFunc := overridden.NativeFunc })
  else
    some (w.setFunction Self { self with NativeFunc := FNativeFuncPtr.ProcessInternal })

end ULuaFunction

namespace ULuaOverridesClass

/-- Modelled from the spec: `ULuaOverridesClass::Create(Class)` is not among the
sources; it makes the override class of `Class`, with no function yet. -/
def Create (w : World) (Class : ObjId) : ObjId × World :=
  let Object : ULuaOverridesClass := { Owner := some Class, Children := [] }
  (w.NextId,
   { w with OverridesClasses := Assign w.OverridesClasses w.NextId (some Object),
            NextId := w.NextId + 1 })

/-- Modelled from the spec: `ULuaOverridesClass::Restore()` is not among the
sources; restoring a class invokes `ULuaFunction::Restore` on each of its
outstanding override records, in the order of the function chain. -/
def Restore (w : World) (Self : ObjId) : Option World := do
  let self ← w.OverridesClasses Self
  self.Children.foldlM (fun w LuaFunction => ULuaFunction.Restore w LuaFunction) w

end ULuaOverridesClass

namespace FLuaOverrides

/-- Method `FLuaOverrides::GetOrAddOverridesClass(Class)`. -/
def GetOrAddOverridesClass (w : World) (Class : ObjId) : ObjId × World :=
  match (w.Overrides Class).bind (fun Id => (w.OverridesClasses Id).map (fun _ => Id)) with
  | some Exists => (Exists, w)
  | none =>
    let (OverridesClass, w) := ULuaOverridesClass.Create w Class
    (OverridesClass, { w with Overrides := Assign w.Overrides Class (some OverridesClass) })

/-- The duplicate that `FLuaOverrides::Override` links into the override class. -/
def Duplicate (function : UFunction) (OverridesClass : ObjId) (NewName : String) :
    UFunction :=
  { Name := NewName, Outer := OverridesClass, FunctionFlags := function.FunctionFlags,
    NativeFunc := FNativeFuncPtr.ProcessInternal, Script := function.Script,
    SuperStruct := function.SuperStruct,
    LuaFunction := some ⟨none, none, false, false⟩ }

/-- The world in which `ULuaFunction::Override` runs on the duplicate. -/
def Linked (w : World) (OverridesClass : ObjId) (NewName : String)
    (function : UFunction) (o : ULuaOverridesClass) : World :=
  { w with
    Functions := Assign w.Functions w.NextId
      (some (Duplicate function OverridesClass NewName)),
    OverridesClasses := Assign w.OverridesClasses OverridesClass
      (some { o with Children := w.NextId :: o.Children }),
    NextId := w.NextId + 1 }

/-- The part of `FLuaOverrides::Override` after the early returns: duplicate the
function (with `FUNC_Native` cleared for the duplication) into a `ULuaFunction`
that gets the original flags, put the original flags back, link the duplicate
into the override class and activate it. -/
def Interpose (w : World) (OverridesClass Function Class : ObjId) (NewName : String)
    (bAddNew : Bool) : Option World := do
  let function ← w.Functions Function
  let OriginalFunctionFlags := function.FunctionFlags
  let w := w.setFunction Function
    { function with FunctionFlags := function.FunctionFlags &&& (0xFFFFFFFF ^^^ FUNC_Native) }
  let function ← w.Functions Function
  let (LuaFunction, w) := w.StaticDuplicateObject function OverridesClass NewName true
  let function ← w.Functions Function
  let w := w.setFunction Function { function with FunctionFlags := OriginalFunctionFlags }
  let luaFunction ← w.Functions LuaFunction
  let w := w.setFunction LuaFunction { luaFunction with FunctionFlags := OriginalFunctionFlags }
  let overridesClass ← w.OverridesClasses OverridesClass
  let Linked := { overridesClass with Children := LuaFunction :: overridesClass.Children }
  let w := { w with OverridesClasses := Assign w.OverridesClasses OverridesClass (some Linked) }
  let w ← ULuaFunction.Override w LuaFunction Function Class bAddNew
  ULuaFunction.Bind w LuaFunction

/-- Method `FLuaOverrides::Override(Function, Class, NewName)`. -/
def Override (w : World) (Function Class : ObjId) (NewName : String) : Option World := do
  let (OverridesClass, w) := GetOrAddOverridesClass w Class
  let function ← w.Functions Function
  let bAddNew := function.Outer != Class
  if bAddNew then
    match w.FindFunctionByName Class NewName with
    | some Exists => do
      let existing ← w.Functions Exists
      if existing.SuperStruct = some Function then some w
      else Interpose w OverridesClass Function Class NewName bAddNew
    | none => Interpose w OverridesClass Function Class NewName bAddNew
  else
    if function.LuaFunction.isSome then some w
    else Interpose w OverridesClass Function Class NewName bAddNew

/-- Method `FLuaOverrides::Restore(Class)`. -/
def Restore (w : World) (Class : ObjId) : Option World :=
  match w.Overrides Class with
  | none => some w
  | some OverridesClass =>
    let w := { w with Overrides := Assign w.Overrides Class none }
    match w.OverridesClasses OverridesClass with
    | none => some w
    | some _ => ULuaOverridesClass.Restore w OverridesClass

end FLuaOverrides

/-! ### States in which an override is requested -/

namespace World

/-- No object lives at or above the next address to be handed out. -/
def Allocated (w : World) : Prop :=
  ∀ Id, w.NextId ≤ Id → w.Functions Id = none ∧ w.OverridesClasses Id = none

/-- Object `Child` is an override record of the override class `OverridesClass`: a
`ULuaFunction` whose outer is that class and which, unless it is a newly added
function, holds the backup `Overridden` of its original. -/
def IsRecord (w : World) (OverridesClass Child : ObjId) : Prop :=
  ∃ r part, w.Functions Child = some r ∧ r.LuaFunction = some part ∧ r.Outer = OverridesClass ∧
    (part.bAdded = false → ∃ Overridden o, part.Overridden = some Overridden ∧
      w.Functions Overridden = some o)

/-- The registry entry of `Class`, when there is one, is the override class
created for `Class` and its chain holds override records. -/
def RegistryEntryWellFormed (w : World) (Class : ObjId) : Prop :=
  ∀ OverridesClass o, w.Overrides Class = some OverridesClass →
    w.OverridesClasses OverridesClass = some o →
    o.Owner = some Class ∧ ∀ Child ∈ o.Children, w.IsRecord OverridesClass Child

/-- Class `Class` already holds a record that replaces the body of `Function` (a true
override, not a newly added function). -/
def HasTrueOverride (w : World) (Class Function : ObjId) : Prop :=
  ∃ OverridesClass o Child r part, w.Overrides Class = some OverridesClass ∧
    w.OverridesClasses OverridesClass = some o ∧ Child ∈ o.Children ∧
    w.Functions Child = some r ∧ r.LuaFunction = some part ∧ part.bAdded = false ∧
    part.From = some Function

/-- What a later `ULuaFunction::Restore` depends on: outer and `ULuaFunction`
members of every object. -/
def Shape (w : World) (Id : ObjId) : Option (ObjId × Option ULuaFunctionPart) :=
  (w.Functions Id).map (fun r => (r.Outer, r.LuaFunction))

/-- A record that `ULuaFunction::Restore` can process and that does not write to
`Function`. -/
def Harmless (w : World) (OverridesClass Function Child : ObjId) : Prop :=
  ∃ part, w.Shape Child = some (OverridesClass, some part) ∧
    (part.bAdded = false → ∃ Overridden, part.Overridden = some Overridden ∧
      (w.Shape Overridden).isSome) ∧
    ¬ (part.bAdded = false ∧ part.From = some Function)

end World

/-- The marker payload of `Function` names a live override record that holds a
backup of the original (the function is interposed by the class that owns it). -/
def ULuaFunction.HoldsBackup (w : World) (Function : ObjId) : Prop :=
  ∃ L l lp Backup, ULuaFunction.Get w (some Function) = some L ∧ w.Functions L = some l ∧
    l.LuaFunction = some lp ∧ lp.Overridden = some Backup

/-! ## The destructor of the container proxy (`FLuaArray::~FLuaArray`)

The destructor is followed through the calls the ownership discipline is about:
the calls of `Inner->Destruct`, `ScriptArray->Empty`, `delete ScriptArray` and the
release of the scratch buffer, in the order in which they happen. -/

/-- A call made while an `FLuaArray` is destroyed. -/
inductive EArrayEffect where
  | DestructElement (Index : Int)
  | EmptyScriptArray
  | DeleteScriptArray
  | FreeElementCache
deriving DecidableEq, Repr

namespace FLuaArray

variable {α : Type}

/-- Method `FLuaArray::Destruct(Index, Count)` together with the calls of
`Inner->Destruct` it makes, in order. -/
def DestructTraced (Inner : ITypeInterface α) (a : FLuaArray α) (Index : Int) :
    Nat → Option (FLuaArray α × List EArrayEffect)
  | 0 => some (a, [])
  | Count + 1 => do
    let Dest ← a.GetData Index
    let a ← a.Store Index (Inner.Destruct Dest)
    let (a, Effects) ← DestructTraced Inner a (Index + 1) Count
    pure (a, EArrayEffect.DestructElement Index :: Effects)

/-- Method `FLuaArray::Clear` together with the calls it makes. -/
def ClearTraced (Inner : ITypeInterface α) (a : FLuaArray α) :
    Option (FLuaArray α × List EArrayEffect) :=
  if a.Num ≠ 0 then do
    let (a, Effects) ← DestructTraced Inner a 0 a.Num.toNat
    pure ({ a with ScriptArray := a.ScriptArray.Empty 0 }, Effects ++ [EArrayEffect.EmptyScriptArray])
  else some (a, [])

/-- The destructor `FLuaArray::~FLuaArray`: the backing array that still exists
afterwards (`none` once it is deleted) and the calls made, in order. -/
def Destructor (Inner : ITypeInterface α) (a : FLuaArray α) :
    Option (Option (FScriptArray α) × List EArrayEffect) :=
  if a.ScriptArrayFlag = EScriptArrayFlag.OwnedBySelf then do
    let (_, Effects) ← ClearTraced Inner a
    pure (none, Effects ++ [EArrayEffect.DeleteScriptArray, EArrayEffect.FreeElementCache])
  else some (some a.ScriptArray, [EArrayEffect.FreeElementCache])

end FLuaArray

/-! ## The registry of exported types (`Binding.cpp`)

The interfaces `IExportedClass`, `IExportedEnum` and `IExportedFunction` are
declared outside `Binding.cpp`; an entry is modelled by what the registry reads of
it (`GetName()`, `IsReflected()`) and by its address. The engine map
`TMap<FString, V>` is the list of its pairs; `Add` replaces the pair stored under
the key. -/

/-- An exported class: the results of `GetName()` and `IsReflected()` and the address
of the object. -/
structure IExportedClass where
  Name : String
  IsReflected : Bool
  Address : Nat
deriving DecidableEq, Repr

/-- An exported enum: the result of `GetName()` and the address of the object. -/
structure IExportedEnum where
  Name : String
  Address : Nat
deriving DecidableEq, Repr

/-- An exported global function: the result of `GetName()` and the address of the
object. -/
structure IExportedFunction where
  Name : String
  Address : Nat
deriving DecidableEq, Repr

/-- The engine map `TMap<FString, V>` as the list of its key and value pairs. -/
abbrev TMap (V : Type) := List (String × V)

namespace TMap

variable {V : Type}

/-- Engine function `TMap::Add(Key, Value)`: the pair stored under `Key`, if any, is
replaced. -/
def Add (m : TMap V) (Key : String) (Value : V) : TMap V :=
  m.filter (fun Pair => Pair.1 != Key) ++ [(Key, Value)]

/-- Engine function `TMap::FindRef(Key)`: the value stored under `Key`; `none` stands
for the default value (a null pointer). -/
def FindRef (m : TMap V) (Key : String) : Option V :=
  (m.find? (fun Pair => Pair.1 == Key)).map (fun Pair => Pair.2)

end TMap

/-- Type `FExported`: the five containers of the registry. A `TSharedPtr` to a type
interface is `none` when null, else the address of the interface. -/
structure FExported where
  Enums : List IExportedEnum
  Functions : List IExportedFunction
  ReflectedClasses : TMap IExportedClass
  NonReflectedClasses : TMap IExportedClass
  Types : TMap (Option Nat)
deriving DecidableEq, Repr

/-- Function `UnLua::ExportClass`. -/
def ExportClass (e : FExported) (Class : IExportedClass) : FExported :=
  if Class.IsReflected then
    { e with ReflectedClasses := e.ReflectedClasses.Add Class.Name Class }
  else
    { e with NonReflectedClasses := e.NonReflectedClasses.Add Class.Name Class }

/-- Function `UnLua::ExportEnum`: `TArray::Add` appends. -/
def ExportEnum (e : FExported) (Enum : IExportedEnum) : FExported :=
  { e with Enums := e.Enums ++ [Enum] }

/-- Function `UnLua::ExportFunction`: `TArray::Add` appends. -/
def ExportFunction (e : FExported) (Function : IExportedFunction) : FExported :=
  { e with Functions := e.Functions ++ [Function] }

/-- Function `UnLua::AddType`: an empty name or a null interface fails the `ensure` and
nothing is registered. -/
def AddType (e : FExported) (Name : String) (TypeInterface : Option Nat) : FExported :=
  if ¬ (Name ≠ "" ∧ TypeInterface.isSome) then e
  else { e with Types := e.Types.Add Name TypeInterface }

/-- Function `UnLua::FindExportedClass`: the class found and the registry afterwards. -/
def FindExportedClass (e : FExported) (Name : String) : Option IExportedClass × FExported :=
  match e.ReflectedClasses.FindRef Name with
  | some Class => (some Class, e)
  | none => (e.NonReflectedClasses.FindRef Name, e)

/-- A registration call with its arguments. -/
inductive ExportCall where
  | exportClass (Class : IExportedClass)
  | exportEnum (Enum : IExportedEnum)
  | exportFunction (Function : IExportedFunction)
  | addType (Name : String) (TypeInterface : Option Nat)
deriving DecidableEq, Repr

/-- The registry after one registration call. -/
def ExportCall.Apply (e : FExported) : ExportCall → FExported
  | ExportCall.exportClass Class => ExportClass e Class
  | ExportCall.exportEnum Enum => ExportEnum e Enum
  | ExportCall.exportFunction Function => ExportFunction e Function
  | ExportCall.addType Name TypeInterface => AddType e Name TypeInterface

/-- The values of `lua_Hook` that matter: the line hook of the watchdog, or a hook
installed by other code. -/
inductive lua_Hook where
  | OnLuaLineEvent
  | Foreign (Address : Nat)
deriving DecidableEq, Repr

/-- Type `FDeadLoopCheck::FRunner`: the members the watchdog thread shares with the
script threads. -/
structure FRunner where
  bRunning : Bool
  GuardCounter : Int
  TimeoutCounter : Int
  TimeoutGuard : Option Nat
deriving DecidableEq, Repr

/-- Type `FDeadLoopCheck` with the static `Timeout`, its runner and the debug hook of
the main Lua state (`none` when no hook is installed). -/
structure FDeadLoopCheck where
  Timeout : Int
  Runner : FRunner
  Hook : Option lua_Hook
  LiveGuards : List Nat
  SetTimeoutCalls : List Nat
deriving DecidableEq, Repr

namespace FRunner

/-- The constructor `FRunner::FRunner`. -/
def New : FRunner :=
  { bRunning := true, GuardCounter := 0, TimeoutCounter := 0, TimeoutGuard := none }

/-- Method `FRunner::GuardEnter(Guard)`. -/
def GuardEnter (r : FRunner) (Guard : Nat) : FRunner :=
  let r := { r with GuardCounter := r.GuardCounter + 1 }
  if r.GuardCounter > 1 then r
  else { r with TimeoutCounter := 0, TimeoutGuard := some Guard }

/-- Method `FRunner::GuardLeave`. -/
def GuardLeave (r : FRunner) : FRunner :=
  { r with GuardCounter := r.GuardCounter - 1 }

end FRunner

namespace FGuard

/-- The constructor `FGuard::FGuard(Owner)` of the guard at `Address`. -/
def New (d : FDeadLoopCheck) (Address : Nat) : FDeadLoopCheck :=
  { d with Runner := d.Runner.GuardEnter Address, LiveGuards := Address :: d.LiveGuards }

/-- The destructor `FGuard::~FGuard` of the guard at `Address`. -/
def Delete (d : FDeadLoopCheck) (Address : Nat) : FDeadLoopCheck :=
  { d with Runner := d.Runner.GuardLeave, LiveGuards := d.LiveGuards.erase Address }

/-- Method `FGuard::SetTimeout` called through the pointer `Guard`: installs the line
hook when no hook is installed. -/
def SetTimeout (d : FDeadLoopCheck) (Guard : Nat) : Option FDeadLoopCheck :=
  if Guard ∈ d.LiveGuards then
    some { d with
      Hook := if d.Hook = none then some lua_Hook.OnLuaLineEvent else d.Hook,
      SetTimeoutCalls := d.SetTimeoutCalls ++ [Guard] }
  else none

/-- Method `FGuard::OnLuaLineEvent`: removes the hook and raises the script error with
the returned message. -/
def OnLuaLineEvent (d : FDeadLoopCheck) : FDeadLoopCheck × String :=
  ({ d with Hook := none }, "lua script exec timeout")

end FGuard

namespace FDeadLoopCheck

/-- The constructor `FDeadLoopCheck::FDeadLoopCheck` for a given value of the static
`Timeout` and of the hook of the Lua state. -/
def New (Timeout : Int) (Hook : Option lua_Hook) : FDeadLoopCheck :=
  { Timeout := Timeout, Runner := FRunner.New, Hook := Hook, LiveGuards := [],
    SetTimeoutCalls := [] }

/-- Method `FDeadLoopCheck::MakeGuard`: the returned pointer (`none` for the empty
`TUniquePtr`) and the state afterwards; `Address` is where a new guard is placed. -/
def MakeGuard (d : FDeadLoopCheck) (Address : Nat) : Option Nat × FDeadLoopCheck :=
  if d.Timeout ≤ 0 then (none, d)
  else (some Address, FGuard.New d Address)

/-- One round of the loop of `FRunner::Run`, after the sleep of one second. -/
def RunRound (d : FDeadLoopCheck) : Option FDeadLoopCheck :=
  if ¬ d.Runner.bRunning then some d
  else if d.Runner.GuardCounter = 0 then some d
  else
    let d := { d with Runner := { d.Runner with TimeoutCounter := d.Runner.TimeoutCounter + 1 } }
    if d.Runner.TimeoutCounter < d.Timeout then some d
    else
      match d.Runner.TimeoutGuard with
      | some Guard =>
        FGuard.SetTimeout { d with Runner := { d.Runner with TimeoutGuard := none } } Guard
      | none => some d

end FDeadLoopCheck

/-- What happens around guarded script calls: a call starts (`MakeGuard`, a new
guard would be placed at `Address`), the innermost running call ends (its
`TUniquePtr<FGuard>` is destroyed), or the watchdog thread makes one round. -/
inductive EScriptEvent where
  | Call (Address : Nat)
  | Return
  | Tick
deriving DecidableEq, Repr

/-- One event on the watchdog and on the guard pointers held by the running calls,
innermost first. A `Return` with no running call destroys nothing. -/
def EScriptEvent.Apply (s : FDeadLoopCheck × List (Option Nat)) :
    EScriptEvent → Option (FDeadLoopCheck × List (Option Nat))
  | EScriptEvent.Call Address =>
    some ((s.1.MakeGuard Address).2, (s.1.MakeGuard Address).1 :: s.2)
  | EScriptEvent.Return =>
    match s.2 with
    | [] => some s
    | none :: Rest => some (s.1, Rest)
    | some Guard :: Rest => some (FGuard.Delete s.1 Guard, Rest)
  | EScriptEvent.Tick => (s.1.RunRound).map (fun d => (d, s.2))

/-- A sequence of events, `none` when a destroyed guard is used. -/
def RunScriptEvents (s : FDeadLoopCheck × List (Option Nat)) (Events : List EScriptEvent) :
    Option (FDeadLoopCheck × List (Option Nat)) :=
  Events.foldlM EScriptEvent.Apply s

/-- The engine facts `TryBind` reads: `Object->IsA<UClass>()`, `Object->GetClass()`,
`Class->HasAnyClassFlags(CLASS_NewerVersionExists)`,
`Class->ImplementsInterface(UUnLuaInterface::StaticClass())` and
`Class->GetName().Contains(TEXT("SKEL_"))`. -/
structure FObjectFacts where
  IsAClass : ObjId → Bool
  GetClass : ObjId → ObjId
  NewerVersionExists : ObjId → Bool
  ImplementsUnLuaInterface : ObjId → Bool
  NameContainsSKEL : ObjId → Bool

/-- The class `TryBind` decides on: the object itself when it is a class, else its
class. -/
def FObjectFacts.ClassOf (Facts : FObjectFacts) (Object : ObjId) : ObjId :=
  if Facts.IsAClass Object then Object else Facts.GetClass Object

/-- The members of `FLuaEnv` that `TryBind` uses: the candidate list (weak object
pointers), the module locator (`none` when null; `Locate` as a function of the
object) and the record of the calls of `UUnLuaManager::Bind`, oldest first. -/
structure FLuaEnv where
  Candidates : List ObjId
  ModuleLocator : Option (ObjId → String)
  BindCalls : List (ObjId × String × Int)

/-- Engine function `TArray::AddUnique(Item)`: appends the item unless the array holds it. -/
def AddUnique (Items : List ObjId) (Item : ObjId) : List ObjId :=
  if Item ∈ Items then Items else Items ++ [Item]

namespace FLuaEnv

/-- The call `GetManager()->Bind(Object, ModuleName, InitializerTableRef)`: its result and
the environment with the call recorded. -/
def CallBind (ManagerBind : ObjId → String → Int → Bool) (env : FLuaEnv) (Object : ObjId)
    (ModuleName : String) (InitializerTableRef : Int) : Bool × FLuaEnv :=
  (ManagerBind Object ModuleName InitializerTableRef,
   { env with BindCalls := env.BindCalls ++ [(Object, ModuleName, InitializerTableRef)] })

/-- Method `FLuaEnv::TryBind(Object)`: the returned flag and the environment afterwards.
`bInAsyncLoadingThread` is the result of `IsInAsyncLoadingThread()` and
`GLuaDynamicBinding` the global dynamic binding. -/
def TryBind (Facts : FObjectFacts) (ManagerBind : ObjId → String → Int → Bool)
    (bInAsyncLoadingThread : Bool) (GLuaDynamicBinding : FLuaDynamicBinding) (env : FLuaEnv)
    (Object : ObjId) : Bool × FLuaEnv :=
  let Class := Facts.ClassOf Object
  if Facts.NewerVersionExists Class then (false, env)
  else
    let bImplUnluaInterface := Facts.ImplementsUnLuaInterface Class
    if bInAsyncLoadingThread ∧
        (bImplUnluaInterface ||
          (!bImplUnluaInterface && GLuaDynamicBinding.IsValid (some Class))) = true then
      (false, { env with Candidates := AddUnique env.Candidates Object })
    else if ¬ bImplUnluaInterface then
      if ¬ GLuaDynamicBinding.IsValid (some Class) then (false, env)
      else CallBind ManagerBind env Object GLuaDynamicBinding.ModuleName
        GLuaDynamicBinding.InitializerTableRef
    else if Facts.NameContainsSKEL Class then (false, env)
    else
      match env.ModuleLocator with
      | none => (false, env)
      | some Locate =>
        let ModuleName := Locate Object
        if ModuleName = "" then (false, env)
        else CallBind ManagerBind env Object ModuleName GLuaDynamicBinding.InitializerTableRef

/-- Repeated calls of `TryBind` on the same object: `Count` calls, one after the
other. -/
def TryBindRepeated (Facts : FObjectFacts) (ManagerBind : ObjId → String → Int → Bool)
    (bInAsyncLoadingThread : Bool) (GLuaDynamicBinding : FLuaDynamicBinding) (Object : ObjId) :
    Nat → FLuaEnv → FLuaEnv
  | 0, env => env
  | Count + 1, env =>
    TryBindRepeated Facts ManagerBind bInAsyncLoadingThread GLuaDynamicBinding Object Count
      (TryBind Facts ManagerBind bInAsyncLoadingThread GLuaDynamicBinding env Object).2

end FLuaEnv

/-! ## The bind decision on the owning thread and the deferred bind flush -/

/-- The Lua constant `LUA_NOREF`. -/
def LUA_NOREF : Int := -2

namespace FLuaEnv

end FLuaEnv

/-- The engine string type. -/
abbrev FString := String

namespace FString

/-- Engine function `FString::Find(SubStr, ESearchCase::IgnoreCase, ESearchDir::FromStart,
StartPosition)` for a pattern of one character that has no case: the index of the
first occurrence at or after the start position, `INDEX_NONE` when there is none.
The engine clamps the start position to the index of the last character. -/
def Find (s : FString) (Pattern : Char) (StartPosition : Nat) : Int :=
  let Start := min StartPosition (s.data.length - 1)
  let Rest := s.data.drop Start
  if Rest.indexOf Pattern < Rest.length then ((Start + Rest.indexOf Pattern : Nat) : Int)
  else INDEX_NONE

/-- Engine function `FString::Replace(From, To)` for patterns of one character. -/
def Replace (s : FString) (From To : Char) : FString :=
  ⟨s.data.map (fun c => if c = From then To else c)⟩

/-- Engine function `FString::RightChop(Count)`: the string without its first `Count`
characters. -/
def RightChop (s : FString) (Count : Int) : FString :=
  ⟨s.data.drop Count.toNat⟩

end FString

/-- The engine facts `ULuaModuleLocator_ByPackage::Locate` reads: `Object->IsA<UClass>()`,
`Object->GetClass()`, `Class->GetFName()`, `Class->IsNative()`, `Class->GetName()` and
`Object->GetOutermost()->GetName()`. -/
structure FPackageFacts where
  IsAClass : ObjId → Bool
  GetClass : ObjId → ObjId
  GetFName : ObjId → String
  IsNative : ObjId → Bool
  GetName : ObjId → FString
  OutermostName : ObjId → FString

namespace ULuaModuleLocator_ByPackage

/-- The value of `ChopCount` in `Locate`, computed on the package name before the
separators are replaced. -/
def ChopCount (ModuleName : FString) : Int :=
  FString.Find ModuleName '/' 1 + 1

/-- The module name `Locate` derives from a package name: separators replaced,
then the first `ChopCount` characters dropped. -/
def PackageModuleName (ModuleName : FString) : FString :=
  FString.RightChop (FString.Replace ModuleName '/' '.') (ChopCount ModuleName)

/-- The other order, as the header comment of the file proposes it: the first
`ChopCount` characters of the package name are dropped, then the separators
replaced. -/
def ChopThenReplace (ModuleName : FString) : FString :=
  FString.Replace (FString.RightChop ModuleName (ChopCount ModuleName)) '/' '.'

/-- Method `ULuaModuleLocator_ByPackage::Locate(Object)`: the module name and the cache
afterwards. -/
def Locate (Facts : FPackageFacts) (Cache : TMap FString) (Object : ObjId) :
    FString × TMap FString :=
  let Class := if Facts.IsAClass Object then Object else Facts.GetClass Object
  let Key := Facts.GetFName Class
  match Cache.FindRef Key with
  | some Cached => (Cached, Cache)
  | none =>
    let ModuleName :=
      if Facts.IsNative Class then Facts.GetName Class
      else PackageModuleName (Facts.OutermostName Object)
    (ModuleName, Cache.Add Key ModuleName)

end ULuaModuleLocator_ByPackage

/-- The segments joined by a separator: `s1/s2/.../sk` for the separator `/`. -/
def JoinSegments (Separator : Char) : List (List Char) → List Char
  | [] => []
  | [Segment] => Segment
  | Segment :: Next :: More => Segment ++ Separator :: JoinSegments Separator (Next :: More)

/-! ## `FLuaArray::Append` with the proxy itself as the source

When `SourceArray` is the proxy on which `Append` is called (or a proxy over the
same backing array), `SourceArray.Num()` and `SourceArray.GetData(i)` read the
array that the call is growing. -/

namespace FLuaArray

variable {α : Type}

/-- The copy loop of `FLuaArray::Append` when the source is the array itself: the loop
test reads the current length, round `i` copies slot `i` to slot `Index + i`. -/
def AppendSelfLoop (Inner : ITypeInterface α) (Index : Int) (a : FLuaArray α) (i : Nat) :
    Option (FLuaArray α) :=
  if (i : Int) < a.Num then
    match a.GetData (Index + (i : Int)), a.GetData (i : Int) with
    | some Dest, some Src =>
      match hst : a.Store (Index + (i : Int)) (Inner.Copy Dest Src) with
      | some b => AppendSelfLoop Inner Index b (i + 1)
      | none => none
    | _, _ => none
  else some a
termination_by (a.Num - (i : Int)).toNat
decreasing_by
  have hnum : b.Num = a.Num := by
    simp only [Store] at hst
    split at hst
    · simp only [Option.some.injEq] at hst
      subst hst
      simp [Num, FScriptArray.Num]
    · simp at hst
  rw [hnum]
  omega

/-- Method `FLuaArray::Append(SourceArray)` called with the proxy itself as the source. -/
def AppendSelf (Inner : ITypeInterface α) (Raw : Nat → α) (a : FLuaArray α) :
    Option (FLuaArray α) :=
  if a.Num > 0 then do
    let (Index, a) ← AddDefaulted Inner Raw a a.Num
    AppendSelfLoop Inner Index a 0
  else some a

end FLuaArray

/-- The guards that are alive, innermost first: the non-empty guard pointers held
by the running calls. -/
def LiveOf (Guards : List (Option Nat)) : List Nat :=
  Guards.filterMap id

/-- The state of the watchdog agrees with the running calls: the live guards are
the guards the calls hold, the counter is their number, and while the counter is
not zero a recorded guard is the outermost live guard. -/
def WatchdogConsistent (s : FDeadLoopCheck × List (Option Nat)) : Prop :=
  s.1.LiveGuards = LiveOf s.2 ∧
  s.1.Runner.GuardCounter = ((LiveOf s.2).length : Int) ∧
  (s.1.Runner.GuardCounter ≠ 0 → ∀ Guard, s.1.Runner.TimeoutGuard = some Guard →
    (LiveOf s.2).getLast? = some Guard)

/-! ## Binding an object (`UUnLuaManager::Bind`, `UnLuaManager.cpp`)

What the Lua VM and the engine answer during a call of `Bind` is given by
`FBindFacts`; the overrides that `BindClass` installs do not enter its results and
are left out. -/

/-- The Lua type tag `LUA_TTABLE`. -/
def LUA_TTABLE : Int := 5

/-- The answers `Bind` and `BindClass` get for an object and a module:
`Env->GetClassRegistry()->Register(Class)`; whether `require` returned a valid, non-empty
result; the type of its first value with the text used for it in the error
message; `Class->HasAnyFlags(RF_NeedPostLoad | RF_NeedPostLoadSubobjects)`; whether the
branch `Classes.Contains(Class)` returns (always outside the editor, in the editor
when `__UClassBindSucceeded` is found); and the type `GetLoadedModule` finds with its
name. -/
structure FBindFacts where
  RegisterClass : Bool
  RequireValid : Bool
  RequireType : Int
  RequireTypeText : String
  NeedPostLoad : Bool
  AlreadyBound : Bool
  LoadedModuleType : Int
  LoadedModuleTypeName : String

/-- The state of the manager and the object registry that `Bind` writes: the classes
in `Classes` and the objects bound in the object registry, oldest first. -/
structure UUnLuaManager where
  Classes : List ObjId
  BoundObjects : List ObjId
deriving DecidableEq, Repr

namespace UUnLuaManager

/-- Method `UUnLuaManager::BindClass(Class, InModuleName, Error)`: the returned flag, the
out parameter `Error` and the manager afterwards. -/
def BindClass (Facts : FBindFacts) (m : UUnLuaManager) (Class : ObjId) (Error : String) :
    Bool × String × UUnLuaManager :=
  if Facts.NeedPostLoad then (false, Error, m)
  else if (decide (Class ∈ m.Classes) && Facts.AlreadyBound) = true then (true, Error, m)
  else if Facts.LoadedModuleType ≠ LUA_TTABLE then
    (false, "table needed got " ++ Facts.LoadedModuleTypeName, m)
  else (true, Error, { m with Classes := AddUnique m.Classes Class })

/-- Method `UUnLuaManager::Bind(Object, InModuleName, InitializerTableRef)` for an object of
class `Class`: the returned flag and the manager afterwards. The call of the Lua
function `Initialize` does not enter the result. -/
def Bind (Facts : FBindFacts) (m : UUnLuaManager) (Object Class : ObjId) :
    Bool × UUnLuaManager :=
  if ¬ Facts.RegisterClass then (false, m)
  else
    let (Error, m) :=
      if ¬ Facts.RequireValid then ("invalid return value of require()", m)
      else if Facts.RequireType ≠ LUA_TTABLE then
        ("table needed but got " ++ Facts.RequireTypeText, m)
      else ((BindClass Facts m Class "").2.1, (BindClass Facts m Class "").2.2)
    if Error ≠ "" then (false, m)
    else (true, { m with BoundObjects := m.BoundObjects ++ [Class, Object] })

end UUnLuaManager

/-! ## Suspending and resuming overrides (`FLuaOverrides::Suspend`, `FLuaOverrides::Resume`) -/

/-- Modelled from the spec: `ULuaOverridesClass::SetActive(bActive)` is not among the
sources; suspending or resuming the overrides of a class invokes
`ULuaFunction::SetActive` on each of its override records, in the order of the
function chain, and discards no record. -/
def ULuaOverridesClass.SetActive (w : World) (Self : ObjId) (bActive : Bool) : Option World := do
  let self ← w.OverridesClasses Self
  self.Children.foldlM (fun w LuaFunction => ULuaFunction.SetActive w LuaFunction bActive) w

namespace FLuaOverrides

/-- Method `FLuaOverrides::Suspend(Class)`. -/
def Suspend (w : World) (Class : ObjId) : Option World :=
  match w.Overrides Class with
  | none => some w
  | some OverridesClass =>
    match w.OverridesClasses OverridesClass with
    | none => some w
    | some _ => ULuaOverridesClass.SetActive w OverridesClass false

/-- Method `FLuaOverrides::Resume(Class)`. -/
def Resume (w : World) (Class : ObjId) : Option World :=
  match w.Overrides Class with
  | none => some w
  | some OverridesClass =>
    match w.OverridesClasses OverridesClass with
    | none => some w
    | some _ => ULuaOverridesClass.SetActive w OverridesClass true

end FLuaOverrides

namespace World

/-- What `SetActive` never writes in an object: outer, name and, for a `ULuaFunction`,
the members `From`, `Overridden` and `bAdded`. -/
def Frame (w : World) (Id : ObjId) :
    Option (ObjId × String × Option (Option ObjId × Option ObjId × Bool)) :=
  (w.Functions Id).map
    (fun r => (r.Outer, r.Name, r.LuaFunction.map (fun p => (p.From, p.Overridden, p.bAdded))))

/-- The activation flag of a `ULuaFunction`. -/
def Active (w : World) (Id : ObjId) : Option Bool :=
  (w.Functions Id).bind (fun r => r.LuaFunction.map (fun p => p.bActivated))

/-- Object `Child` is an override record of the override class `OverridesClass` with
a live original (another object), and with a live backup unless it is a newly
added function. -/
def SoundRecord (w : World) (OverridesClass Child : ObjId) : Prop :=
  ∃ Name From Overridden bAdded,
    w.Frame Child = some (OverridesClass, Name, some (some From, Overridden, bAdded)) ∧
    From ≠ Child ∧ (w.Frame From).isSome ∧
    (bAdded = false → ∃ Backup, Overridden = some Backup ∧ (w.Frame Backup).isSome)

/-- The name under which a newly added override record enters the function map,
`none` for other objects. -/
def AddedName (w : World) (Id : ObjId) : Option String :=
  match w.Frame Id with
  | some (_, Name, some (_, _, true)) => some Name
  | _ => none

/-- The override records and the registry of world `w` are those of world `Base`: the
same override classes with the same chains, the same registry entries, and every
object with the same frame. -/
def SameRecords (w Base : World) : Prop :=
  w.OverridesClasses = Base.OverridesClasses ∧ w.Overrides = Base.Overrides ∧
    ∀ Id, w.Frame Id = Base.Frame Id

/-- No two of the objects `Children` are newly added functions of one name. -/
def DistinctNames (w : World) (Children : List ObjId) : Prop :=
  ∀ c ∈ Children, ∀ d ∈ Children, ∀ Name,
    w.AddedName c = some Name → w.AddedName d = some Name → c = d

/-- The name of every newly added function among `Children` that is not active is
absent from the function map of `Class`. -/
def FreeNames (w : World) (Class : ObjId) (Children : List ObjId) : Prop :=
  ∀ c ∈ Children, ∀ Name, w.AddedName c = some Name → w.Active c = some false →
    w.FindFunctionByName Class Name = none

end World

/-! ## Concrete instances used by the instance theorems -/

/-- An element interface over `Nat` used for concrete instances: elements are
initialised to `0`, copied by value and compared by equality. -/
def natInterface : ITypeInterface Nat :=
  { Initialize := fun _ => 0, Destruct := fun d => d, Copy := fun _ s => s,
    Identical := fun x y => x == y }

/-- A proxy over the array `[5, 6, 5, 7]`. -/
def sampleArray : FLuaArray Nat := ⟨⟨[5, 6, 5, 7]⟩, 0, EScriptArrayFlag.OwnedByOther⟩

/-- Fresh memory holding `77` in every slot. -/
def sampleRaw : Nat → Nat := fun _ => 77

/-- The nested scopes of the header comment: `Guard1` pushes `AI.NPCBase`,
`Guard2` pushes `AI.BossNPC` and is left again. -/
def nestedGuards : List BindingCall :=
  [BindingCall.push (some 1) "AI.NPCBase" 11, BindingCall.push (some 1) "AI.BossNPC" 12,
   BindingCall.pop]

/-- A starting state with no class, no module and an empty stack. -/
def emptyBinding : FLuaDynamicBinding :=
  { Class := none, ModuleName := "", InitializerTableRef := -1, Stack := [] }

/-- A native event function `ReceiveBeginPlay` of class `100`. -/
def sampleFunction : UFunction :=
  { Name := "ReceiveBeginPlay", Outer := 100, FunctionFlags := 0xC00,
    NativeFunc := FNativeFuncPtr.native 555, Script := [1, 2, 3], SuperStruct := none,
    LuaFunction := none }

/-- A second native event function of class `100`, already interposed by the
record at address `201`. -/
def tickFunction : UFunction :=
  { Name := "ReceiveTick", Outer := 100, FunctionFlags := 0xC00,
    NativeFunc := FNativeFuncPtr.execScriptCallLua,
    Script := ScriptMagicHeader ++ WriteUnaligned 201, SuperStruct := none,
    LuaFunction := none }

/-- The override record of `ReceiveTick`. -/
def tickRecord : UFunction :=
  { Name := "ReceiveTick", Outer := 200, FunctionFlags := 0xC00,
    NativeFunc := FNativeFuncPtr.native 556, Script := [4, 5], SuperStruct := none,
    LuaFunction := some ⟨some 8, some 202, true, false⟩ }

/-- The backup of `ReceiveTick`. -/
def tickBackup : UFunction :=
  { Name := "ReceiveTick__Overridden", Outer := 200, FunctionFlags := 0xC00,
    NativeFunc := FNativeFuncPtr.native 556, Script := [4, 5], SuperStruct := none,
    LuaFunction := none }

/-- A world in which class `100` owns `ReceiveBeginPlay` (address `7`, native)
and `ReceiveTick` (address `8`, overridden through the override class `200`);
addresses from `203` on are free. -/
def boundWorld : World :=
  { Functions := fun Id =>
      if Id = 7 then some sampleFunction else if Id = 8 then some tickFunction
      else if Id = 201 then some tickRecord else if Id = 202 then some tickBackup else none,
    OverridesClasses := fun Id => if Id = 200 then some ⟨some 100, [201]⟩ else none,
    Overrides := fun Id => if Id = 100 then some 200 else none,
    FuncMap := fun Id =>
      if Id = 100 then [("ReceiveBeginPlay", 7), ("ReceiveTick", 8)] else [],
    NativeFunctionLookupTable := fun _ => [],
    NextId := 203 }

/-- A watchdog that was constructed with `Timeout = 0` and no hook on the Lua state. -/
def idleWatchdog : FDeadLoopCheck := FDeadLoopCheck.New 0 none

/-- A watchdog that was constructed with `Timeout = 2` and no hook on the Lua state. -/
def armedWatchdog : FDeadLoopCheck := FDeadLoopCheck.New 2 none

/-- A script call that is running for three watchdog rounds and makes a nested
guarded call meanwhile. -/
def busyScript : List EScriptEvent :=
  [EScriptEvent.Tick, EScriptEvent.Call 11, EScriptEvent.Tick, EScriptEvent.Return,
   EScriptEvent.Tick]

/-- Engine facts in which every object is an instance of class `5`, a recompiled
class (`CLASS_NewerVersionExists`) that implements the UnLua interface. -/
def staleClassFacts : FObjectFacts :=
  { IsAClass := fun _ => false, GetClass := fun _ => 5, NewerVersionExists := fun _ => true,
    ImplementsUnLuaInterface := fun _ => true, NameContainsSKEL := fun _ => false }

/-- An environment with no candidates, no module locator and no bind so far. -/
def freshEnv : FLuaEnv := { Candidates := [], ModuleLocator := none, BindCalls := [] }

/-- Engine facts in which every object is an instance of class `5`, which implements
the UnLua interface and is up to date. -/
def actorFacts : FObjectFacts :=
  { IsAClass := fun _ => false, GetClass := fun _ => 5, NewerVersionExists := fun _ => false,
    ImplementsUnLuaInterface := fun _ => true, NameContainsSKEL := fun _ => false }

/-- An environment whose module locator finds `Game.Actor` for every object. -/
def locatorEnv : FLuaEnv :=
  { Candidates := [], ModuleLocator := some (fun _ => "Game.Actor"), BindCalls := [] }

/-- The dynamic binding inside a spawn of class `5` with the module `Dyn.Actor` and
the initializer table `42`. -/
def spawnBinding : FLuaDynamicBinding :=
  { Class := some 5, ModuleName := "Dyn.Actor", InitializerTableRef := 42, Stack := [] }

/-- The dynamic binding inside a spawn of class `5` with an initializer table and no
module name. -/
def tableOnlyBinding : FLuaDynamicBinding :=
  { Class := some 5, ModuleName := "", InitializerTableRef := 42, Stack := [] }

/-- Engine facts in which every object is an instance of class `5`, which is up to date
and does not implement the UnLua interface. -/
def plainFacts : FObjectFacts :=
  { IsAClass := fun _ => false, GetClass := fun _ => 5, NewerVersionExists := fun _ => false,
    ImplementsUnLuaInterface := fun _ => false, NameContainsSKEL := fun _ => false }

/-- Engine facts in which every object is an instance of class `5`, an up to date
skeleton class (`SKEL_` in its name) that implements the UnLua interface. -/
def skeletonFacts : FObjectFacts :=
  { IsAClass := fun _ => false, GetClass := fun _ => 5, NewerVersionExists := fun _ => false,
    ImplementsUnLuaInterface := fun _ => true, NameContainsSKEL := fun _ => true }

/-- A proxy over the array `[5]`. -/
def singleArray : FLuaArray Nat := ⟨⟨[5]⟩, 0, EScriptArrayFlag.OwnedByOther⟩

/-- The function `ReceiveTick` in its native state. -/
def restingTick : UFunction :=
  { Name := "ReceiveTick", Outer := 100, FunctionFlags := 0xC00,
    NativeFunc := FNativeFuncPtr.native 556, Script := [4, 5], SuperStruct := none,
    LuaFunction := none }

/-- The override record of `ReceiveTick` while it is not active. -/
def restingRecord : UFunction :=
  { Name := "ReceiveTick", Outer := 200, FunctionFlags := 0xC00,
    NativeFunc := FNativeFuncPtr.native 556, Script := [4, 5], SuperStruct := none,
    LuaFunction := some ⟨some 8, some 202, false, false⟩ }

/-- The world `boundWorld` with the override of `ReceiveTick` suspended. -/
def suspendedWorld : World :=
  { boundWorld with
    Functions := fun Id =>
      if Id = 8 then some restingTick else if Id = 201 then some restingRecord
      else boundWorld.Functions Id }

/-- An override record for a function `OnDamaged` that the class does not have, not
active, made from `ReceiveBeginPlay`. -/
def addedRecord : UFunction :=
  { Name := "OnDamaged", Outer := 200, FunctionFlags := 0x400,
    NativeFunc := FNativeFuncPtr.ProcessInternal, Script := [], SuperStruct := none,
    LuaFunction := some ⟨some 7, none, false, true⟩ }

/-- The world `boundWorld` with the added record `OnDamaged` at address `203`, linked
first in the chain of the override class. -/
def addedWorld : World :=
  { boundWorld with
    Functions := fun Id => if Id = 203 then some addedRecord else boundWorld.Functions Id,
    OverridesClasses := fun Id => if Id = 200 then some ⟨some 100, [203, 201]⟩ else none,
    NextId := 204 }

/-- The answers for a class that still needs its post load while the module is
loaded well: `require` returns a table. -/
def postLoadFacts : FBindFacts :=
  { RegisterClass := true, RequireValid := true, RequireType := LUA_TTABLE,
    RequireTypeText := "table", NeedPostLoad := true, AlreadyBound := true,
    LoadedModuleType := LUA_TTABLE, LoadedModuleTypeName := "table" }

/-! # Theorems -/

/-! ## Facts about the container proxy -/

section ArrayLemmas

variable {α : Type}

/-- Reading through a non-negative index is a list lookup. -/
theorem FLuaArray.getData_natCast (a : FLuaArray α) (k : Nat) :
    a.GetData (k : Int) = a.ScriptArray.Data[k]? := by
  simp [FLuaArray.GetData]

/-- The length of a proxy is the length of the list of its slots. -/
theorem FLuaArray.num_eq (a : FLuaArray α) : a.Num = (a.ScriptArray.Data.length : Int) := rfl

/-- Function `Add` in closed form: the new slot is raw memory, initialised, then assigned. -/
theorem FLuaArray.add_eq (Inner : ITypeInterface α) (Raw : Nat → α) (a : FLuaArray α) (Item : α) :
    FLuaArray.Add Inner Raw a Item = some (a.Num,
      { a with ScriptArray := ⟨a.ScriptArray.Data ++
          [Inner.Copy (Inner.Initialize (Raw a.ScriptArray.Data.length)) Item]⟩ }) := by
  simp [FLuaArray.Add, FLuaArray.AddDefaulted, FScriptArray.Add, FScriptArray.RawSlots,
    FLuaArray.Construct, FLuaArray.GetData, FLuaArray.Store, FLuaArray.Num, FScriptArray.Num,
    Option.bind_eq_some, List.range_succ]

end ArrayLemmas

/-- C3: for every array proxy of length `n` and every item, `Add` returns `n`,
the length becomes `n + 1`, the elements `0 .. n-1` keep their contents, and a
following `Get(n, OutItem)` succeeds with a value that `Identical` reports equal
to the item, provided `Copy` produces values `Identical` to its source and
`Identical` is transitive (it is a value equality). -/
theorem array_add_then_get {α : Type} (Inner : ITypeInterface α) (Raw : Nat → α)
    (a : FLuaArray α) (Item OutItem : α)
    (hCopy : ∀ d s, Inner.Identical (Inner.Copy d s) s = true)
    (hTrans : ∀ x y z, Inner.Identical x y = true → Inner.Identical y z = true →
      Inner.Identical x z = true) :
    ∃ b got, FLuaArray.Add Inner Raw a Item = some (a.Num, b) ∧
      b.Num = a.Num + 1 ∧
      (∀ j : Int, 0 ≤ j → j < a.Num → b.GetData j = a.GetData j) ∧
      FLuaArray.Get Inner b a.Num OutItem = some (b, got) ∧
      Inner.Identical got Item = true := by
  refine ⟨_, Inner.Copy OutItem (Inner.Copy (Inner.Initialize (Raw a.ScriptArray.Data.length)) Item),
    FLuaArray.add_eq Inner Raw a Item, ?_, ?_, ?_, ?_⟩
  · simp [FLuaArray.Num, FScriptArray.Num]
  · intro j hj hlt
    obtain ⟨k, rfl⟩ := Int.eq_ofNat_of_zero_le hj
    simp only [FLuaArray.num_eq] at hlt
    have hk : k < a.ScriptArray.Data.length := by exact_mod_cast hlt
    simp [FLuaArray.getData_natCast, List.getElem?_append_left hk]
  · simp [FLuaArray.Get, FLuaArray.IsValidIndex, FLuaArray.Num, FScriptArray.Num,
      FLuaArray.GetData]
  · exact hTrans _ _ _ (hCopy _ _) (hCopy _ _)

/-- Instance of C3: adding `9` to `[5, 6, 5, 7]` over `Nat` elements. -/
theorem array_add_then_get_witness :
    ∃ b got, FLuaArray.Add natInterface sampleRaw sampleArray 9 = some (sampleArray.Num, b) ∧
      b.Num = sampleArray.Num + 1 ∧
      (∀ j : Int, 0 ≤ j → j < sampleArray.Num → b.GetData j = sampleArray.GetData j) ∧
      FLuaArray.Get natInterface b sampleArray.Num 3 = some (b, got) ∧
      natInterface.Identical got 9 = true :=
  array_add_then_get natInterface sampleRaw sampleArray 9 3
    (by intro d s; simp [natInterface])
    (by intro x y z hxy hyz; simp [natInterface] at *; omega)

section ArrayLemmas2
variable {α : Type}

/-- Writing slot `k` does not change the slots before `k`. -/
theorem List.take_set_self (l : List α) (k : Nat) (v : α) : (l.set k v).take k = l.take k := by
  rw [List.set_take]
  exact List.set_eq_of_length_le (by simp)

/-- Function `Remove` at a valid index in closed form: the slot is destructed and cut out. -/
theorem FLuaArray.remove_eq (Inner : ITypeInterface α) (a : FLuaArray α) (k : Nat)
    (hk : k < a.ScriptArray.Data.length) :
    FLuaArray.Remove Inner a (k : Int) = some
      { a with ScriptArray := ⟨a.ScriptArray.Data.take k ++ a.ScriptArray.Data.drop (k + 1)⟩ } := by
  have h1 : ((k : Int) + 1 ≤ (a.ScriptArray.Data.length : Int)) := by exact_mod_cast hk
  simp [FLuaArray.Remove, FLuaArray.IsValidIndex, FLuaArray.Num, FScriptArray.Num,
    FLuaArray.Destruct, FLuaArray.GetData, FLuaArray.Store, FScriptArray.Remove,
    Option.bind_eq_some, hk, h1, List.take_set_self, List.drop_set_of_lt]

/-- An index that fails `IsValidIndex`. -/
theorem FLuaArray.isValidIndex_false (a : FLuaArray α) (Index : Int)
    (h : ¬ (0 ≤ Index ∧ Index < a.Num)) : a.IsValidIndex Index = false := by
  simp only [FLuaArray.IsValidIndex, ge_iff_le, Bool.and_eq_false_imp, decide_eq_true_eq,
    decide_eq_false_iff_not]
  intro h0 h1
  exact h ⟨h0, h1⟩

end ArrayLemmas2

/-- C4: for every array proxy of length `n` and every index `0 ≤ i < n`,
`Remove(i)` leaves length `n - 1`, keeps the elements before `i` and moves every
former element `j > i` to position `j - 1`. -/
theorem array_remove_shifts {α : Type} (Inner : ITypeInterface α) (a : FLuaArray α) (Index : Int)
    (h0 : 0 ≤ Index) (h1 : Index < a.Num) :
    ∃ b, FLuaArray.Remove Inner a Index = some b ∧ b.Num = a.Num - 1 ∧
      (∀ j : Int, 0 ≤ j → j < Index → b.GetData j = a.GetData j) ∧
      (∀ j : Int, Index < j → j < a.Num → b.GetData (j - 1) = a.GetData j) := by
  obtain ⟨k, rfl⟩ := Int.eq_ofNat_of_zero_le h0
  have hk : k < a.ScriptArray.Data.length := by
    simp only [FLuaArray.num_eq] at h1; exact_mod_cast h1
  refine ⟨_, FLuaArray.remove_eq Inner a k hk, ?_, ?_, ?_⟩
  · simp only [FLuaArray.Num, FScriptArray.Num, List.length_append, List.length_take,
      List.length_drop]
    omega
  · intro j hj hlt
    obtain ⟨i, rfl⟩ := Int.eq_ofNat_of_zero_le hj
    have hi : i < k := by exact_mod_cast hlt
    have hi2 : i < (List.take k a.ScriptArray.Data).length := by
      simp only [List.length_take]; omega
    simp only [FLuaArray.getData_natCast]
    rw [List.getElem?_append_left hi2, List.getElem?_take_of_lt hi]
  · intro j hj hlt
    have hj0 : 0 ≤ j := by omega
    obtain ⟨i, rfl⟩ := Int.eq_ofNat_of_zero_le hj0
    have hi : k < i := by exact_mod_cast hj
    have e : ((i : Int) - 1) = ((i - 1 : Nat) : Int) := by omega
    rw [e]
    simp only [FLuaArray.getData_natCast]
    have hlen : (List.take k a.ScriptArray.Data).length = k := by
      simp only [List.length_take]; omega
    rw [List.getElem?_append_right (by omega), hlen, List.getElem?_drop]
    congr 1
    omega

/-- Instance of C4: removing index `1` of `[5, 6, 5, 7]`. -/
theorem array_remove_shifts_witness :
    ∃ b, FLuaArray.Remove natInterface sampleArray 1 = some b ∧ b.Num = sampleArray.Num - 1 ∧
      (∀ j : Int, 0 ≤ j → j < 1 → b.GetData j = sampleArray.GetData j) ∧
      (∀ j : Int, 1 < j → j < sampleArray.Num → b.GetData (j - 1) = sampleArray.GetData j) :=
  array_remove_shifts natInterface sampleArray 1 (by decide) (by decide)

/-- C5: on a proxy with at least one element `Reserve(n)` returns `false` and
leaves the proxy (length and every element) as it was; on an empty proxy it
returns `true` and the length stays `0`. -/
theorem array_reserve {α : Type} (a : FLuaArray α) (Size : Int) :
    (0 < a.Num → FLuaArray.Reserve a Size = (false, a)) ∧
    (a.Num = 0 → (FLuaArray.Reserve a Size).1 = true ∧ (FLuaArray.Reserve a Size).2.Num = 0) := by
  constructor
  · intro h
    simp [FLuaArray.Reserve, h]
  · intro h
    have hd : a.ScriptArray.Data = [] := by
      simpa [FLuaArray.Num, FScriptArray.Num] using h
    simp [FLuaArray.Reserve, FScriptArray.Empty, FLuaArray.Num, FScriptArray.Num, hd]

/-- C6: for every index outside `0 ≤ Index < Num()`, `Get` succeeds and leaves
the out buffer and the array as they were, and `Set` and `Remove` succeed and
leave the array as it was. -/
theorem array_invalid_index_noop {α : Type} (Inner : ITypeInterface α) (a : FLuaArray α)
    (Index : Int) (Item OutItem : α) (h : ¬ (0 ≤ Index ∧ Index < a.Num)) :
    FLuaArray.Get Inner a Index OutItem = some (a, OutItem) ∧
    FLuaArray.Set Inner a Index Item = some a ∧
    FLuaArray.Remove Inner a Index = some a := by
  have hv := FLuaArray.isValidIndex_false a Index h
  simp [FLuaArray.Get, FLuaArray.Set, FLuaArray.Remove, hv]

/-- Instance of C6: index `4` on the four-element array `[5, 6, 5, 7]`. -/
theorem array_invalid_index_noop_witness :
    FLuaArray.Get natInterface sampleArray 4 9 = some (sampleArray, 9) ∧
    FLuaArray.Set natInterface sampleArray 4 8 = some sampleArray ∧
    FLuaArray.Remove natInterface sampleArray 4 = some sampleArray :=
  array_invalid_index_noop natInterface sampleArray 4 8 9 (by decide)

section ArrayLemmas3
variable {α : Type}

/-- Function `Find` returns `INDEX_NONE` exactly when no element is `Identical` to the item. -/
theorem FLuaArray.find_eq_none_iff (Inner : ITypeInterface α) (a : FLuaArray α) (Item : α) :
    FLuaArray.Find Inner a Item = INDEX_NONE ↔
      ∀ x ∈ a.ScriptArray.Data, Inner.Identical Item x = false := by
  unfold FLuaArray.Find
  by_cases h : a.ScriptArray.Data.findIdx (fun c => Inner.Identical Item c) < a.ScriptArray.Data.length
  · simp only [h, if_true]
    constructor
    · intro e
      simp only [INDEX_NONE] at e
      omega
    · intro hall
      have := List.findIdx_getElem (w := h)
      have hmem := List.getElem_mem h
      rw [hall _ hmem] at this
      exact absurd this (by simp)
  · simp only [h, if_false, true_iff]
    intro x hx
    have hle : a.ScriptArray.Data.length ≤ a.ScriptArray.Data.findIdx (fun c => Inner.Identical Item c) :=
      Nat.le_of_not_lt h
    have := List.findIdx_eq_length.mp (Nat.le_antisymm (List.findIdx_le_length _) hle)
    simpa using this x hx

/-- Cutting out the first element that satisfies `p` lowers the count by one and
keeps the elements that do not satisfy `p`, in order. -/
theorem List.countP_filter_erase_first (p : α → Bool) (l : List α)
    (h : l.findIdx p < l.length) :
    l.countP p = (l.take (l.findIdx p) ++ l.drop (l.findIdx p + 1)).countP p + 1 ∧
    l.filter (fun x => !p x) =
      (l.take (l.findIdx p) ++ l.drop (l.findIdx p + 1)).filter (fun x => !p x) := by
  have hp : p l[l.findIdx p] = true := List.findIdx_getElem (w := h)
  have hsplit : l = l.take (l.findIdx p) ++ l[l.findIdx p] :: l.drop (l.findIdx p + 1) := by
    rw [List.getElem_cons_drop _ _ h, List.take_append_drop]
  constructor
  · conv_lhs => rw [hsplit]
    simp only [List.countP_append, List.countP_cons, hp, if_true]
    omega
  · conv_lhs => rw [hsplit]
    simp only [List.filter_append, List.filter_cons, hp, Bool.not_true]
    simp

/-- The loop of `RemoveItem` in closed form. -/
theorem FLuaArray.removeItemLoop_eq (Inner : ITypeInterface α) (Item : α) :
    ∀ (n : Nat) (a : FLuaArray α) (NumRemoved : Int), a.ScriptArray.Data.length = n →
      FLuaArray.RemoveItemLoop Inner Item a NumRemoved = some
        (NumRemoved + (a.ScriptArray.Data.countP (fun x => Inner.Identical Item x) : Nat),
         { a with ScriptArray :=
            ⟨a.ScriptArray.Data.filter (fun x => !Inner.Identical Item x)⟩ }) := by
  intro n
  induction n using Nat.strong_induction_on with
  | _ n ih =>
    intro a NumRemoved hn
    rw [FLuaArray.RemoveItemLoop]
    by_cases hF : FLuaArray.Find Inner a Item = INDEX_NONE
    · have hall := (FLuaArray.find_eq_none_iff Inner a Item).mp hF
      have hc : a.ScriptArray.Data.countP (fun x => Inner.Identical Item x) = 0 := by
        rw [List.countP_eq_zero]
        intro x hx
        simp [hall x hx]
      have hf : a.ScriptArray.Data.filter (fun x => !Inner.Identical Item x) = a.ScriptArray.Data := by
        rw [List.filter_eq_self]
        intro x hx
        simp [hall x hx]
      simp [hF, hc, hf]
    · have hlt : a.ScriptArray.Data.findIdx (fun c => Inner.Identical Item c)
          < a.ScriptArray.Data.length := by
        by_contra hc
        exact hF (by simp [FLuaArray.Find, hc])
      have hFind : FLuaArray.Find Inner a Item
          = ((a.ScriptArray.Data.findIdx (fun c => Inner.Identical Item c) : Nat) : Int) := by
        simp [FLuaArray.Find, hlt]
      have hrem := FLuaArray.remove_eq Inner a _ hlt
      rw [← hFind] at hrem
      simp only [ne_eq, hF, not_false_eq_true, if_true]
      split
      · next b hb =>
        rw [hrem] at hb
        injection hb with hb
        subst hb
        obtain ⟨hcount, hfilter⟩ :=
          List.countP_filter_erase_first (fun x => Inner.Identical Item x) a.ScriptArray.Data hlt
        rw [ih _ (by simp only [List.length_append, List.length_take, List.length_drop]; omega) _ _ rfl]
        simp only [hcount, hfilter]
        congr 2
        push_cast
        ring
      · next hb =>
        rw [hrem] at hb
        exact absurd hb (by simp)

end ArrayLemmas3

/-- C8: `RemoveItem(Item)` terminates; it returns the number of elements that
were `Identical` to the item before the call, the array afterwards holds exactly
the other elements in their original order, and none of them is `Identical` to
the item. -/
theorem array_removeItem {α : Type} (Inner : ITypeInterface α) (a : FLuaArray α) (Item : α) :
    ∃ b, FLuaArray.RemoveItem Inner a Item
        = some (((a.ScriptArray.Data.countP (fun x => Inner.Identical Item x) : Nat) : Int), b) ∧
      b.ScriptArray.Data = a.ScriptArray.Data.filter (fun x => !Inner.Identical Item x) ∧
      (∀ x ∈ b.ScriptArray.Data, Inner.Identical Item x = false) ∧
      List.Sublist b.ScriptArray.Data a.ScriptArray.Data ∧
      FLuaArray.Find Inner b Item = INDEX_NONE := by
  have h := FLuaArray.removeItemLoop_eq Inner Item _ a 0 rfl
  rw [zero_add] at h
  refine ⟨_, h, rfl, ?_, ?_, ?_⟩
  · intro x hx
    simpa using (List.mem_filter.mp hx).2
  · exact List.filter_sublist _
  · rw [FLuaArray.find_eq_none_iff]
    intro x hx
    simpa using (List.mem_filter.mp hx).2

section ArrayLemmas4
variable {α : Type}

/-- A write to a live slot succeeds and replaces that slot. -/
theorem FLuaArray.store_natCast (a : FLuaArray α) (k : Nat) (v : α)
    (hk : k < a.ScriptArray.Data.length) :
    a.Store (k : Int) v = some { a with ScriptArray := ⟨a.ScriptArray.Data.set k v⟩ } := by
  have h : (k : Int) < (a.ScriptArray.Data.length : Int) := by exact_mod_cast hk
  simp [FLuaArray.Store, FLuaArray.Num, FScriptArray.Num, h]

/-- Function `Construct` on slots that lie inside the array: every slot of the range is
initialised, nothing else changes. -/
theorem FLuaArray.construct_spec (Inner : ITypeInterface α) :
    ∀ (Count : Nat) (a : FLuaArray α) (k : Nat), k + Count ≤ a.ScriptArray.Data.length →
      ∃ b, FLuaArray.Construct Inner a (k : Int) Count = some b ∧
        b.ElementCache = a.ElementCache ∧ b.ScriptArrayFlag = a.ScriptArrayFlag ∧
        b.ScriptArray.Data.length = a.ScriptArray.Data.length ∧
        ∀ i, b.ScriptArray.Data[i]? =
          if k ≤ i ∧ i < k + Count then (a.ScriptArray.Data[i]?).map Inner.Initialize
          else a.ScriptArray.Data[i]? := by
  intro Count
  induction Count with
  | zero =>
    intro a k _
    refine ⟨a, rfl, rfl, rfl, rfl, ?_⟩
    intro i
    have : ¬ (k ≤ i ∧ i < k + 0) := by omega
    simp only [this, if_false]
  | succ c ih =>
    intro a k hk
    have hk1 : k < a.ScriptArray.Data.length := by omega
    obtain ⟨b, hb, hc, hf, hl, hget⟩ := ih
      { a with ScriptArray := ⟨a.ScriptArray.Data.set k (Inner.Initialize a.ScriptArray.Data[k])⟩ }
      (k + 1) (by simp only [List.length_set]; omega)
    refine ⟨b, ?_, hc, hf, by simpa using hl, ?_⟩
    · simp only [FLuaArray.Construct, FLuaArray.getData_natCast, List.getElem?_eq_getElem hk1,
        Option.bind_eq_bind, Option.some_bind, FLuaArray.store_natCast a k _ hk1]
      exact_mod_cast hb
    · intro i
      rw [hget i]
      simp only [List.getElem?_set]
      by_cases h1 : k = i
      · subst h1
        have h2 : ¬ (k + 1 ≤ k ∧ k < k + 1 + c) := by omega
        have h3 : (k ≤ k ∧ k < k + (c + 1)) := by omega
        simp [h2, h3, hk1]
      · by_cases h2 : k + 1 ≤ i ∧ i < k + 1 + c
        · have h3 : (k ≤ i ∧ i < k + (c + 1)) := by omega
          simp [h1, h2, h3]
        · have h3 : ¬ (k ≤ i ∧ i < k + (c + 1)) := by omega
          simp [h1, h2, h3]

/-- The copy loop of `Append` after `t` rounds. -/
theorem FLuaArray.appendLoop_spec (Inner : ITypeInterface α) (Source : FLuaArray α) (n : Nat) :
    ∀ (t : Nat) (a : FLuaArray α), t ≤ Source.ScriptArray.Data.length →
      n + Source.ScriptArray.Data.length ≤ a.ScriptArray.Data.length →
      ∃ b, (List.range t).foldlM (FLuaArray.AppendStep Inner Source (n : Int)) a = some b ∧
        b.ElementCache = a.ElementCache ∧ b.ScriptArrayFlag = a.ScriptArrayFlag ∧
        b.ScriptArray.Data.length = a.ScriptArray.Data.length ∧
        ∀ i, b.ScriptArray.Data[i]? =
          if n ≤ i ∧ i < n + t then
            (a.ScriptArray.Data[i]?).bind
              (fun d => (Source.ScriptArray.Data[i - n]?).map (fun src => Inner.Copy d src))
          else a.ScriptArray.Data[i]? := by
  intro t
  induction t with
  | zero =>
    intro a _ _
    refine ⟨a, rfl, rfl, rfl, rfl, ?_⟩
    intro i
    have : ¬ (n ≤ i ∧ i < n + 0) := by omega
    simp only [this, if_false]
  | succ t ih =>
    intro a ht hlen
    obtain ⟨b, hb, hc, hf, hl, hget⟩ := ih a (by omega) hlen
    have h1 : n + t < b.ScriptArray.Data.length := by omega
    have h2 : t < Source.ScriptArray.Data.length := by omega
    have h1a : n + t < a.ScriptArray.Data.length := by omega
    have hcast : ((n : Int) + (t : Int)) = ((n + t : Nat) : Int) := by push_cast; rfl
    have hbt : b.ScriptArray.Data[n + t]? = a.ScriptArray.Data[n + t]? := by
      rw [hget]
      have : ¬ (n ≤ n + t ∧ n + t < n + t) := by omega
      simp only [this, if_false]
    refine ⟨{ b with ScriptArray := ⟨b.ScriptArray.Data.set (n + t)
        (Inner.Copy b.ScriptArray.Data[n + t] Source.ScriptArray.Data[t])⟩ }, ?_, hc, hf,
        by simpa using hl, ?_⟩
    · rw [List.range_succ, List.foldlM_append, hb]
      simp only [Option.bind_eq_bind, Option.some_bind, List.foldlM_cons, List.foldlM_nil,
        FLuaArray.AppendStep, hcast, FLuaArray.getData_natCast, List.getElem?_eq_getElem h1,
        List.getElem?_eq_getElem h2, FLuaArray.store_natCast b (n + t) _ h1]
      rfl
    · intro i
      simp only [List.getElem?_set]
      by_cases e : n + t = i
      · subst e
        have h3 : (n ≤ n + t ∧ n + t < n + (t + 1)) := by omega
        have h4 : b.ScriptArray.Data[n + t] = a.ScriptArray.Data[n + t] := by
          have := hbt
          rw [List.getElem?_eq_getElem h1, List.getElem?_eq_getElem h1a] at this
          exact Option.some.inj this
        simp [h3, h1, h4, List.getElem?_eq_getElem h1a, List.getElem?_eq_getElem h2]
      · rw [if_neg e, hget i]
        by_cases h5 : n ≤ i ∧ i < n + t
        · have h6 : (n ≤ i ∧ i < n + (t + 1)) := by omega
          simp only [h5, h6, and_self, if_true]
        · have h6 : ¬ (n ≤ i ∧ i < n + (t + 1)) := by omega
          simp only [h5, h6, if_false]

/-- There are `m` raw slots. -/
theorem FScriptArray.rawSlots_length (Raw : Nat → α) (Start m : Nat) :
    (FScriptArray.RawSlots Raw Start (m : Int)).length = m := by
  simp [FScriptArray.RawSlots]

/-- The raw slot number `j` holds the raw memory of position `Start + j`. -/
theorem FScriptArray.rawSlots_getElem? (Raw : Nat → α) (Start m j : Nat) (hj : j < m) :
    (FScriptArray.RawSlots Raw Start (m : Int))[j]? = some (Raw (Start + j)) := by
  simp [FScriptArray.RawSlots, List.getElem?_range hj]

end ArrayLemmas4

/-- C9: for two proxies over different backing arrays, `a` of length `n` and `b`
of length `m`, `a.Append(b)` succeeds, leaves `a` with length `n + m`, the
elements `0 .. n-1` as they were and element `n + i` the copy of `b[i]` into the
freshly initialised slot, and leaves `b` as it was. -/
theorem array_append {α : Type} (Inner : ITypeInterface α) (Raw : Nat → α)
    (a Source : FLuaArray α) :
    ∃ b, FLuaArray.Append Inner Raw a Source = some (b, Source) ∧
      b.Num = a.Num + Source.Num ∧
      (∀ j : Int, 0 ≤ j → j < a.Num → b.GetData j = a.GetData j) ∧
      (∀ i : Nat, (i : Int) < Source.Num →
        b.GetData (a.Num + (i : Int)) =
          (Source.GetData (i : Int)).map
            (fun src => Inner.Copy (Inner.Initialize (Raw (a.ScriptArray.Data.length + i))) src)) := by
  by_cases hm : Source.Num > 0
  · obtain ⟨b1, hb1, hc1, hf1, hl1, hg1⟩ := FLuaArray.construct_spec Inner
      Source.ScriptArray.Data.length
      { a with ScriptArray := ⟨a.ScriptArray.Data ++
          FScriptArray.RawSlots Raw a.ScriptArray.Data.length (Source.ScriptArray.Data.length : Int)⟩ }
      a.ScriptArray.Data.length
      (by simp [FScriptArray.rawSlots_length])
    simp only [List.length_append, FScriptArray.rawSlots_length] at hl1
    obtain ⟨b2, hb2, hc2, hf2, hl2, hg2⟩ := FLuaArray.appendLoop_spec Inner Source
      a.ScriptArray.Data.length Source.ScriptArray.Data.length b1 (le_refl _) (by omega)
    have hm2 : (Source.ScriptArray.Data.length : Int) > 0 := hm
    refine ⟨b2, ?_, ?_, ?_, ?_⟩
    · simp only [FLuaArray.Append, hm2, if_true, FLuaArray.AddDefaulted, FScriptArray.Add,
        FLuaArray.Num, FScriptArray.Num, Int.toNat_ofNat, Option.bind_eq_bind, hb1,
        Option.some_bind, Option.pure_def, hb2]
    · simp only [FLuaArray.Num, FScriptArray.Num, hl2, hl1]
      push_cast
      rfl
    · intro j hj hlt
      obtain ⟨k, rfl⟩ := Int.eq_ofNat_of_zero_le hj
      have hk : k < a.ScriptArray.Data.length := by
        simp only [FLuaArray.num_eq] at hlt; exact_mod_cast hlt
      have n1 : ¬ (a.ScriptArray.Data.length ≤ k ∧
          k < a.ScriptArray.Data.length + Source.ScriptArray.Data.length) := by omega
      simp only [FLuaArray.getData_natCast, hg2 k, n1, if_false, hg1 k]
      exact List.getElem?_append_left hk
    · intro i hi
      have hi2 : i < Source.ScriptArray.Data.length := by
        simp only [FLuaArray.num_eq] at hi; exact_mod_cast hi
      have hcast : a.Num + (i : Int) = ((a.ScriptArray.Data.length + i : Nat) : Int) := by
        simp only [FLuaArray.num_eq]; push_cast; rfl
      have y1 : (a.ScriptArray.Data.length ≤ a.ScriptArray.Data.length + i ∧
          a.ScriptArray.Data.length + i <
            a.ScriptArray.Data.length + Source.ScriptArray.Data.length) := by omega
      rw [hcast]
      simp only [FLuaArray.getData_natCast, hg2, y1, and_self, if_true, hg1,
        Nat.add_sub_cancel_left]
      rw [List.getElem?_append_right (Nat.le_add_right _ _), Nat.add_sub_cancel_left,
        FScriptArray.rawSlots_getElem? Raw _ _ _ hi2]
      simp
  · have hz : Source.ScriptArray.Data.length = 0 := by
      simp only [FLuaArray.num_eq] at hm; omega
    refine ⟨a, by simp only [FLuaArray.Append, hm, if_false], ?_, fun _ _ _ => rfl, ?_⟩
    · simp [FLuaArray.Num, FScriptArray.Num, hz]
    · intro i hi
      simp only [FLuaArray.num_eq, hz] at hi
      exact absurd hi (by omega)

section ArrayLemmas5
variable {α : Type}

end ArrayLemmas5

/-- Invariant of well nested call sequences: the current tuple followed by the
saved tuples is the list of outstanding pushes followed by the tuples of the
starting state. -/
theorem FLuaDynamicBinding.run_invariant (s0 : FLuaDynamicBinding) :
    ∀ (calls : List BindingCall) (s : FLuaDynamicBinding)
      (ts out : List FLuaDynamicBindingStackNode),
      s.Current :: s.Stack = ts ++ (s0.Current :: s0.Stack) →
      OutstandingPushes ts calls = some out →
      ∃ t, RunBindingCalls s calls = some t ∧
        t.Current :: t.Stack = out ++ (s0.Current :: s0.Stack) := by
  intro calls
  induction calls with
  | nil =>
    intro s ts out hinv hout
    simp only [OutstandingPushes, Option.some.injEq] at hout
    subst hout
    exact ⟨s, rfl, hinv⟩
  | cons call rest ih =>
    intro s ts out hinv hout
    cases call with
    | push c m r =>
      simp only [OutstandingPushes] at hout
      simp only [RunBindingCalls]
      refine ih _ _ _ ?_ hout
      simp only [FLuaDynamicBinding.Push, FLuaDynamicBinding.Current, List.cons_append]
      exact congrArg _ hinv
    | pop =>
      cases ts with
      | nil => simp [OutstandingPushes] at hout
      | cons top ts =>
        simp only [OutstandingPushes] at hout
        simp only [List.cons_append, List.cons.injEq] at hinv
        obtain ⟨_, hstack⟩ := hinv
        cases hS : s.Stack with
        | nil =>
          rw [hS] at hstack
          cases ts <;> simp at hstack
        | cons node more =>
          simp only [RunBindingCalls, FLuaDynamicBinding.Pop, hS]
          refine ih _ _ _ ?_ hout
          rw [hS] at hstack
          simpa [FLuaDynamicBinding.Current] using hstack

/-- The outstanding pushes of a prefix of a well nested sequence exist. -/
theorem OutstandingPushes.of_append (pre rest : List BindingCall) :
    ∀ (ts out : List FLuaDynamicBindingStackNode),
      OutstandingPushes ts (pre ++ rest) = some out →
      ∃ mid, OutstandingPushes ts pre = some mid ∧ OutstandingPushes mid rest = some out := by
  induction pre with
  | nil => intro ts out h; exact ⟨ts, rfl, h⟩
  | cons call pre ih =>
    intro ts out h
    cases call with
    | push c m r => exact ih _ _ h
    | pop =>
      cases ts with
      | nil => simp [OutstandingPushes] at h
      | cons top ts => exact ih _ _ h

/-- C2: for every well nested sequence of `Push`/`Pop` calls from a state `s0`,
after each call (that is, after every prefix `pre` of the sequence) no `Pop` has
failed, the current tuple is the most recently pushed tuple not yet popped, or
the tuple of `s0` when no push is outstanding, and the stack has grown by the
number of outstanding pushes (from depth `0` in the initial state). -/
theorem dynamicBinding_stack_semantics (s0 : FLuaDynamicBinding)
    (pre rest : List BindingCall) (out : List FLuaDynamicBindingStackNode)
    (h : OutstandingPushes [] (pre ++ rest) = some out) :
    ∃ s ts, OutstandingPushes [] pre = some ts ∧ RunBindingCalls s0 pre = some s ∧
      s.Current = ts.head?.getD s0.Current ∧
      s.Stack.length = s0.Stack.length + ts.length := by
  obtain ⟨ts, hts, _⟩ := OutstandingPushes.of_append pre rest [] out h
  obtain ⟨s, hs, hinv⟩ := FLuaDynamicBinding.run_invariant s0 pre s0 [] ts rfl hts
  refine ⟨s, ts, hts, hs, ?_, ?_⟩
  · cases ts with
    | nil => simpa using (List.cons.inj hinv).1
    | cons top ts => simpa using (List.cons.inj hinv).1
  · have := congrArg List.length hinv
    simp only [List.length_cons, List.length_append] at this
    omega

/-- Instance of C2: the two nested guards of the header comment, after the inner
guard is left. -/
theorem dynamicBinding_stack_semantics_witness :
    ∃ s ts, OutstandingPushes [] nestedGuards = some ts ∧
      RunBindingCalls emptyBinding nestedGuards = some s ∧
      s.Current = ts.head?.getD emptyBinding.Current ∧
      s.Stack.length = emptyBinding.Stack.length + ts.length :=
  dynamicBinding_stack_semantics emptyBinding nestedGuards [BindingCall.pop]
    [] (by decide)

/-! ## Facts about function overrides -/

section OverrideLemmas

/-- A shape names an object with that outer and those `ULuaFunction` members. -/
theorem World.shape_eq_some (w : World) (Id Outer : ObjId) (p : Option ULuaFunctionPart)
    (h : w.Shape Id = some (Outer, p)) :
    ∃ r, w.Functions Id = some r ∧ r.Outer = Outer ∧ r.LuaFunction = p := by
  unfold World.Shape at h
  cases hr : w.Functions Id with
  | none => simp [hr] at h
  | some r =>
    simp only [hr, Option.map_some', Option.some.injEq, Prod.mk.injEq] at h
    exact ⟨r, rfl, h.1, h.2⟩

/-- Function `ULuaFunction::Restore` of a harmless record succeeds, leaves `Function`
alone and keeps every object's shape. -/
theorem ULuaFunction.restore_other (w : World) (OverridesClass Child Function : ObjId)
    (o : ULuaOverridesClass) (hoc : w.OverridesClasses OverridesClass = some o)
    (hc : w.Harmless OverridesClass Function Child) :
    ∃ w2, ULuaFunction.Restore w Child = some w2 ∧
      w2.Functions Function = w.Functions Function ∧
      w2.OverridesClasses = w.OverridesClasses ∧
      (∀ Id, w2.Shape Id = w.Shape Id) := by
  obtain ⟨part, hshape, hov, hne⟩ := hc
  obtain ⟨r, hr, hout, hp⟩ := w.shape_eq_some _ _ _ hshape
  cases hb : part.bAdded with
  | true =>
    simp only [ULuaFunction.Restore, hr, hp, hb, hout, hoc, Option.bind_eq_bind, Option.some_bind,
      if_true]
    cases o.Owner with
    | none => exact ⟨w, rfl, rfl, rfl, fun _ => rfl⟩
    | some c => exact ⟨_, rfl, rfl, rfl, fun _ => rfl⟩
  | false =>
    obtain ⟨Overridden, hO, hov2⟩ := hov hb
    have hFrom : part.From ≠ some Function := fun h => hne ⟨hb, h⟩
    simp only [ULuaFunction.Restore, hr, hp, hb, Option.bind_eq_bind, Option.some_bind,
      Bool.false_eq_true, if_false]
    cases hfrom : part.From with
    | none => exact ⟨w, by simp, rfl, rfl, fun _ => rfl⟩
    | some Old =>
      have hOld : Function ≠ Old := by
        intro h; apply hFrom; rw [hfrom, h]
      cases hold : w.Functions Old with
      | none => exact ⟨w, by simp [hold], rfl, rfl, fun _ => rfl⟩
      | some old =>
        cases hovr : w.Functions Overridden with
        | none => simp [World.Shape, hovr] at hov2
        | some ov =>
          simp only [Option.some_bind, Option.map_some', hO, hovr, hold]
          refine ⟨_, rfl, ?_, rfl, ?_⟩
          · simp [World.setFunction, World.AddNativeFunction, Assign, hOld]
          · intro Id
            by_cases hId : Id = Old
            · subst hId
              simp [World.Shape, World.setFunction, World.AddNativeFunction, Assign, hold]
            · simp [World.Shape, World.setFunction, World.AddNativeFunction, Assign, hId]

/-- Restoring a chain of harmless records succeeds and leaves `Function` alone. -/
theorem ULuaFunction.restore_chain (OverridesClass Function : ObjId) (o : ULuaOverridesClass) :
    ∀ (Children : List ObjId) (w : World), w.OverridesClasses OverridesClass = some o →
      (∀ Child ∈ Children, w.Harmless OverridesClass Function Child) →
      ∃ w2, Children.foldlM (fun w LuaFunction => ULuaFunction.Restore w LuaFunction) w = some w2 ∧
        w2.Functions Function = w.Functions Function := by
  intro Children
  induction Children with
  | nil => intro w _ _; exact ⟨w, rfl, rfl⟩
  | cons Child rest ih =>
    intro w hoc hall
    obtain ⟨w1, h1, hF1, hO1, hS1⟩ := ULuaFunction.restore_other w OverridesClass Child Function o
      hoc (hall Child (List.mem_cons_self _ _))
    obtain ⟨w2, h2, hF2⟩ := ih w1 (by rw [hO1]; exact hoc) (by
      intro c hc
      obtain ⟨part, hs, hov, hne⟩ := hall c (List.mem_cons_of_mem _ hc)
      refine ⟨part, by rw [hS1]; exact hs, ?_, hne⟩
      intro hb
      obtain ⟨ov, hov1, hov2⟩ := hov hb
      exact ⟨ov, hov1, by rw [hS1]; exact hov2⟩)
    refine ⟨w2, ?_, by rw [hF2, hF1]⟩
    simp only [List.foldlM_cons, h1, Option.bind_eq_bind, Option.some_bind]
    exact h2

end OverrideLemmas

section OverrideLemmas2

/-- Reading the replaced entry. -/
theorem Assign_same {β : Type} (Table : ObjId → β) (Id : ObjId) (v : β) :
    Assign Table Id v Id = v := by
  simp [Assign]

/-- Reading another entry. -/
theorem Assign_other {β : Type} (Table : ObjId → β) (Id Key : ObjId) (v : β) (h : Key ≠ Id) :
    Assign Table Id v Key = Table Key := by
  simp [Assign, h]

/-- Function `SetActive(true)` on a record that is not active yet, for a true override:
the record takes over the script body of the original, the original gets the
native flag, the trampoline entry and the marker payload. -/
theorem ULuaFunction.setActive_true_own (w : World) (Self Function Class : ObjId)
    (self function : UFunction) (part : ULuaFunctionPart) (o : ULuaOverridesClass)
    (hS : w.Functions Self = some self) (hp : self.LuaFunction = some part)
    (hact : part.bActivated = false) (hadd : part.bAdded = false)
    (hFrom : part.From = some Function) (hF : w.Functions Function = some function)
    (hne : Function ≠ Self)
    (hoc : w.OverridesClasses self.Outer = some o) (hOwner : o.Owner = some Class) :
    ∃ w2, ULuaFunction.SetActive w Self true = some w2 ∧
      w2.OverridesClasses = w.OverridesClasses ∧ w2.Overrides = w.Overrides ∧
      w2.NextId = w.NextId ∧
      w2.Functions = Assign (Assign w.Functions Function
          (some { function with FunctionFlags := function.FunctionFlags ||| FUNC_Native,
                                NativeFunc := FNativeFuncPtr.execScriptCallLua,
                                Script := ScriptMagicHeader ++ WriteUnaligned Self }))
        Self (some { self with SuperStruct := function.SuperStruct, Script := function.Script,
                               LuaFunction := some { part with bActivated := true } }) := by
  simp only [ULuaFunction.SetActive, hS, hp, hact, hFrom, hF, hoc, hOwner,
    ULuaFunction.Activate, hadd, World.setFunction, World.AddNativeFunction,
    Option.bind_eq_bind, Option.some_bind, Option.map_some', Bool.false_eq_true, if_false,
    if_true, Assign_same, Assign_other _ _ _ _ hne, Assign_other _ _ _ _ hne.symm]
  refine ⟨_, rfl, rfl, rfl, rfl, ?_⟩
  funext Id
  simp only [Assign]
  by_cases h1 : Id = Self
  · subst h1; simp
  · by_cases h2 : Id = Function
    · subst h2; simp [h1]
    · simp [h1, h2]

/-- Function `SetActive(true)` on a record that is not active yet, for a newly added
function: only the record and the tables of the class change. -/
theorem ULuaFunction.setActive_true_added (w : World) (Self Function Class : ObjId)
    (self function : UFunction) (part : ULuaFunctionPart) (o : ULuaOverridesClass)
    (hS : w.Functions Self = some self) (hp : self.LuaFunction = some part)
    (hact : part.bActivated = false) (hadd : part.bAdded = true)
    (hFrom : part.From = some Function) (hF : w.Functions Function = some function)
    (hoc : w.OverridesClasses self.Outer = some o) (hOwner : o.Owner = some Class)
    (hName : w.FindFunctionByName Class self.Name = none) :
    ∃ w2, ULuaFunction.SetActive w Self true = some w2 ∧
      w2.OverridesClasses = w.OverridesClasses ∧ w2.Overrides = w.Overrides ∧
      w2.NextId = w.NextId ∧
      w2.Functions = Assign w.Functions Self
        (some { self with SuperStruct := some Function,
                          FunctionFlags := self.FunctionFlags ||| FUNC_Native,
                          NativeFunc := FNativeFuncPtr.execCallLua,
                          LuaFunction := some { part with bActivated := true } }) := by
  cases hnat : function.HasAnyFunctionFlags FUNC_Native <;>
  · simp only [ULuaFunction.SetActive, hS, hp, hact, hFrom, hF, hoc, hOwner,
      ULuaFunction.Activate, hadd, hName, hnat, World.setFunction, World.AddNativeFunction,
      World.AddFunctionToFunctionMap, Option.isSome_none,
      Option.bind_eq_bind, Option.some_bind, Option.map_some', Bool.false_eq_true, if_false,
      if_true, Assign_same]
    refine ⟨_, rfl, rfl, rfl, rfl, ?_⟩
    funext Id
    simp only [Assign]
    by_cases h1 : Id = Self
    · subst h1; simp
    · simp [h1]

/-- Continuation form of `setActive_true_own`. -/
theorem ULuaFunction.setActive_true_own_then (w : World) (Self Function Class : ObjId)
    (self function : UFunction) (part : ULuaFunctionPart) (o : ULuaOverridesClass)
    (P : World → Prop)
    (hS : w.Functions Self = some self) (hp : self.LuaFunction = some part)
    (hact : part.bActivated = false) (hadd : part.bAdded = false)
    (hFrom : part.From = some Function) (hF : w.Functions Function = some function)
    (hne : Function ≠ Self)
    (hoc : w.OverridesClasses self.Outer = some o) (hOwner : o.Owner = some Class)
    (hP : ∀ w2, w2.OverridesClasses = w.OverridesClasses → w2.Overrides = w.Overrides →
      w2.NextId = w.NextId →
      w2.Functions = Assign (Assign w.Functions Function
          (some { function with FunctionFlags := function.FunctionFlags ||| FUNC_Native,
                                NativeFunc := FNativeFuncPtr.execScriptCallLua,
                                Script := ScriptMagicHeader ++ WriteUnaligned Self }))
        Self (some { self with SuperStruct := function.SuperStruct, Script := function.Script,
                               LuaFunction := some { part with bActivated := true } }) → P w2) :
    ∃ w2, ULuaFunction.SetActive w Self true = some w2 ∧ P w2 := by
  obtain ⟨w2, h, h1, h2, h3, h4⟩ := ULuaFunction.setActive_true_own w Self Function Class self
    function part o hS hp hact hadd hFrom hF hne hoc hOwner
  exact ⟨w2, h, hP w2 h1 h2 h3 h4⟩

/-- Function `ULuaFunction::Override` of a fresh duplicate `Self` for a true override. -/
theorem ULuaFunction.override_own (w : World) (Self Function Class : ObjId)
    (self function : UFunction) (part : ULuaFunctionPart) (o : ULuaOverridesClass)
    (hS : w.Functions Self = some self) (hp : self.LuaFunction = some part)
    (hFrom : part.From = none) (hF : w.Functions Function = some function)
    (hDispatch : function.NativeFunc ≠ FNativeFuncPtr.execScriptCallLua)
    (hne : Function ≠ Self) (hnF : Function ≠ w.NextId) (hnS : Self ≠ w.NextId)
    (hoc : w.OverridesClasses self.Outer = some o) (hOwner : o.Owner = some Class) :
    ∃ w2, ULuaFunction.Override w Self Function Class false = some w2 ∧
      w2.OverridesClasses = w.OverridesClasses ∧ w2.Overrides = w.Overrides ∧
      w2.NextId = w.NextId + 1 ∧
      w2.Functions Function =
        some { function with FunctionFlags := function.FunctionFlags ||| FUNC_Native,
                             NativeFunc := FNativeFuncPtr.execScriptCallLua,
                             Script := ScriptMagicHeader ++ WriteUnaligned Self } ∧
      w2.Functions Self =
        some { self with SuperStruct := function.SuperStruct, Script := function.Script,
                         LuaFunction := some ⟨some Function, some w.NextId, true, false⟩ } ∧
      w2.Functions w.NextId =
        some { Name := function.Name ++ "__Overridden", Outer := self.Outer,
               FunctionFlags := function.FunctionFlags, NativeFunc := function.NativeFunc,
               Script := function.Script, SuperStruct := function.SuperStruct,
               LuaFunction := none } ∧
      ∀ Id, Id ≠ Function → Id ≠ Self → Id ≠ w.NextId → w2.Functions Id = w.Functions Id := by
  cases hnat : function.HasAnyFunctionFlags FUNC_Native <;>
  · simp only [ULuaFunction.Override, hS, hp, hFrom, hF, hDispatch, hnat,
      World.StaticDuplicateObject, World.setFunction, World.AddNativeFunction,
      Option.bind_eq_bind, Option.some_bind, Option.none_bind, Option.isSome_none,
      Bool.false_eq_true, if_false, if_true, Assign_same, Assign_other _ _ _ _ hnS]
    apply ULuaFunction.setActive_true_own_then _ Self Function Class _ function _ o
    · exact Assign_same _ _ _
    · rfl
    · rfl
    · rfl
    · rfl
    · simp only [Assign_other _ _ _ _ hne, Assign_other _ _ _ _ hnF, hF]
    · exact hne
    · exact hoc
    · exact hOwner
    · intro w2 h1 h2 h3 h4
      dsimp only at h1 h2 h3 h4
      refine ⟨h1, h2, h3, ?_, ?_, ?_, ?_⟩
      · rw [h4]; simp only [Assign_same, Assign_other _ _ _ _ hne]
      · rw [h4]; simp only [Assign_same]
      · rw [h4]
        simp only [Assign_same, Assign_other _ _ _ _ (Ne.symm hnS),
          Assign_other _ _ _ _ (Ne.symm hnF)]
      · intro Id i1 i2 i3
        rw [h4]
        simp only [Assign_other _ _ _ _ i1, Assign_other _ _ _ _ i2, Assign_other _ _ _ _ i3]

/-- Continuation form of `setActive_true_added`. -/
theorem ULuaFunction.setActive_true_added_then (w : World) (Self Function Class : ObjId)
    (self function : UFunction) (part : ULuaFunctionPart) (o : ULuaOverridesClass)
    (P : World → Prop)
    (hS : w.Functions Self = some self) (hp : self.LuaFunction = some part)
    (hact : part.bActivated = false) (hadd : part.bAdded = true)
    (hFrom : part.From = some Function) (hF : w.Functions Function = some function)
    (hoc : w.OverridesClasses self.Outer = some o) (hOwner : o.Owner = some Class)
    (hName : w.FindFunctionByName Class self.Name = none)
    (hP : ∀ w2, w2.OverridesClasses = w.OverridesClasses → w2.Overrides = w.Overrides →
      w2.NextId = w.NextId →
      w2.Functions = Assign w.Functions Self
        (some { self with SuperStruct := some Function,
                          FunctionFlags := self.FunctionFlags ||| FUNC_Native,
                          NativeFunc := FNativeFuncPtr.execCallLua,
                          LuaFunction := some { part with bActivated := true } }) → P w2) :
    ∃ w2, ULuaFunction.SetActive w Self true = some w2 ∧ P w2 := by
  obtain ⟨w2, h, h1, h2, h3, h4⟩ := ULuaFunction.setActive_true_added w Self Function Class self
    function part o hS hp hact hadd hFrom hF hoc hOwner hName
  exact ⟨w2, h, hP w2 h1 h2 h3 h4⟩

/-- Function `ULuaFunction::Override` of a fresh duplicate `Self` for a newly added
function: the original is not written. -/
theorem ULuaFunction.override_added (w : World) (Self Function Class : ObjId)
    (self function : UFunction) (part : ULuaFunctionPart) (o : ULuaOverridesClass)
    (hS : w.Functions Self = some self) (hp : self.LuaFunction = some part)
    (hFrom : part.From = none) (hF : w.Functions Function = some function)
    (hDispatch : function.NativeFunc ≠ FNativeFuncPtr.execScriptCallLua)
    (hne : Function ≠ Self) (hnF : Function ≠ w.NextId) (hnS : Self ≠ w.NextId)
    (hoc : w.OverridesClasses self.Outer = some o) (hOwner : o.Owner = some Class)
    (hName : w.FindFunctionByName Class self.Name = none) :
    ∃ w2, ULuaFunction.Override w Self Function Class true = some w2 ∧
      w2.OverridesClasses = w.OverridesClasses ∧ w2.Overrides = w.Overrides ∧
      w2.NextId = w.NextId + 1 ∧
      w2.Functions Function = some function ∧
      w2.Functions Self =
        some { self with SuperStruct := some Function,
                         FunctionFlags := self.FunctionFlags ||| FUNC_Native,
                         NativeFunc := FNativeFuncPtr.execCallLua,
                         LuaFunction := some ⟨some Function, some w.NextId, true, true⟩ } ∧
      w2.Functions w.NextId =
        some { Name := function.Name ++ "__Overridden", Outer := self.Outer,
               FunctionFlags := function.FunctionFlags, NativeFunc := function.NativeFunc,
               Script := function.Script, SuperStruct := function.SuperStruct,
               LuaFunction := none } ∧
      ∀ Id, Id ≠ Function → Id ≠ Self → Id ≠ w.NextId → w2.Functions Id = w.Functions Id := by
  cases hnat : function.HasAnyFunctionFlags FUNC_Native <;>
  · simp only [ULuaFunction.Override, hS, hp, hFrom, hF, hDispatch, hnat,
      World.StaticDuplicateObject, World.setFunction, World.AddNativeFunction,
      Option.bind_eq_bind, Option.some_bind, Option.none_bind, Option.isSome_none,
      Bool.false_eq_true, if_false, if_true, Assign_same, Assign_other _ _ _ _ hnS]
    apply ULuaFunction.setActive_true_added_then _ Self Function Class _ function _ o
    · exact Assign_same _ _ _
    · rfl
    · rfl
    · rfl
    · rfl
    · simp only [Assign_other _ _ _ _ hne, Assign_other _ _ _ _ hnF, hF]
    · exact hoc
    · exact hOwner
    · exact hName
    · intro w2 h1 h2 h3 h4
      dsimp only at h1 h2 h3 h4
      refine ⟨h1, h2, h3, ?_, ?_, ?_, ?_⟩
      · rw [h4]; simp only [Assign_other _ _ _ _ hne, Assign_other _ _ _ _ hnF, hF]
      · rw [h4]; simp only [Assign_same]
      · rw [h4]
        simp only [Assign_same, Assign_other _ _ _ _ (Ne.symm hnS)]
      · intro Id i1 i2 i3
        rw [h4]
        simp only [Assign_other _ _ _ _ i2, Assign_other _ _ _ _ i3]

/-- Function `ULuaFunction::Bind` on a record whose original is live: only the dispatch
entry of the record changes. -/
theorem ULuaFunction.bind_record (w : World) (Self Function : ObjId)
    (self function overridden : UFunction) (part : ULuaFunctionPart) (Overridden : ObjId)
    (hS : w.Functions Self = some self) (hp : self.LuaFunction = some part)
    (hFrom : part.From = some Function) (hF : w.Functions Function = some function)
    (hO : part.Overridden = some Overridden) (hov : w.Functions Overridden = some overridden) :
    ∃ w2 Entry, ULuaFunction.Bind w Self = some w2 ∧
      w2.OverridesClasses = w.OverridesClasses ∧ w2.Overrides = w.Overrides ∧
      w2.NextId = w.NextId ∧
      w2.Functions = Assign w.Functions Self (some { self with NativeFunc := Entry }) := by
  cases hb : part.bAdded <;>
  · simp only [ULuaFunction.Bind, hS, hp, hFrom, hF, hO, hov, hb, World.setFunction,
      Option.bind_eq_bind, Option.some_bind, Option.isSome_some, Bool.false_eq_true, if_false,
      if_true]
    exact ⟨_, _, rfl, rfl, rfl, rfl, rfl⟩

/-- Function `ULuaFunction::Get` only reads the object of the function. -/
theorem ULuaFunction.get_congr (w w2 : World) (Function : ObjId)
    (h : w2.Functions Function = w.Functions Function) :
    ULuaFunction.Get w2 (some Function) = ULuaFunction.Get w (some Function) := by
  simp only [ULuaFunction.Get, h]

/-- Function `ULuaFunction::Override` of a fresh duplicate `Self` for a newly added
function whose original is interposed by the class that owns it: the record
shares the backup of that class and the original is not written. -/
theorem ULuaFunction.override_added_shared (w : World) (Self Function Class : ObjId)
    (self function l : UFunction) (part lp : ULuaFunctionPart) (o : ULuaOverridesClass)
    (L Backup : ObjId)
    (hS : w.Functions Self = some self) (hp : self.LuaFunction = some part)
    (hFrom : part.From = none) (hF : w.Functions Function = some function)
    (hDispatch : function.NativeFunc = FNativeFuncPtr.execScriptCallLua)
    (hGet : ULuaFunction.Get w (some Function) = some L) (hL : w.Functions L = some l)
    (hlp : l.LuaFunction = some lp) (hB : lp.Overridden = some Backup)
    (hne : Function ≠ Self)
    (hoc : w.OverridesClasses self.Outer = some o) (hOwner : o.Owner = some Class)
    (hName : w.FindFunctionByName Class self.Name = none) :
    ∃ w2, ULuaFunction.Override w Self Function Class true = some w2 ∧
      w2.OverridesClasses = w.OverridesClasses ∧ w2.Overrides = w.Overrides ∧
      w2.Functions Function = some function ∧
      w2.Functions Self =
        some { self with SuperStruct := some Function,
                         FunctionFlags := self.FunctionFlags ||| FUNC_Native,
                         NativeFunc := FNativeFuncPtr.execCallLua,
                         LuaFunction := some ⟨some Function, some Backup, true, true⟩ } ∧
      ∀ Id, Id ≠ Self → w2.Functions Id = w.Functions Id := by
  simp only [ULuaFunction.Override, hS, hp, hFrom, hF, hDispatch, hGet, hL, hlp, hB,
    World.setFunction, Option.bind_eq_bind, Option.some_bind, Option.none_bind,
    Option.isSome_none, Bool.false_eq_true, if_false, if_true]
  apply ULuaFunction.setActive_true_added_then _ Self Function Class _ function _ o
  · exact Assign_same _ _ _
  · rfl
  · rfl
  · rfl
  · rfl
  · simp only [Assign_other _ _ _ _ hne, hF]
  · exact hoc
  · exact hOwner
  · exact hName
  · intro w2 h1 h2 h3 h4
    dsimp only at h1 h2 h3 h4
    refine ⟨h1, h2, ?_, ?_, ?_⟩
    · rw [h4]; simp only [Assign_other _ _ _ _ hne, hF]
    · rw [h4]; simp only [Assign_same]
    · intro Id i1
      rw [h4]
      simp only [Assign_other _ _ _ _ i1]

/-- Function `ULuaFunction::Bind` on the record of a newly added function whose original
is live: the dispatch entry of the record is the script entry. -/
theorem ULuaFunction.bind_added (w : World) (Self Function : ObjId)
    (self function : UFunction) (part : ULuaFunctionPart)
    (hS : w.Functions Self = some self) (hp : self.LuaFunction = some part)
    (hadd : part.bAdded = true)
    (hFrom : part.From = some Function) (hF : w.Functions Function = some function) :
    ∃ w2, ULuaFunction.Bind w Self = some w2 ∧
      w2.OverridesClasses = w.OverridesClasses ∧ w2.Overrides = w.Overrides ∧
      w2.Functions = Assign w.Functions Self
        (some { self with NativeFunc := FNativeFuncPtr.execCallLua }) := by
  simp only [ULuaFunction.Bind, hS, hp, hFrom, hF, hadd, World.setFunction,
    Option.bind_eq_bind, Option.some_bind, Option.isSome_some, if_true]
  exact ⟨_, rfl, rfl, rfl, rfl⟩

/-- The first half of `Interpose`: the original has its flags back, the duplicate
is the head of the chain of the override class. -/
theorem FLuaOverrides.interpose_first_half (w : World) (OverridesClass Function Class : ObjId)
    (NewName : String) (bAddNew : Bool) (function : UFunction) (o : ULuaOverridesClass)
    (hF : w.Functions Function = some function)
    (hoc : w.OverridesClasses OverridesClass = some o)
    (hnF : Function ≠ w.NextId) :
    FLuaOverrides.Interpose w OverridesClass Function Class NewName bAddNew =
      (ULuaFunction.Override (FLuaOverrides.Linked w OverridesClass NewName function o)
        w.NextId Function Class bAddNew).bind (fun w2 => ULuaFunction.Bind w2 w.NextId) := by
  have e : (FLuaOverrides.Linked w OverridesClass NewName function o) =
      { Functions := Assign (Assign (Assign (Assign w.Functions Function
            (some { function with
              FunctionFlags := function.FunctionFlags &&& (0xFFFFFFFF ^^^ FUNC_Native) }))
            w.NextId (some { (FLuaOverrides.Duplicate function OverridesClass NewName) with
              FunctionFlags := function.FunctionFlags &&& (0xFFFFFFFF ^^^ FUNC_Native) }))
            Function (some function))
            w.NextId (some (FLuaOverrides.Duplicate function OverridesClass NewName)),
        OverridesClasses := Assign w.OverridesClasses OverridesClass
          (some { o with Children := w.NextId :: o.Children }),
        Overrides := w.Overrides, FuncMap := w.FuncMap,
        NativeFunctionLookupTable := w.NativeFunctionLookupTable,
        NextId := w.NextId + 1 } := by
    simp only [FLuaOverrides.Linked, World.mk.injEq, and_true, true_and]
    funext Id
    simp only [Assign]
    by_cases h1 : Id = w.NextId
    · simp [h1]
    · by_cases h2 : Id = Function
      · subst h2; simp [h1, hF]
      · simp [h1, h2]
  rw [e]
  simp only [FLuaOverrides.Interpose, hF, World.setFunction, World.StaticDuplicateObject,
    Option.bind_eq_bind, Option.some_bind, Assign_same, Assign_other _ _ _ _ hnF,
    Assign_other _ _ _ _ hnF.symm, hoc, if_true]
  rfl

/-- Function `Interpose` for a true override of a function that is not interposed yet:
the override class has the new record `w.NextId` at the head of its chain, the
record names the original and its backup `w.NextId + 1`, holds the script body of
the original, the backup holds its dispatch entry and flags, the original is
redirected, and no other object that existed has changed. -/
theorem FLuaOverrides.interpose_own (w : World) (OverridesClass Function Class : ObjId)
    (NewName : String) (function : UFunction) (o : ULuaOverridesClass)
    (hF : w.Functions Function = some function)
    (hDispatch : function.NativeFunc ≠ FNativeFuncPtr.execScriptCallLua)
    (hoc : w.OverridesClasses OverridesClass = some o) (hOwner : o.Owner = some Class)
    (h1 : w.Functions w.NextId = none) (h2 : w.Functions (w.NextId + 1) = none) :
    ∃ w1 rlf rov, FLuaOverrides.Interpose w OverridesClass Function Class NewName false = some w1 ∧
      w1.OverridesClasses = Assign w.OverridesClasses OverridesClass
        (some { o with Children := w.NextId :: o.Children }) ∧
      w1.Overrides = w.Overrides ∧
      w1.Functions w.NextId = some rlf ∧
      rlf.LuaFunction = some ⟨some Function, some (w.NextId + 1), true, false⟩ ∧
      rlf.Script = function.Script ∧
      w1.Functions (w.NextId + 1) = some rov ∧ rov.NativeFunc = function.NativeFunc ∧
      rov.FunctionFlags = function.FunctionFlags ∧
      w1.Functions Function = some
        { function with FunctionFlags := function.FunctionFlags ||| FUNC_Native,
                        NativeFunc := FNativeFuncPtr.execScriptCallLua,
                        Script := ScriptMagicHeader ++ WriteUnaligned w.NextId } ∧
      ∀ Id, (w.Functions Id).isSome → Id ≠ Function → w1.Functions Id = w.Functions Id := by
  have n1 : Function ≠ w.NextId := by
    intro h; rw [h, h1] at hF; exact absurd hF (by simp)
  have n2 : Function ≠ w.NextId + 1 := by
    intro h; rw [h, h2] at hF; exact absurd hF (by simp)
  have n3 : w.NextId ≠ w.NextId + 1 := Nat.ne_of_lt (Nat.lt_succ_self _)
  have hLS : (FLuaOverrides.Linked w OverridesClass NewName function o).Functions w.NextId
      = some (FLuaOverrides.Duplicate function OverridesClass NewName) := Assign_same _ _ _
  have hLF : (FLuaOverrides.Linked w OverridesClass NewName function o).Functions Function
      = some function := by
    simp only [FLuaOverrides.Linked, Assign_other _ _ _ _ n1, hF]
  have hLO : (FLuaOverrides.Linked w OverridesClass NewName function o).OverridesClasses
      (FLuaOverrides.Duplicate function OverridesClass NewName).Outer
      = some { o with Children := w.NextId :: o.Children } := Assign_same _ _ _
  have hLother : ∀ Id, Id ≠ w.NextId →
      (FLuaOverrides.Linked w OverridesClass NewName function o).Functions Id = w.Functions Id := by
    intro Id h
    simp only [FLuaOverrides.Linked, Assign_other _ _ _ _ h]
  rw [FLuaOverrides.interpose_first_half w OverridesClass Function Class NewName false function o
    hF hoc n1]
  obtain ⟨w2, hw2, a1, a2, a3, a4, a5, a6, a7⟩ := ULuaFunction.override_own
    (FLuaOverrides.Linked w OverridesClass NewName function o) w.NextId Function Class
    (FLuaOverrides.Duplicate function OverridesClass NewName) function ⟨none, none, false, false⟩
    { o with Children := w.NextId :: o.Children } hLS rfl rfl hLF hDispatch n1 n2 n3 hLO hOwner
  obtain ⟨w3, Entry, hw3, b1, b2, b3, b4⟩ := ULuaFunction.bind_record w2 w.NextId Function _
    _ _ _ (w.NextId + 1) a5 rfl rfl a4 rfl a6
  have c4 := congrFun b4 w.NextId
  rw [Assign_same] at c4
  have c8 := congrFun b4 (w.NextId + 1)
  rw [Assign_other _ _ _ _ n3.symm] at c8
  replace c8 := c8.trans a6
  have c11 := congrFun b4 Function
  rw [Assign_other _ _ _ _ n1] at c11
  replace c11 := c11.trans a4
  refine ⟨w3, _, _, by rw [hw2]; exact hw3, by rw [b1, a1]; rfl, by rw [b2, a2]; rfl, c4, rfl,
    rfl, c8, rfl, rfl, c11, ?_⟩
  intro Id hId i1
  have i2 : Id ≠ w.NextId := by
    intro h; rw [h, h1] at hId; exact absurd hId (by simp)
  have i3 : Id ≠ w.NextId + 1 := by
    intro h; rw [h, h2] at hId; exact absurd hId (by simp)
  rw [b4, Assign_other _ _ _ _ i2, a7 Id i1 i2 i3, hLother Id i2]

/-- Function `Interpose` for a newly added function (the class inherits the original):
the override class has the new record `w.NextId` at the head of its chain, and no
object that existed has changed, the original included. The original is either
not interposed, or interposed by its own class with a record that holds a backup. -/
theorem FLuaOverrides.interpose_added (w : World) (OverridesClass Function Class : ObjId)
    (NewName : String) (function : UFunction) (o : ULuaOverridesClass)
    (hF : w.Functions Function = some function)
    (hDispatch : function.NativeFunc = FNativeFuncPtr.execScriptCallLua →
      ∃ L l lp Backup, ULuaFunction.Get w (some Function) = some L ∧ w.Functions L = some l ∧
        l.LuaFunction = some lp ∧ lp.Overridden = some Backup)
    (hoc : w.OverridesClasses OverridesClass = some o) (hOwner : o.Owner = some Class)
    (h1 : w.Functions w.NextId = none) (h2 : w.Functions (w.NextId + 1) = none)
    (hName : w.FindFunctionByName Class NewName = none) :
    ∃ w1 rlf Backup, FLuaOverrides.Interpose w OverridesClass Function Class NewName true = some w1 ∧
      w1.OverridesClasses = Assign w.OverridesClasses OverridesClass
        (some { o with Children := w.NextId :: o.Children }) ∧
      w1.Overrides = w.Overrides ∧
      w1.Functions w.NextId = some rlf ∧ rlf.Outer = OverridesClass ∧
      rlf.LuaFunction = some ⟨some Function, some Backup, true, true⟩ ∧
      ∀ Id, (w.Functions Id).isSome → w1.Functions Id = w.Functions Id := by
  have n1 : Function ≠ w.NextId := by
    intro h; rw [h, h1] at hF; exact absurd hF (by simp)
  have n2 : Function ≠ w.NextId + 1 := by
    intro h; rw [h, h2] at hF; exact absurd hF (by simp)
  have n3 : w.NextId ≠ w.NextId + 1 := Nat.ne_of_lt (Nat.lt_succ_self _)
  have hLS : (FLuaOverrides.Linked w OverridesClass NewName function o).Functions w.NextId
      = some (FLuaOverrides.Duplicate function OverridesClass NewName) := Assign_same _ _ _
  have hLother : ∀ Id, Id ≠ w.NextId →
      (FLuaOverrides.Linked w OverridesClass NewName function o).Functions Id = w.Functions Id := by
    intro Id h
    simp only [FLuaOverrides.Linked, Assign_other _ _ _ _ h]
  have hLF : (FLuaOverrides.Linked w OverridesClass NewName function o).Functions Function
      = some function := by rw [hLother _ n1]; exact hF
  have hLO : (FLuaOverrides.Linked w OverridesClass NewName function o).OverridesClasses
      (FLuaOverrides.Duplicate function OverridesClass NewName).Outer
      = some { o with Children := w.NextId :: o.Children } := Assign_same _ _ _
  rw [FLuaOverrides.interpose_first_half w OverridesClass Function Class NewName true function o
    hF hoc n1]
  by_cases hd : function.NativeFunc = FNativeFuncPtr.execScriptCallLua
  · obtain ⟨L, l, lp, Backup, g1, g2, g3, g4⟩ := hDispatch hd
    have nL : L ≠ w.NextId := by
      intro h; rw [h, h1] at g2; exact absurd g2 (by simp)
    obtain ⟨w2, hw2, a1, a2, a4, a5, a7⟩ := ULuaFunction.override_added_shared
      (FLuaOverrides.Linked w OverridesClass NewName function o) w.NextId Function Class
      (FLuaOverrides.Duplicate function OverridesClass NewName) function l
      ⟨none, none, false, false⟩ lp { o with Children := w.NextId :: o.Children } L Backup
      hLS rfl rfl hLF hd
      (by rw [ULuaFunction.get_congr w _ Function (hLother _ n1)]; exact g1)
      (by rw [hLother _ nL]; exact g2) g3 g4 n1 hLO hOwner hName
    obtain ⟨w3, hw3, b1, b2, b4⟩ := ULuaFunction.bind_added w2 w.NextId Function _ function _
      a5 rfl rfl rfl a4
    have c4 := congrFun b4 w.NextId
    rw [Assign_same] at c4
    refine ⟨w3, _, Backup, by rw [hw2]; exact hw3, by rw [b1, a1]; rfl, by rw [b2, a2]; rfl,
      c4, rfl, rfl, ?_⟩
    intro Id hId
    have i2 : Id ≠ w.NextId := by
      intro h; rw [h, h1] at hId; exact absurd hId (by simp)
    rw [b4, Assign_other _ _ _ _ i2, a7 Id i2, hLother Id i2]
  · obtain ⟨w2, hw2, a1, a2, a3, a4, a5, a6, a7⟩ := ULuaFunction.override_added
      (FLuaOverrides.Linked w OverridesClass NewName function o) w.NextId Function Class
      (FLuaOverrides.Duplicate function OverridesClass NewName) function ⟨none, none, false, false⟩
      { o with Children := w.NextId :: o.Children } hLS rfl rfl hLF hd n1 n2 n3 hLO hOwner hName
    obtain ⟨w3, hw3, b1, b2, b4⟩ := ULuaFunction.bind_added w2 w.NextId Function _ function _
      a5 rfl rfl rfl a4
    have c4 := congrFun b4 w.NextId
    rw [Assign_same] at c4
    refine ⟨w3, _, w.NextId + 1, by rw [hw2]; exact hw3, by rw [b1, a1]; rfl,
      by rw [b2, a2]; rfl, c4, rfl, rfl, ?_⟩
    intro Id hId
    have i2 : Id ≠ w.NextId := by
      intro h; rw [h, h1] at hId; exact absurd hId (by simp)
    have i3 : Id ≠ w.NextId + 1 := by
      intro h; rw [h, h2] at hId; exact absurd hId (by simp)
    by_cases i1 : Id = Function
    · rw [i1, b4, Assign_other _ _ _ _ n1, a4, hF]
    · rw [b4, Assign_other _ _ _ _ i2, a7 Id i1 i2 i3, hLother Id i2]

end OverrideLemmas2

section OverrideLemmas3

/-- Function `ULuaFunction::Restore` of a true override writes the saved script body and
the dispatch entry and flags of the backup to the original. -/
theorem ULuaFunction.restore_own (w : World) (Self Function Overridden : ObjId)
    (self current overridden : UFunction) (part : ULuaFunctionPart)
    (hS : w.Functions Self = some self) (hp : self.LuaFunction = some part)
    (hadd : part.bAdded = false) (hFrom : part.From = some Function)
    (hF : w.Functions Function = some current)
    (hO : part.Overridden = some Overridden) (hov : w.Functions Overridden = some overridden) :
    ∃ w2, ULuaFunction.Restore w Self = some w2 ∧
      w2.OverridesClasses = w.OverridesClasses ∧
      w2.Functions = Assign w.Functions Function
        (some { current with Script := self.Script, NativeFunc := overridden.NativeFunc,
                             FunctionFlags := overridden.FunctionFlags }) := by
  simp only [ULuaFunction.Restore, hS, hp, hadd, hFrom, hF, hO, hov, World.setFunction,
    World.AddNativeFunction, Option.bind_eq_bind, Option.some_bind, Option.map_some',
    Bool.false_eq_true, if_false]
  exact ⟨_, rfl, rfl, rfl⟩

/-- Function `ULuaFunction::Restore` of a newly added function only touches the function
map of the class. -/
theorem ULuaFunction.restore_added (w : World) (Self : ObjId) (self : UFunction)
    (part : ULuaFunctionPart) (o : ULuaOverridesClass)
    (hS : w.Functions Self = some self) (hp : self.LuaFunction = some part)
    (hadd : part.bAdded = true) (hoc : w.OverridesClasses self.Outer = some o) :
    ∃ w2, ULuaFunction.Restore w Self = some w2 ∧
      w2.OverridesClasses = w.OverridesClasses ∧ w2.Functions = w.Functions := by
  simp only [ULuaFunction.Restore, hS, hp, hadd, hoc, Option.bind_eq_bind, Option.some_bind,
    if_true]
  cases o.Owner with
  | none => exact ⟨_, rfl, rfl, rfl⟩
  | some c => exact ⟨_, rfl, rfl, rfl⟩

/-- Harmless records stay harmless when the objects that exist keep their state. -/
theorem World.Harmless.transfer (w w2 : World) (OverridesClass Function Child : ObjId)
    (h : ∀ Id, (w.Functions Id).isSome → w2.Functions Id = w.Functions Id)
    (hc : w.Harmless OverridesClass Function Child) :
    w2.Harmless OverridesClass Function Child := by
  obtain ⟨part, hs, hov, hne⟩ := hc
  have key : ∀ Id, (w.Shape Id).isSome → w2.Shape Id = w.Shape Id := by
    intro Id hId
    have : (w.Functions Id).isSome := by
      simpa [World.Shape] using hId
    simp only [World.Shape, h Id this]
  refine ⟨part, ?_, ?_, hne⟩
  · rw [key Child (by rw [hs]; rfl)]; exact hs
  · intro hb
    obtain ⟨ov, h1, h2⟩ := hov hb
    exact ⟨ov, h1, by rw [key ov h2]; exact h2⟩

/-- Function `FLuaOverrides::Restore` in a world whose registry maps the class to a live
override class. -/
theorem FLuaOverrides.restore_eq (w : World) (Class OverridesClass : ObjId)
    (o : ULuaOverridesClass) (hreg : w.Overrides Class = some OverridesClass)
    (hoc : w.OverridesClasses OverridesClass = some o) :
    FLuaOverrides.Restore w Class =
      o.Children.foldlM (fun w LuaFunction => ULuaFunction.Restore w LuaFunction)
        { w with Overrides := Assign w.Overrides Class none } := by
  simp only [FLuaOverrides.Restore, hreg, hoc, ULuaOverridesClass.Restore, Option.bind_eq_bind,
    Option.some_bind]

end OverrideLemmas3

section OverrideLemmas4

/-- After `Interpose` of a true override, `FLuaOverrides::Restore` of the class
succeeds and gives the original function its state from before `Interpose`. -/
theorem FLuaOverrides.restore_after_own (w w1 : World)
    (OverridesClass Function Class : ObjId) (function rlf rov : UFunction)
    (o : ULuaOverridesClass)
    (hF : w.Functions Function = some function)
    (hreg : w.Overrides Class = some OverridesClass)
    (hH : ∀ Child ∈ o.Children, w.Harmless OverridesClass Function Child)
    (c2 : w1.OverridesClasses = Assign w.OverridesClasses OverridesClass
        (some { o with Children := w.NextId :: o.Children }))
    (c3 : w1.Overrides = w.Overrides)
    (c4 : w1.Functions w.NextId = some rlf)
    (c6 : rlf.LuaFunction = some ⟨some Function, some (w.NextId + 1), true, false⟩)
    (c7 : rlf.Script = function.Script)
    (c8 : w1.Functions (w.NextId + 1) = some rov) (c9 : rov.NativeFunc = function.NativeFunc)
    (c10 : rov.FunctionFlags = function.FunctionFlags)
    (c11 : w1.Functions Function = some
        { function with FunctionFlags := function.FunctionFlags ||| FUNC_Native,
                        NativeFunc := FNativeFuncPtr.execScriptCallLua,
                        Script := ScriptMagicHeader ++ WriteUnaligned w.NextId })
    (c12 : ∀ Id, (w.Functions Id).isSome → Id ≠ Function → w1.Functions Id = w.Functions Id) :
    ∃ w2, FLuaOverrides.Restore w1 Class = some w2 ∧ w2.Functions Function = some function := by
  have hoc1 : w1.OverridesClasses OverridesClass
      = some { o with Children := w.NextId :: o.Children } := by
    rw [c2]; exact Assign_same _ _ _
  rw [FLuaOverrides.restore_eq w1 Class OverridesClass _ (by rw [c3]; exact hreg) hoc1]
  simp only [List.foldlM_cons, Option.bind_eq_bind]
  obtain ⟨wa, ha, hb, hc⟩ := ULuaFunction.restore_own
    { w1 with Overrides := Assign w1.Overrides Class none } w.NextId Function (w.NextId + 1)
    rlf _ rov _ c4 c6 rfl rfl c11 rfl c8
  have hcF : wa.Functions Function = some function := by
    rw [hc, Assign_same, c7, c9, c10]
  have hsame : ∀ Id, (w.Functions Id).isSome → wa.Functions Id = w.Functions Id := by
    intro Id hId
    by_cases e : Id = Function
    · rw [e, hcF, hF]
    · rw [hc, Assign_other _ _ _ _ e]
      exact c12 Id hId e
  obtain ⟨w2, hw2, hF2⟩ := ULuaFunction.restore_chain OverridesClass Function
    { o with Children := w.NextId :: o.Children } o.Children wa (by rw [hb]; exact hoc1)
    (fun Child hChild => World.Harmless.transfer w wa OverridesClass Function Child hsame
      (hH Child hChild))
  refine ⟨w2, ?_, by rw [hF2]; exact hcF⟩
  rw [ha]
  exact hw2

/-- After `Interpose` of a newly added function, `FLuaOverrides::Restore` of the
class succeeds and the original function is as before `Interpose`. -/
theorem FLuaOverrides.restore_after_added (w w1 : World)
    (OverridesClass Function Class Backup : ObjId) (function rlf : UFunction)
    (o : ULuaOverridesClass)
    (hF : w.Functions Function = some function)
    (hreg : w.Overrides Class = some OverridesClass)
    (hH : ∀ Child ∈ o.Children, w.Harmless OverridesClass Function Child)
    (c2 : w1.OverridesClasses = Assign w.OverridesClasses OverridesClass
        (some { o with Children := w.NextId :: o.Children }))
    (c3 : w1.Overrides = w.Overrides)
    (c4 : w1.Functions w.NextId = some rlf) (c5 : rlf.Outer = OverridesClass)
    (c6 : rlf.LuaFunction = some ⟨some Function, some Backup, true, true⟩)
    (c12 : ∀ Id, (w.Functions Id).isSome → w1.Functions Id = w.Functions Id) :
    ∃ w2, FLuaOverrides.Restore w1 Class = some w2 ∧ w2.Functions Function = some function := by
  have hoc1 : w1.OverridesClasses OverridesClass
      = some { o with Children := w.NextId :: o.Children } := by
    rw [c2]; exact Assign_same _ _ _
  rw [FLuaOverrides.restore_eq w1 Class OverridesClass _ (by rw [c3]; exact hreg) hoc1]
  simp only [List.foldlM_cons, Option.bind_eq_bind]
  obtain ⟨wa, ha, hb, hc⟩ := ULuaFunction.restore_added
    { w1 with Overrides := Assign w1.Overrides Class none } w.NextId rlf _
    { o with Children := w.NextId :: o.Children } c4 c6 rfl (by rw [c5]; exact hoc1)
  have hsame : ∀ Id, (w.Functions Id).isSome → wa.Functions Id = w.Functions Id := by
    intro Id hId
    rw [hc]
    exact c12 Id hId
  have hcF : wa.Functions Function = some function := by
    rw [hsame Function (by rw [hF]; rfl)]; exact hF
  obtain ⟨w2, hw2, hF2⟩ := ULuaFunction.restore_chain OverridesClass Function
    { o with Children := w.NextId :: o.Children } o.Children wa (by rw [hb]; exact hoc1)
    (fun Child hChild => World.Harmless.transfer w wa OverridesClass Function Child hsame
      (hH Child hChild))
  refine ⟨w2, ?_, by rw [hF2]; exact hcF⟩
  rw [ha]
  exact hw2

end OverrideLemmas4

section OverrideLemmas5

/-- Function `GetOrAddOverridesClass` yields a live override class of the class whose old
records are harmless for a function without a true override, and leaves the
functions and function maps alone. -/
theorem FLuaOverrides.getOrAdd_spec (w : World) (Function Class : ObjId)
    (hAlloc : w.Allocated) (hReg : w.RegistryEntryWellFormed Class)
    (hFresh : ¬ w.HasTrueOverride Class Function) :
    ∃ OverridesClass o wN, FLuaOverrides.GetOrAddOverridesClass w Class = (OverridesClass, wN) ∧
      wN.Functions = w.Functions ∧ wN.FuncMap = w.FuncMap ∧
      wN.OverridesClasses OverridesClass = some o ∧ o.Owner = some Class ∧
      wN.Overrides Class = some OverridesClass ∧
      wN.Functions wN.NextId = none ∧ wN.Functions (wN.NextId + 1) = none ∧
      (∀ Child ∈ o.Children, wN.Harmless OverridesClass Function Child) := by
  cases hO : w.Overrides Class with
  | none =>
    refine ⟨w.NextId, ⟨some Class, []⟩,
      { w with OverridesClasses := Assign w.OverridesClasses w.NextId (some ⟨some Class, []⟩),
               Overrides := Assign w.Overrides Class (some w.NextId),
               NextId := w.NextId + 1 },
      ?_, rfl, rfl, Assign_same _ _ _, rfl, Assign_same _ _ _,
      (hAlloc _ (Nat.le_succ _)).1, (hAlloc _ (Nat.le_add_right _ 2)).1, ?_⟩
    · simp only [FLuaOverrides.GetOrAddOverridesClass, hO, Option.none_bind,
        ULuaOverridesClass.Create]
    · intro Child h; exact absurd h (List.not_mem_nil _)
  | some Id =>
    cases hC : w.OverridesClasses Id with
    | none =>
      refine ⟨w.NextId, ⟨some Class, []⟩,
        { w with OverridesClasses := Assign w.OverridesClasses w.NextId (some ⟨some Class, []⟩),
                 Overrides := Assign w.Overrides Class (some w.NextId),
                 NextId := w.NextId + 1 },
        ?_, rfl, rfl, Assign_same _ _ _, rfl, Assign_same _ _ _,
        (hAlloc _ (Nat.le_succ _)).1, (hAlloc _ (Nat.le_add_right _ 2)).1, ?_⟩
      · simp only [FLuaOverrides.GetOrAddOverridesClass, hO, hC, Option.some_bind,
          Option.map_none', ULuaOverridesClass.Create]
      · intro Child h; exact absurd h (List.not_mem_nil _)
    | some o =>
      obtain ⟨hOwner, hRec⟩ := hReg Id o hO hC
      refine ⟨Id, o, w, ?_, rfl, rfl, hC, hOwner, hO, (hAlloc _ (Nat.le_refl _)).1,
        (hAlloc _ (Nat.le_succ _)).1, ?_⟩
      · simp only [FLuaOverrides.GetOrAddOverridesClass, hO, hC, Option.some_bind,
          Option.map_some']
      · intro Child hChild
        obtain ⟨r, part, h1, h2, h3, h4⟩ := hRec Child hChild
        refine ⟨part, by simp only [World.Shape, h1, Option.map_some', h2, h3], ?_, ?_⟩
        · intro hb
          obtain ⟨ov, rov, h5, h6⟩ := h4 hb
          exact ⟨ov, h5, by simp only [World.Shape, h6, Option.map_some', Option.isSome_some]⟩
        · rintro ⟨hb, hfrom⟩
          exact hFresh ⟨Id, o, Child, r, part, hO, hC, hChild, h1, h2, hb, hfrom⟩

/-- Function `FLuaOverrides::Restore` of a class whose records are all harmless for a
function leaves the function alone. -/
theorem FLuaOverrides.restore_untouched (w : World) (OverridesClass Function Class : ObjId)
    (o : ULuaOverridesClass) (hreg : w.Overrides Class = some OverridesClass)
    (hoc : w.OverridesClasses OverridesClass = some o)
    (hH : ∀ Child ∈ o.Children, w.Harmless OverridesClass Function Child) :
    ∃ w2, FLuaOverrides.Restore w Class = some w2 ∧
      w2.Functions Function = w.Functions Function := by
  rw [FLuaOverrides.restore_eq w Class OverridesClass o hreg hoc]
  exact ULuaFunction.restore_chain OverridesClass Function o o.Children
    { w with Overrides := Assign w.Overrides Class none } hoc hH

end OverrideLemmas5

/-- C1: `Override(Function, Class, NewName)` followed at once by `Restore(Class)`
leaves the native function as it was. For every world, class and function such
that
* `hF`, `hNative`: `Function` is a live function that is not itself a `ULuaFunction`;
* `hDispatch`: its dispatch entry is the script trampoline only when another class
  owns it and has interposed it (its marker names a record with a backup);
* `hFresh`: `Class` holds no true override of `Function` yet;
* `hAlloc`, `hReg`: free addresses hold no object, and the registry entry of
  `Class` is its override class, whose chain consists of override records;
* `hName`: a function called `NewName` that `Class` already owns, when `Class`
  inherits `Function`, is an earlier addition for `Function`;
both calls succeed and afterwards the function object is the one from before
`Override`: its dispatch entry, its script body bytes and its flags have their
old values. When `Class` owns the function, `Override` had redirected it to the
trampoline with the marker payload in between. -/
theorem override_then_restore (w : World) (Function Class : ObjId) (NewName : String)
    (function : UFunction)
    (hF : w.Functions Function = some function)
    (hNative : function.LuaFunction = none)
    (hDispatch : function.NativeFunc = FNativeFuncPtr.execScriptCallLua →
      function.Outer ≠ Class ∧ ULuaFunction.HoldsBackup w Function)
    (hAlloc : w.Allocated) (hReg : w.RegistryEntryWellFormed Class)
    (hFresh : ¬ w.HasTrueOverride Class Function)
    (hName : function.Outer ≠ Class → ∀ Exists, w.FindFunctionByName Class NewName = some Exists →
      ∃ e, w.Functions Exists = some e ∧ e.SuperStruct = some Function) :
    ∃ w1 w2 LuaFunction, FLuaOverrides.Override w Function Class NewName = some w1 ∧
      w1.Functions Function = some (if function.Outer = Class then
        { function with FunctionFlags := function.FunctionFlags ||| FUNC_Native,
                        NativeFunc := FNativeFuncPtr.execScriptCallLua,
                        Script := ScriptMagicHeader ++ WriteUnaligned LuaFunction }
        else function) ∧
      FLuaOverrides.Restore w1 Class = some w2 ∧
      w2.Functions Function = some function ∧
      (w2.Functions Function).map (fun f => (f.NativeFunc, f.Script, f.FunctionFlags))
        = some (function.NativeFunc, function.Script, function.FunctionFlags) := by
  obtain ⟨oc, o, wN, hG, g1, g2, g3, g4, g5, g6, g7, g8⟩ :=
    FLuaOverrides.getOrAdd_spec w Function Class hAlloc hReg hFresh
  have hFN : wN.Functions Function = some function := by rw [g1]; exact hF
  have finish : ∀ w2 : World, w2.Functions Function = some function →
      (w2.Functions Function).map (fun f => (f.NativeFunc, f.Script, f.FunctionFlags))
        = some (function.NativeFunc, function.Script, function.FunctionFlags) := by
    intro w2 h; rw [h]; rfl
  simp only [FLuaOverrides.Override, hG, hFN, Option.bind_eq_bind, Option.some_bind]
  by_cases hOwn : function.Outer = Class
  · -- the class owns the function: a true override
    have hb : (function.Outer != Class) = false := by simp [hOwn]
    have hd : function.NativeFunc ≠ FNativeFuncPtr.execScriptCallLua :=
      fun h => (hDispatch h).1 hOwn
    simp only [hb, Bool.false_eq_true, if_false, hNative, Option.isSome_none]
    obtain ⟨w1, rlf, rov, c1, c2, c3, c4, c6, c7, c8, c9, c10, c11, c12⟩ :=
      FLuaOverrides.interpose_own wN oc Function Class NewName function o hFN hd g3 g4 g6 g7
    obtain ⟨w2, r1, r2⟩ := FLuaOverrides.restore_after_own wN w1 oc Function Class
      function rlf rov o hFN g5 g8 c2 c3 c4 c6 c7 c8 c9 c10 c11 c12
    refine ⟨w1, w2, wN.NextId, c1, ?_, r1, r2, finish w2 r2⟩
    rw [c11]
    simp [hOwn, hNative]
  · have hb : (function.Outer != Class) = true := by simp [hOwn]
    simp only [hb, if_true]
    cases hfind : wN.FindFunctionByName Class NewName with
    | some Exists =>
      have hfind2 : w.FindFunctionByName Class NewName = some Exists := by
        simpa only [World.FindFunctionByName, g2] using hfind
      obtain ⟨e, he1, he2⟩ := hName hOwn Exists hfind2
      have he3 : wN.Functions Exists = some e := by rw [g1]; exact he1
      simp only [he3, he2, Option.bind_eq_bind, Option.some_bind, if_true]
      obtain ⟨w2, r1, r2⟩ := FLuaOverrides.restore_untouched wN oc Function Class o g5 g3 g8
      refine ⟨wN, w2, 0, rfl, ?_, r1, by rw [r2]; exact hFN, finish w2 (by rw [r2]; exact hFN)⟩
      rw [hFN]
      simp [hOwn]
    | none =>
      simp only []
      have hd : function.NativeFunc = FNativeFuncPtr.execScriptCallLua →
          ∃ L l lp Backup, ULuaFunction.Get wN (some Function) = some L ∧
            wN.Functions L = some l ∧ l.LuaFunction = some lp ∧ lp.Overridden = some Backup := by
        intro h
        obtain ⟨L, l, lp, Backup, q1, q2, q3, q4⟩ := (hDispatch h).2
        exact ⟨L, l, lp, Backup,
          by rw [ULuaFunction.get_congr w wN Function (by rw [g1])]; exact q1,
          by rw [g1]; exact q2, q3, q4⟩
      obtain ⟨w1, rlf, Backup, c1, c2, c3, c4, c5, c6, c12⟩ :=
        FLuaOverrides.interpose_added wN oc Function Class NewName function o hFN hd
          g3 g4 g6 g7 hfind
      obtain ⟨w2, r1, r2⟩ := FLuaOverrides.restore_after_added wN w1 oc Function Class Backup
        function rlf o hFN g5 g8 c2 c3 c4 c5 c6 c12
      refine ⟨w1, w2, 0, c1, ?_, r1, r2, finish w2 r2⟩
      rw [c12 Function (by rw [hFN]; rfl), hFN]
      simp [hOwn]

/-- Instance of C1: `ReceiveBeginPlay` is overridden and restored in a class that
already overrides `ReceiveTick`. -/
theorem override_then_restore_witness :
    ∃ w1 w2 LuaFunction,
      FLuaOverrides.Override boundWorld 7 100 "ReceiveBeginPlay" = some w1 ∧
      w1.Functions 7 = some (if sampleFunction.Outer = 100 then
        { sampleFunction with FunctionFlags := sampleFunction.FunctionFlags ||| FUNC_Native,
                              NativeFunc := FNativeFuncPtr.execScriptCallLua,
                              Script := ScriptMagicHeader ++ WriteUnaligned LuaFunction }
        else sampleFunction) ∧
      FLuaOverrides.Restore w1 100 = some w2 ∧
      w2.Functions 7 = some sampleFunction ∧
      (w2.Functions 7).map (fun f => (f.NativeFunc, f.Script, f.FunctionFlags))
        = some (sampleFunction.NativeFunc, sampleFunction.Script, sampleFunction.FunctionFlags) :=
  override_then_restore boundWorld 7 100 "ReceiveBeginPlay" sampleFunction rfl rfl
    (fun h => absurd h (by decide))
    (by
      intro (Id : Nat) h
      have h203 : 203 ≤ Id := h
      have e1 : Id ≠ 7 := by omega
      have e2 : Id ≠ 8 := by omega
      have e3 : Id ≠ 201 := by omega
      have e4 : Id ≠ 202 := by omega
      have e5 : Id ≠ 200 := by omega
      exact ⟨by simp [boundWorld, e1, e2, e3, e4], by simp [boundWorld, e5]⟩)
    (by
      intro oc o h1 h2
      have hoc : oc = 200 := by
        simpa [boundWorld] using h1.symm
      subst hoc
      have ho : o = ⟨some 100, [201]⟩ := by
        simpa [boundWorld] using h2.symm
      subst ho
      refine ⟨rfl, ?_⟩
      intro Child hChild
      have hc : Child = 201 := by simpa using hChild
      subst hc
      exact ⟨tickRecord, ⟨some 8, some 202, true, false⟩, rfl, rfl, rfl,
        fun _ => ⟨202, tickBackup, rfl, rfl⟩⟩)
    (by
      rintro ⟨oc, o, c, r, p, h1, h2, h3, h4, h5, _, h7⟩
      have hoc : oc = 200 := by
        simpa [boundWorld] using h1.symm
      subst hoc
      have ho : o = ⟨some 100, [201]⟩ := by
        simpa [boundWorld] using h2.symm
      subst ho
      have hc : c = 201 := by simpa using h3
      subst hc
      have hr : r = tickRecord := by
        simpa [boundWorld] using h4.symm
      subst hr
      have hp : p = ⟨some 8, some 202, true, false⟩ := by
        simpa [tickRecord] using h5.symm
      subst hp
      exact absurd h7 (by decide))
    (fun h => absurd rfl h)

/-! ## The destructor of the container proxy -/

section DestructorLemmas

variable {α : Type}

/-- Method `Destruct` on a range inside the array succeeds, keeps the length and
the flag, and calls `Inner->Destruct` once on every slot of the range, in
ascending order. -/
theorem FLuaArray.destructTraced_spec (Inner : ITypeInterface α) :
    ∀ (Count : Nat) (a : FLuaArray α) (k : Nat), k + Count ≤ a.ScriptArray.Data.length →
      ∃ b, FLuaArray.DestructTraced Inner a (k : Int) Count
          = some (b, (List.range Count).map
              (fun i => EArrayEffect.DestructElement ((k + i : Nat) : Int))) ∧
        FLuaArray.Destruct Inner a (k : Int) Count = some b ∧
        b.ScriptArray.Data.length = a.ScriptArray.Data.length := by
  intro Count
  induction Count with
  | zero => intro a k _; exact ⟨a, rfl, rfl, rfl⟩
  | succ Count ih =>
    intro a k hk
    have hlt : k < a.ScriptArray.Data.length := by omega
    obtain ⟨b, hb, hd, hlen⟩ := ih
      { a with ScriptArray := ⟨a.ScriptArray.Data.set k (Inner.Destruct a.ScriptArray.Data[k])⟩ }
      (k + 1) (by simp; omega)
    refine ⟨b, ?_, ?_, ?_⟩
    · have hcast : ((k : Int) + 1) = ((k + 1 : Nat) : Int) := by push_cast; ring
      simp only [FLuaArray.DestructTraced, FLuaArray.getData_natCast, FLuaArray.Store,
        FLuaArray.Num, FScriptArray.Num, hcast]
      simp only [List.getElem?_eq_getElem hlt, Option.bind_eq_bind, Option.some_bind,
        Int.toNat_ofNat]
      have hc : (0 : Int) ≤ (k : Int) ∧ ((k : Int) < (a.ScriptArray.Data.length : Int)) :=
        ⟨Int.natCast_nonneg k, by exact_mod_cast hlt⟩
      simp only [hc, and_self, if_true, Option.some_bind, hb]
      simp only [Option.pure_def, Option.some.injEq, Prod.mk.injEq, true_and]
      rw [List.range_succ_eq_map]
      simp [Function.comp_def, Nat.add_assoc, Nat.add_comm 1]
    · have hcast : ((k : Int) + 1) = ((k + 1 : Nat) : Int) := by push_cast; ring
      simp only [FLuaArray.Destruct, FLuaArray.getData_natCast, FLuaArray.Store,
        FLuaArray.Num, FScriptArray.Num, hcast]
      simp only [List.getElem?_eq_getElem hlt, Option.bind_eq_bind, Option.some_bind,
        Int.toNat_ofNat]
      have hc : (0 : Int) ≤ (k : Int) ∧ ((k : Int) < (a.ScriptArray.Data.length : Int)) :=
        ⟨Int.natCast_nonneg k, by exact_mod_cast hlt⟩
      simp only [hc, and_self, if_true, Option.some_bind, hd]
    · simpa using hlen

end DestructorLemmas

/-- C11: destroying a proxy whose flag is `OwnedByOther` only releases the scratch
buffer: no element is destructed and the backing array stays as it is. Destroying
a proxy whose flag is `OwnedBySelf` calls `Inner->Destruct` on the slots
`0 .. Num()-1` in order, each exactly once and on no other index, then deletes the
backing array exactly once. -/
theorem array_destructor_ownership {α : Type} (Inner : ITypeInterface α) (a : FLuaArray α) :
    (a.ScriptArrayFlag = EScriptArrayFlag.OwnedByOther →
      FLuaArray.Destructor Inner a
        = some (some a.ScriptArray, [EArrayEffect.FreeElementCache])) ∧
    (a.ScriptArrayFlag = EScriptArrayFlag.OwnedBySelf →
      ∃ Effects, FLuaArray.Destructor Inner a = some (none, Effects) ∧
        Effects = (List.range a.Num.toNat).map (fun (i : Nat) => EArrayEffect.DestructElement (i : Int))
          ++ (if a.Num ≠ 0 then [EArrayEffect.EmptyScriptArray] else [])
          ++ [EArrayEffect.DeleteScriptArray, EArrayEffect.FreeElementCache] ∧
        (∀ Index : Int, Effects.count (EArrayEffect.DestructElement Index)
          = if 0 ≤ Index ∧ Index < a.Num then 1 else 0) ∧
        Effects.count EArrayEffect.DeleteScriptArray = 1) := by
  constructor
  · intro h
    simp [FLuaArray.Destructor, h]
  · intro h
    have hnum : a.Num.toNat = a.ScriptArray.Data.length := by
      simp [FLuaArray.Num, FScriptArray.Num]
    obtain ⟨b, hb, -, -⟩ := FLuaArray.destructTraced_spec Inner a.ScriptArray.Data.length a 0
      (by omega)
    refine ⟨_, ?_, rfl, ?_, ?_⟩
    · by_cases h0 : a.Num = 0
      · simp [FLuaArray.Destructor, h, FLuaArray.ClearTraced, h0]
      · simp only [Nat.cast_zero] at hb
        simp [FLuaArray.Destructor, h, FLuaArray.ClearTraced, h0, hnum, hb]
    · intro Index
      have hnd : ((List.range a.Num.toNat).map
          (fun (i : Nat) => EArrayEffect.DestructElement (i : Int))).Nodup :=
        List.Nodup.map (fun x y hxy => by simpa using hxy) (List.nodup_range _)
      rw [List.count_append, List.count_append, List.count_eq_of_nodup hnd]
      have hmem : EArrayEffect.DestructElement Index ∈ (List.range a.Num.toNat).map
          (fun (i : Nat) => EArrayEffect.DestructElement (i : Int)) ↔ (0 ≤ Index ∧ Index < a.Num) := by
        simp only [List.mem_map, List.mem_range, EArrayEffect.DestructElement.injEq]
        constructor
        · rintro ⟨i, hi, rfl⟩
          omega
        · rintro ⟨h1, h2⟩
          exact ⟨Index.toNat, by omega, by omega⟩
      by_cases hI : 0 ≤ Index ∧ Index < a.Num
      · rw [if_pos (hmem.2 hI), if_pos hI]
        split <;> simp
      · rw [if_neg (fun hc => hI (hmem.1 hc)), if_neg hI]
        split <;> simp
    · rw [List.count_append, List.count_append]
      have h1 : ((List.range a.Num.toNat).map
          (fun (i : Nat) => EArrayEffect.DestructElement (i : Int))).count
            EArrayEffect.DeleteScriptArray = 0 := by
        apply List.count_eq_zero_of_not_mem
        simp
      rw [h1]
      split <;> simp

/-! ## The dynamic binding: validity, round trip and the check of `Pop` -/

/-- A string has positive length exactly when it is not the empty string. -/
theorem String.length_pos_iff_ne_empty (m : String) : m.length > 0 ↔ m ≠ "" := by
  constructor
  · intro h hm
    subst hm
    simp at h
  · intro h
    by_contra hc
    apply h
    have h0 : m.length = 0 := by omega
    exact String.ext (List.eq_nil_of_length_eq_zero h0)

/-- C12: for every state and every candidate class, `IsValid` holds exactly when
the current class is the candidate itself and the current module name is not
empty. A state whose current class is any other class (a super class of the
candidate included) is not valid for the candidate, and no state is valid for a
null candidate. -/
theorem dynamicBinding_isValid_iff (s : FLuaDynamicBinding) (Candidate : Nat) :
    (s.IsValid (some Candidate) = true ↔ s.Class = some Candidate ∧ s.ModuleName ≠ "") ∧
    (∀ Other, Other ≠ Candidate → s.Class = some Other → s.IsValid (some Candidate) = false) ∧
    s.IsValid none = false := by
  refine ⟨?_, ?_, ?_⟩
  · rw [← String.length_pos_iff_ne_empty]
    cases hC : s.Class <;> simp [FLuaDynamicBinding.IsValid, hC]
  · intro Other hne hC
    simp [FLuaDynamicBinding.IsValid, hC, hne]
  · cases hC : s.Class <;> simp [FLuaDynamicBinding.IsValid, hC]

/-- C13: for every state and every tuple, `Push` reports success and the `Pop`
that follows returns the pushed initializer reference and gives back the state
before the `Push`: current tuple and stack. -/
theorem dynamicBinding_push_pop (s : FLuaDynamicBinding) (InClass : UClassPtr)
    (InModuleName : String) (InInitializerTableRef : Int) :
    (s.Push InClass InModuleName InInitializerTableRef).1 = true ∧
    (s.Push InClass InModuleName InInitializerTableRef).2.Pop
      = some (InInitializerTableRef, s) := by
  constructor <;> rfl

/-- C14: `Pop` fails its check exactly when the stack is empty. After a well
nested sequence of calls from any state no call has failed, a `Pop` succeeds
whenever a push is outstanding, and from a state with an empty stack a `Pop` with
no outstanding push fails. -/
theorem dynamicBinding_pop_check (s0 : FLuaDynamicBinding) (calls : List BindingCall)
    (out : List FLuaDynamicBindingStackNode) (h : OutstandingPushes [] calls = some out) :
    ∃ s, RunBindingCalls s0 calls = some s ∧
      (s.Stack = [] ↔ s.Pop = none) ∧
      (out ≠ [] → ∃ r t, s.Pop = some (r, t)) ∧
      (s0.Stack = [] → out = [] → s.Pop = none) := by
  obtain ⟨s, hs, hinv⟩ := FLuaDynamicBinding.run_invariant s0 calls s0 [] out rfl h
  have hlen := congrArg List.length hinv
  simp only [List.length_cons, List.length_append] at hlen
  refine ⟨s, hs, ?_, ?_, ?_⟩
  · cases hS : s.Stack <;> simp [FLuaDynamicBinding.Pop, hS]
  · intro hout
    have hpos : 0 < out.length := List.length_pos.2 hout
    cases hS : s.Stack with
    | nil => rw [hS] at hlen; simp at hlen; omega
    | cons node rest => simp [FLuaDynamicBinding.Pop, hS]
  · intro h0 hout
    subst hout
    rw [h0] at hlen
    have : s.Stack = [] := List.eq_nil_of_length_eq_zero (by simpa using hlen)
    simp [FLuaDynamicBinding.Pop, this]

/-- Instance of C14: inside the two nested guards of the header comment one push
is outstanding and `Pop` succeeds. -/
theorem dynamicBinding_pop_check_witness :
    ∃ s, RunBindingCalls emptyBinding nestedGuards = some s ∧
      (s.Stack = [] ↔ s.Pop = none) ∧
      (([⟨some 1, "AI.NPCBase", 11⟩] : List FLuaDynamicBindingStackNode) ≠ [] →
        ∃ r t, s.Pop = some (r, t)) ∧
      (emptyBinding.Stack = [] → ([⟨some 1, "AI.NPCBase", 11⟩] : List FLuaDynamicBindingStackNode) = [] →
        s.Pop = none) :=
  dynamicBinding_pop_check emptyBinding nestedGuards [⟨some 1, "AI.NPCBase", 11⟩] (by decide)

/-! ## The runaway script watchdog -/

section WatchdogLemmas

/-- A sequence of events runs its first event, then the rest. -/
theorem RunScriptEvents.cons_step (s : FDeadLoopCheck × List (Option Nat)) (Event : EScriptEvent)
    (Rest : List EScriptEvent) :
    RunScriptEvents s (Event :: Rest)
      = (EScriptEvent.Apply s Event).bind (fun t => RunScriptEvents t Rest) := by
  simp [RunScriptEvents, List.foldlM_cons]

/-- With a timeout of zero or less and no active guard, no event changes the
watchdog, and every guard pointer handed out is empty. -/
theorem RunScriptEvents.disabled_fixed (d : FDeadLoopCheck) (hT : d.Timeout ≤ 0)
    (h0 : d.Runner.GuardCounter = 0) :
    ∀ (Events : List EScriptEvent) (Guards : List (Option Nat)),
      (∀ Guard ∈ Guards, Guard = none) →
      ∃ Guards2, RunScriptEvents (d, Guards) Events = some (d, Guards2) ∧
        ∀ Guard ∈ Guards2, Guard = none := by
  intro Events
  induction Events with
  | nil => intro Guards hG; exact ⟨Guards, rfl, hG⟩
  | cons Event Rest ih =>
    intro Guards hG
    rw [RunScriptEvents.cons_step]
    cases Event with
    | Call Address =>
      obtain ⟨Guards2, h2, hG2⟩ := ih (none :: Guards) (by
        intro Guard hmem
        rcases List.mem_cons.1 hmem with h | h
        · exact h
        · exact hG Guard h)
      refine ⟨Guards2, ?_, hG2⟩
      simpa [EScriptEvent.Apply, FDeadLoopCheck.MakeGuard, hT] using h2
    | Return =>
      cases Guards with
      | nil =>
        obtain ⟨Guards2, h2, hG2⟩ := ih [] hG
        exact ⟨Guards2, by simpa [EScriptEvent.Apply] using h2, hG2⟩
      | cons Top Below =>
        have hTop : Top = none := hG Top (List.mem_cons_self _ _)
        subst hTop
        obtain ⟨Guards2, h2, hG2⟩ := ih Below (fun Guard hmem => hG Guard (List.mem_cons_of_mem _ hmem))
        exact ⟨Guards2, by simpa [EScriptEvent.Apply] using h2, hG2⟩
    | Tick =>
      obtain ⟨Guards2, h2, hG2⟩ := ih Guards hG
      refine ⟨Guards2, ?_, hG2⟩
      simpa [EScriptEvent.Apply, FDeadLoopCheck.RunRound, h0] using h2

end WatchdogLemmas

/-- C15: with `Timeout = 0` (or less) and no guard active, `MakeGuard` returns the
empty pointer and changes nothing, and after every sequence of script calls,
returns and watchdog rounds the watchdog is in the state it started in: the guard
counter is `0`, `SetTimeout` was never called and the hook of the Lua state is
untouched. -/
theorem watchdog_disabled (d : FDeadLoopCheck) (Guards : List (Option Nat))
    (Events : List EScriptEvent) (hT : d.Timeout ≤ 0) (h0 : d.Runner.GuardCounter = 0)
    (hG : ∀ Guard ∈ Guards, Guard = none) :
    (∀ Address, d.MakeGuard Address = (none, d)) ∧
    ∃ d2 Guards2, RunScriptEvents (d, Guards) Events = some (d2, Guards2) ∧
      d2.Runner.GuardCounter = 0 ∧ d2.SetTimeoutCalls = d.SetTimeoutCalls ∧
      d2.Hook = d.Hook ∧ d2 = d ∧ ∀ Guard ∈ Guards2, Guard = none := by
  refine ⟨fun Address => by simp [FDeadLoopCheck.MakeGuard, hT], ?_⟩
  obtain ⟨Guards2, h2, hG2⟩ := RunScriptEvents.disabled_fixed d hT h0 Events Guards hG
  exact ⟨d, Guards2, h2, h0, rfl, rfl, rfl, hG2⟩

section WatchdogLemmas2

end WatchdogLemmas2

section WatchdogLemmas3

end WatchdogLemmas3

/-- Instance of C15: a guarded call that runs for two watchdog rounds with the
watchdog disabled. -/
theorem watchdog_disabled_witness :
    (∀ Address, idleWatchdog.MakeGuard Address = (none, idleWatchdog)) ∧
    ∃ d2 Guards2, RunScriptEvents (idleWatchdog, [])
        [EScriptEvent.Call 10, EScriptEvent.Tick, EScriptEvent.Tick, EScriptEvent.Return,
         EScriptEvent.Tick] = some (d2, Guards2) ∧
      d2.Runner.GuardCounter = 0 ∧ d2.SetTimeoutCalls = idleWatchdog.SetTimeoutCalls ∧
      d2.Hook = idleWatchdog.Hook ∧ d2 = idleWatchdog ∧ ∀ Guard ∈ Guards2, Guard = none :=
  watchdog_disabled idleWatchdog [] _ (by decide) (by decide) (by simp)

section RegistryLemmas

variable {V : Type}

/-- After `Add` the key resolves to the added value. -/
theorem TMap.findRef_add_same (m : TMap V) (Key : String) (Value : V) :
    (m.Add Key Value).FindRef Key = some Value := by
  have hnone : List.find? (fun Pair => Pair.1 == Key)
      (List.filter (fun Pair => Pair.1 != Key) m) = none := by
    rw [List.find?_eq_none]
    intro Pair hPair
    simpa using (List.mem_filter.1 hPair).2
  simp [TMap.Add, TMap.FindRef, List.find?_append, hnone]

/-- A lookup under another key does not see the `Add`. -/
theorem TMap.findRef_add_other (m : TMap V) (Key Other : String) (Value : V)
    (h : Other ≠ Key) : (m.Add Key Value).FindRef Other = m.FindRef Other := by
  have hk : (Key == Other) = false := by simpa using fun hc => h hc.symm
  have hfilter : List.find? (fun Pair => Pair.1 == Other)
      (List.filter (fun Pair => Pair.1 != Key) m) = List.find? (fun Pair => Pair.1 == Other) m := by
    induction m with
    | nil => rfl
    | cons Pair rest ih =>
      by_cases hp : Pair.1 = Key
      · have hpo : (Pair.1 == Other) = false := by simpa [hp] using fun hc => h hc.symm
        have hpk : (Pair.1 != Key) = false := by simp [hp]
        rw [List.filter_cons, hpk, List.find?_cons, hpo]
        simpa using ih
      · have hpk : (Pair.1 != Key) = true := by simpa using hp
        rw [List.filter_cons, hpk]
        simp only [if_true, List.find?_cons, ih]
  simp only [TMap.Add, TMap.FindRef, List.find?_append, hfilter]
  cases List.find? (fun Pair => Pair.1 == Other) m <;> simp [List.find?_cons, hk]

end RegistryLemmas

section RegistryLemmas2

end RegistryLemmas2

/-- C17: when a reflected class is registered under the name, `FindExportedClass`
returns it, leaves the registry as it is and so returns it again on the next
call; the non-reflected entry is returned only when no reflected class has the
name. In particular after a reflected and a non-reflected class were exported
under one name, in either order, the reflected one is found. -/
theorem findExportedClass_reflected_first (e : FExported) (Name : String) :
    (∀ Reflected, e.ReflectedClasses.FindRef Name = some Reflected →
      FindExportedClass e Name = (some Reflected, e) ∧
      FindExportedClass (FindExportedClass e Name).2 Name = (some Reflected, e)) ∧
    (e.ReflectedClasses.FindRef Name = none →
      FindExportedClass e Name = (e.NonReflectedClasses.FindRef Name, e)) ∧
    (∀ Class, (FindExportedClass e Name).1 = some Class →
      e.ReflectedClasses.FindRef Name = some Class ∨
      (e.ReflectedClasses.FindRef Name = none ∧
        e.NonReflectedClasses.FindRef Name = some Class)) ∧
    (∀ Reflected NonReflected : IExportedClass, Reflected.IsReflected = true →
      NonReflected.IsReflected = false → Reflected.Name = Name → NonReflected.Name = Name →
      (FindExportedClass (ExportClass (ExportClass e Reflected) NonReflected) Name).1
        = some Reflected ∧
      (FindExportedClass (ExportClass (ExportClass e NonReflected) Reflected) Name).1
        = some Reflected) := by
  refine ⟨?_, ?_, ?_, ?_⟩
  · intro Reflected h
    simp [FindExportedClass, h]
  · intro h
    simp [FindExportedClass, h]
  · intro Class h
    cases hR : e.ReflectedClasses.FindRef Name with
    | none =>
      right
      simpa [FindExportedClass, hR] using h
    | some Found =>
      left
      simpa [FindExportedClass, hR] using h
  · intro Reflected NonReflected hR hN hRn hNn
    subst hRn
    constructor
    · simp [FindExportedClass, ExportClass, hR, hN, TMap.findRef_add_same]
    · simp [FindExportedClass, ExportClass, hR, hN, TMap.findRef_add_same]

/-- Masking with a single bit leaves that bit or nothing. -/
theorem Nat.and_two_pow_eq_ite (x i : Nat) :
    x &&& 2 ^ i = if x.testBit i then 2 ^ i else 0 := by
  apply Nat.eq_of_testBit_eq
  intro j
  by_cases hx : x.testBit i = true
  · by_cases hij : i = j
    · subst hij
      simp [hx, Nat.testBit_two_pow_self]
    · simp [hx, Nat.testBit_two_pow_of_ne hij]
  · by_cases hij : i = j
    · subst hij
      simp [hx]
    · simp [hx, Nat.testBit_two_pow_of_ne hij]

/-- C19: for every function, `IsOverridable` holds exactly when the flag
`FUNC_BlueprintEvent` is set, or `FUNC_Native` and `FUNC_Event` are set and
`FUNC_Net` is not. So a function with `FUNC_Net` and without `FUNC_BlueprintEvent`
is not overridable. -/
theorem isOverridable_iff (Function : UFunction) :
    (ULuaFunction.IsOverridable Function = true ↔
      Function.HasAnyFunctionFlags FUNC_BlueprintEvent = true ∨
      (Function.FunctionFlags &&& (FUNC_Native ||| FUNC_Event ||| FUNC_Net)
        = FUNC_Native ||| FUNC_Event)) ∧
    (Function.FunctionFlags &&& (FUNC_Native ||| FUNC_Event ||| FUNC_Net)
        = FUNC_Native ||| FUNC_Event ↔
      Function.HasAnyFunctionFlags FUNC_Native = true ∧
      Function.HasAnyFunctionFlags FUNC_Event = true ∧
      Function.HasAnyFunctionFlags FUNC_Net = false) ∧
    (Function.HasAnyFunctionFlags FUNC_Net = true →
      Function.HasAnyFunctionFlags FUNC_BlueprintEvent = false →
      ULuaFunction.IsOverridable Function = false) := by
  have hNative : FUNC_Native = 2 ^ 10 := by decide
  have hEvent : FUNC_Event = 2 ^ 11 := by decide
  have hNet : FUNC_Net = 2 ^ 6 := by decide
  have hMask : Function.FunctionFlags &&& (FUNC_Native ||| FUNC_Event ||| FUNC_Net)
        = FUNC_Native ||| FUNC_Event ↔
      Function.HasAnyFunctionFlags FUNC_Native = true ∧
      Function.HasAnyFunctionFlags FUNC_Event = true ∧
      Function.HasAnyFunctionFlags FUNC_Net = false := by
    simp only [UFunction.HasAnyFunctionFlags, Nat.and_or_distrib_left, hNative, hEvent, hNet,
      Nat.and_two_pow_eq_ite]
    cases Function.FunctionFlags.testBit 10 <;> cases Function.FunctionFlags.testBit 11 <;>
      cases Function.FunctionFlags.testBit 6 <;> decide
  refine ⟨?_, hMask, ?_⟩
  · simp [ULuaFunction.IsOverridable]
  · intro hN hB
    have hne : ¬ (Function.FunctionFlags &&& (FUNC_Native ||| FUNC_Event ||| FUNC_Net)
        = FUNC_Native ||| FUNC_Event) := by
      rw [hMask]
      rintro ⟨-, -, h⟩
      rw [hN] at h
      exact Bool.noConfusion h
    simp only [ULuaFunction.IsOverridable, hB, Bool.false_or]
    simpa using hne

/-! ## The bind decision on the async loading thread -/

section TryBindLemmas

/-- The list after `AddUnique` holds the item. -/
theorem AddUnique.mem_self (Items : List ObjId) (Item : ObjId) : Item ∈ AddUnique Items Item := by
  unfold AddUnique
  split
  · assumption
  · simp

/-- Function `AddUnique` never gives an item a second place in the list. -/
theorem AddUnique.count_le_one (Items : List ObjId) (Item Other : ObjId)
    (h : Items.count Other ≤ 1) : (AddUnique Items Item).count Other ≤ 1 := by
  unfold AddUnique
  split
  · exact h
  · rename_i hmem
    rw [List.count_append]
    by_cases ho : Item = Other
    · subst ho
      rw [List.count_eq_zero_of_not_mem hmem]
      simp
    · have : List.count Other [Item] = 0 := by
        simp [List.count_cons, ho]
      omega

/-- On the async loading thread `TryBind` returns false, records no call of `Bind`
and changes the candidate list by `AddUnique` at most. -/
theorem FLuaEnv.tryBind_async (Facts : FObjectFacts) (ManagerBind : ObjId → String → Int → Bool)
    (GLuaDynamicBinding : FLuaDynamicBinding) (env : FLuaEnv) (Object : ObjId) :
    (FLuaEnv.TryBind Facts ManagerBind true GLuaDynamicBinding env Object).1 = false ∧
    (FLuaEnv.TryBind Facts ManagerBind true GLuaDynamicBinding env Object).2.BindCalls
      = env.BindCalls ∧
    ((FLuaEnv.TryBind Facts ManagerBind true GLuaDynamicBinding env Object).2.Candidates
        = env.Candidates ∨
      (FLuaEnv.TryBind Facts ManagerBind true GLuaDynamicBinding env Object).2.Candidates
        = AddUnique env.Candidates Object) := by
  unfold FLuaEnv.TryBind
  cases hS : Facts.NewerVersionExists (Facts.ClassOf Object)
  · cases hI : Facts.ImplementsUnLuaInterface (Facts.ClassOf Object)
    · cases hV : GLuaDynamicBinding.IsValid (some (Facts.ClassOf Object)) <;> simp [hS, hI, hV]
    · simp [hS, hI]
  · simp [hS]

/-- Repeated calls of `TryBind` on the async loading thread give no object a second
place in the candidate list and record no call of `Bind`. -/
theorem FLuaEnv.tryBindRepeated_async (Facts : FObjectFacts)
    (ManagerBind : ObjId → String → Int → Bool) (GLuaDynamicBinding : FLuaDynamicBinding)
    (Object Other : ObjId) :
    ∀ (Count : Nat) (env : FLuaEnv), env.Candidates.count Other ≤ 1 →
      (FLuaEnv.TryBindRepeated Facts ManagerBind true GLuaDynamicBinding Object Count
        env).Candidates.count Other ≤ 1 ∧
      (FLuaEnv.TryBindRepeated Facts ManagerBind true GLuaDynamicBinding Object Count
        env).BindCalls = env.BindCalls := by
  intro Count
  induction Count with
  | zero => intro env h; exact ⟨h, rfl⟩
  | succ Count ih =>
    intro env h
    obtain ⟨-, hB, hC⟩ := FLuaEnv.tryBind_async Facts ManagerBind GLuaDynamicBinding env Object
    have hle : (FLuaEnv.TryBind Facts ManagerBind true GLuaDynamicBinding env
        Object).2.Candidates.count Other ≤ 1 := by
      rcases hC with hC | hC
      · rw [hC]; exact h
      · rw [hC]; exact AddUnique.count_le_one _ _ _ h
    obtain ⟨hc, hb⟩ := ih
      (FLuaEnv.TryBind Facts ManagerBind true GLuaDynamicBinding env Object).2 hle
    exact ⟨hc, hb.trans hB⟩

end TryBindLemmas

/-- Counterexample to C20 as stated: the class of the object implements the UnLua
interface but is marked `CLASS_NewerVersionExists`, and after `TryBind` on the
async loading thread the object is not in the candidate list. -/
theorem tryBind_stale_class_counterexample :
    staleClassFacts.ImplementsUnLuaInterface (staleClassFacts.ClassOf 1) = true ∧
    1 ∉ (FLuaEnv.TryBind staleClassFacts (fun _ _ _ => true) true emptyBinding freshEnv
      1).2.Candidates := by
  constructor
  · rfl
  · simp [FLuaEnv.TryBind, staleClassFacts, freshEnv]

/-- C20, amended: on the async loading thread `TryBind` returns false and records
no call of `Bind`. When the class of the object is not marked
`CLASS_NewerVersionExists` and implements the UnLua interface, or the dynamic
binding is valid for it, the object is in the candidate list afterwards. However
often `TryBind` is repeated, an object that was in the list at most once is in it
at most once, and still no call of `Bind` is recorded. -/
theorem tryBind_async_defers (Facts : FObjectFacts) (ManagerBind : ObjId → String → Int → Bool)
    (GLuaDynamicBinding : FLuaDynamicBinding) (env : FLuaEnv) (Object : ObjId) :
    (FLuaEnv.TryBind Facts ManagerBind true GLuaDynamicBinding env Object).1 = false ∧
    (FLuaEnv.TryBind Facts ManagerBind true GLuaDynamicBinding env Object).2.BindCalls
      = env.BindCalls ∧
    (Facts.NewerVersionExists (Facts.ClassOf Object) = false →
      (Facts.ImplementsUnLuaInterface (Facts.ClassOf Object) = true ∨
        GLuaDynamicBinding.IsValid (some (Facts.ClassOf Object)) = true) →
      Object ∈ (FLuaEnv.TryBind Facts ManagerBind true GLuaDynamicBinding env
        Object).2.Candidates) ∧
    (∀ Count Other, env.Candidates.count Other ≤ 1 →
      (FLuaEnv.TryBindRepeated Facts ManagerBind true GLuaDynamicBinding Object Count
        env).Candidates.count Other ≤ 1 ∧
      (FLuaEnv.TryBindRepeated Facts ManagerBind true GLuaDynamicBinding Object Count
        env).BindCalls = env.BindCalls) := by
  obtain ⟨h1, h2, -⟩ := FLuaEnv.tryBind_async Facts ManagerBind GLuaDynamicBinding env Object
  refine ⟨h1, h2, ?_, ?_⟩
  · intro hS hOr
    unfold FLuaEnv.TryBind
    cases hI : Facts.ImplementsUnLuaInterface (Facts.ClassOf Object)
    · have hV : GLuaDynamicBinding.IsValid (some (Facts.ClassOf Object)) = true := by
        rcases hOr with h | h
        · rw [hI] at h; exact Bool.noConfusion h
        · exact h
      simp [hS, hI, hV, AddUnique.mem_self]
    · simp [hS, hI, AddUnique.mem_self]
  · intro Count Other h
    exact FLuaEnv.tryBindRepeated_async Facts ManagerBind GLuaDynamicBinding Object Other
      Count env h

/-! ## The bind decision on the owning thread -/

/-- Counterexample to C21 as stated: the class implements the UnLua interface and
the dynamic binding is valid for it with the module `Dyn.Actor`, yet `TryBind`
binds with the module found by the locator. -/
theorem tryBind_static_wins_counterexample :
    actorFacts.NewerVersionExists (actorFacts.ClassOf 1) = false ∧
    spawnBinding.IsValid (some (actorFacts.ClassOf 1)) = true ∧
    (FLuaEnv.TryBind actorFacts (fun _ _ _ => true) false spawnBinding locatorEnv 1).2.BindCalls
      = [(1, "Game.Actor", 42)] := by
  refine ⟨rfl, by decide, ?_⟩
  simp [FLuaEnv.TryBind, FLuaEnv.CallBind, actorFacts, locatorEnv, spawnBinding]

/-- C21, amended: on the owning thread, for a class that is not marked
`CLASS_NewerVersionExists`. When the class does not implement the UnLua interface,
`TryBind` calls `Bind` with the module name and initializer of the dynamic binding
if the binding is valid for the class and returns false without a call of `Bind`
otherwise, whatever the module locator is. When the class implements the UnLua
interface, `TryBind` returns false without a call of `Bind` if the class name holds
`SKEL_`, if no module locator is set, or if the locator returns an empty name;
otherwise it calls `Bind` with the name the locator returns. None of the four
cases of the interface branch depends on whether the dynamic binding is valid
for the class. -/
theorem tryBind_owning_thread (Facts : FObjectFacts) (ManagerBind : ObjId → String → Int → Bool)
    (GLuaDynamicBinding : FLuaDynamicBinding) (env : FLuaEnv) (Object : ObjId)
    (hNew : Facts.NewerVersionExists (Facts.ClassOf Object) = false) :
    (Facts.ImplementsUnLuaInterface (Facts.ClassOf Object) = false →
      GLuaDynamicBinding.IsValid (some (Facts.ClassOf Object)) = true →
      FLuaEnv.TryBind Facts ManagerBind false GLuaDynamicBinding env Object
        = FLuaEnv.CallBind ManagerBind env Object GLuaDynamicBinding.ModuleName
            GLuaDynamicBinding.InitializerTableRef) ∧
    (Facts.ImplementsUnLuaInterface (Facts.ClassOf Object) = false →
      GLuaDynamicBinding.IsValid (some (Facts.ClassOf Object)) = false →
      FLuaEnv.TryBind Facts ManagerBind false GLuaDynamicBinding env Object = (false, env)) ∧
    (Facts.ImplementsUnLuaInterface (Facts.ClassOf Object) = true →
      Facts.NameContainsSKEL (Facts.ClassOf Object) = true →
      FLuaEnv.TryBind Facts ManagerBind false GLuaDynamicBinding env Object = (false, env)) ∧
    (Facts.ImplementsUnLuaInterface (Facts.ClassOf Object) = true →
      Facts.NameContainsSKEL (Facts.ClassOf Object) = false →
      env.ModuleLocator = none →
      FLuaEnv.TryBind Facts ManagerBind false GLuaDynamicBinding env Object = (false, env)) ∧
    (∀ Locate : ObjId → String,
      Facts.ImplementsUnLuaInterface (Facts.ClassOf Object) = true →
      Facts.NameContainsSKEL (Facts.ClassOf Object) = false →
      env.ModuleLocator = some Locate → Locate Object = "" →
      FLuaEnv.TryBind Facts ManagerBind false GLuaDynamicBinding env Object = (false, env)) ∧
    (∀ Locate : ObjId → String,
      Facts.ImplementsUnLuaInterface (Facts.ClassOf Object) = true →
      Facts.NameContainsSKEL (Facts.ClassOf Object) = false →
      env.ModuleLocator = some Locate → Locate Object ≠ "" →
      FLuaEnv.TryBind Facts ManagerBind false GLuaDynamicBinding env Object
        = FLuaEnv.CallBind ManagerBind env Object (Locate Object)
            GLuaDynamicBinding.InitializerTableRef) := by
  refine ⟨?_, ?_, ?_, ?_, ?_, ?_⟩
  · intro hI hV
    simp [FLuaEnv.TryBind, hNew, hI, hV]
  · intro hI hV
    simp [FLuaEnv.TryBind, hNew, hI, hV]
  · intro hI hS
    simp [FLuaEnv.TryBind, hNew, hI, hS]
  · intro hI hS hL
    simp [FLuaEnv.TryBind, hNew, hI, hS, hL]
  · intro Locate hI hS hL hM
    simp [FLuaEnv.TryBind, hNew, hI, hS, hL, hM]
  · intro Locate hI hS hL hM
    simp [FLuaEnv.TryBind, hNew, hI, hS, hL, hM]

/-- Instance of C21, amended: an object of class `5` inside a spawn with the module
`Dyn.Actor`. When the class implements the UnLua interface the bind uses the
located module `Game.Actor`; when it does not, the bind uses `Dyn.Actor`, and
without a dynamic binding nothing is bound. For a skeleton class that implements
the interface nothing is bound, with a valid dynamic binding and a locator in
place. -/
theorem tryBind_owning_thread_witness :
    FLuaEnv.TryBind actorFacts (fun _ _ _ => true) false spawnBinding locatorEnv 1
      = FLuaEnv.CallBind (fun _ _ _ => true) locatorEnv 1 "Game.Actor" 42 ∧
    FLuaEnv.TryBind plainFacts (fun _ _ _ => true) false spawnBinding locatorEnv 1
      = FLuaEnv.CallBind (fun _ _ _ => true) locatorEnv 1 "Dyn.Actor" 42 ∧
    FLuaEnv.TryBind plainFacts (fun _ _ _ => true) false emptyBinding locatorEnv 1
      = (false, locatorEnv) ∧
    FLuaEnv.TryBind skeletonFacts (fun _ _ _ => true) false spawnBinding locatorEnv 1
      = (false, locatorEnv) :=
  ⟨(tryBind_owning_thread actorFacts (fun _ _ _ => true) spawnBinding locatorEnv 1
      rfl).2.2.2.2.2 (fun _ => "Game.Actor") rfl rfl rfl (by decide),
   (tryBind_owning_thread plainFacts (fun _ _ _ => true) spawnBinding locatorEnv 1 rfl).1
      rfl (by decide),
   (tryBind_owning_thread plainFacts (fun _ _ _ => true) emptyBinding locatorEnv 1 rfl).2.1
      rfl (by decide),
   (tryBind_owning_thread skeletonFacts (fun _ _ _ => true) spawnBinding locatorEnv 1
      rfl).2.2.1 rfl rfl⟩

/-- Counterexample to C29 as stated: inside a spawn of class `5` with an
initializer table and no module name the dynamic binding is not valid for class
`5`, yet `TryBind` hands the table `42`, not `LUA_NOREF`, to `Bind` for an object of
that class bound through the locator. -/
theorem tryBind_initializer_counterexample :
    tableOnlyBinding.IsValid (some (actorFacts.ClassOf 1)) = false ∧
    (FLuaEnv.TryBind actorFacts (fun _ _ _ => true) false tableOnlyBinding locatorEnv
      1).2.BindCalls = [(1, "Game.Actor", 42)] ∧
    (42 : Int) ≠ LUA_NOREF := by
  refine ⟨by decide, ?_, by decide⟩
  simp [FLuaEnv.TryBind, FLuaEnv.CallBind, actorFacts, locatorEnv, tableOnlyBinding]

/-- C29, amended: when `TryBind` binds an object through the module locator (owning
thread, class not marked `CLASS_NewerVersionExists`, implementing the UnLua
interface, no `SKEL_` in its name, a locator that returns a name that is not empty)
and the current class of the dynamic binding is the class of the object, `Bind` is
called once, with the located name and the current `InitializerTableRef` of the
dynamic binding, and `TryBind` returns its result. This holds whether or not the
dynamic binding is valid for the class, and it is not valid exactly when its
current module name is empty. -/
theorem tryBind_initializer_same_class (Facts : FObjectFacts)
    (ManagerBind : ObjId → String → Int → Bool) (GLuaDynamicBinding : FLuaDynamicBinding)
    (env : FLuaEnv) (Object : ObjId) (Locate : ObjId → String)
    (hNew : Facts.NewerVersionExists (Facts.ClassOf Object) = false)
    (hI : Facts.ImplementsUnLuaInterface (Facts.ClassOf Object) = true)
    (hS : Facts.NameContainsSKEL (Facts.ClassOf Object) = false)
    (hL : env.ModuleLocator = some Locate) (hM : Locate Object ≠ "")
    (hClass : GLuaDynamicBinding.Class = some (Facts.ClassOf Object)) :
    (FLuaEnv.TryBind Facts ManagerBind false GLuaDynamicBinding env Object).2.BindCalls
      = env.BindCalls ++ [(Object, Locate Object, GLuaDynamicBinding.InitializerTableRef)] ∧
    (FLuaEnv.TryBind Facts ManagerBind false GLuaDynamicBinding env Object).1
      = ManagerBind Object (Locate Object) GLuaDynamicBinding.InitializerTableRef ∧
    (GLuaDynamicBinding.IsValid (some (Facts.ClassOf Object)) = false ↔
      GLuaDynamicBinding.ModuleName = "") := by
  refine ⟨?_, ?_, ?_⟩
  · simp [FLuaEnv.TryBind, FLuaEnv.CallBind, hNew, hI, hS, hL, hM]
  · simp [FLuaEnv.TryBind, FLuaEnv.CallBind, hNew, hI, hS, hL, hM]
  · have hlen := String.length_pos_iff_ne_empty GLuaDynamicBinding.ModuleName
    simp only [FLuaDynamicBinding.IsValid, hClass, Option.isSome_some, decide_True,
      Bool.true_and, decide_eq_false_iff_not]
    constructor
    · intro h
      by_contra hne
      exact h (hlen.2 hne)
    · intro h hpos
      exact (hlen.1 hpos) h

/-- Instance of C29, amended: the spawn of class `5` with the table `42` and no
module name. -/
theorem tryBind_initializer_same_class_witness :
    (FLuaEnv.TryBind actorFacts (fun _ _ _ => true) false tableOnlyBinding locatorEnv
      1).2.BindCalls = [] ++ [(1, "Game.Actor", 42)] ∧
    (FLuaEnv.TryBind actorFacts (fun _ _ _ => true) false tableOnlyBinding locatorEnv 1).1
      = true ∧
    (tableOnlyBinding.IsValid (some (actorFacts.ClassOf 1)) = false ↔
      tableOnlyBinding.ModuleName = "") :=
  tryBind_initializer_same_class actorFacts (fun _ _ _ => true) tableOnlyBinding locatorEnv 1
    (fun _ => "Game.Actor") rfl rfl rfl rfl (by decide) rfl

/-! ## The deferred bind flush -/

section FlushLemmas

end FlushLemmas

section LocatorLemmas

/-- The chop count of a path whose first separator after the first character
follows the segment `Root`: everything up to and including that separator. -/
theorem ULuaModuleLocator_ByPackage.chopCount_root (First : Char) (Root Rest : List Char)
    (hRoot : '/' ∉ Root) :
    ULuaModuleLocator_ByPackage.ChopCount ⟨First :: (Root ++ '/' :: Rest)⟩
      = ((Root.length + 2 : Nat) : Int) := by
  have hmin : min 1 ((First :: (Root ++ '/' :: Rest)).length - 1) = 1 := by
    simp only [List.length_cons, List.length_append]
    omega
  have hidx : List.indexOf '/' (Root ++ '/' :: Rest) = Root.length := by
    rw [List.indexOf_append_of_not_mem hRoot, List.indexOf_cons_self]
    rfl
  simp only [ULuaModuleLocator_ByPackage.ChopCount, FString.Find]
  rw [hmin]
  simp only [List.drop_succ_cons, List.drop_zero, hidx, List.length_append, List.length_cons]
  rw [if_pos (by omega)]
  push_cast
  ring

/-- The chop count of a path with a single segment is zero. -/
theorem ULuaModuleLocator_ByPackage.chopCount_single (First : Char) (Segment : List Char)
    (hNonempty : Segment ≠ []) (hSegment : '/' ∉ Segment) :
    ULuaModuleLocator_ByPackage.ChopCount ⟨First :: Segment⟩ = 0 := by
  have hpos : 0 < Segment.length := List.length_pos.2 hNonempty
  have hmin : min 1 ((First :: Segment).length - 1) = 1 := by
    simp only [List.length_cons]
    omega
  simp only [ULuaModuleLocator_ByPackage.ChopCount, FString.Find]
  rw [hmin]
  simp only [List.drop_succ_cons, List.drop_zero, List.indexOf_of_not_mem hSegment, lt_irrefl,
    if_false, INDEX_NONE]
  rfl

end LocatorLemmas

section LocatorLemmas2

/-- Replacing the separator in joined segments that hold none joins them by the
new separator. -/
theorem JoinSegments.replace (Segments : List (List Char))
    (h : ∀ Segment ∈ Segments, '/' ∉ Segment) :
    (JoinSegments '/' Segments).map (fun c => if c = '/' then '.' else c)
      = JoinSegments '.' Segments := by
  have hself : ∀ Segment : List Char, '/' ∉ Segment →
      Segment.map (fun c => if c = '/' then '.' else c) = Segment := by
    intro Segment hs
    induction Segment with
    | nil => rfl
    | cons c rest ih =>
      have hc : c ≠ '/' := fun hc => hs (by simp [hc])
      have hr : '/' ∉ rest := fun hr => hs (List.mem_cons_of_mem _ hr)
      simp [hc, ih hr]
  induction Segments with
  | nil => rfl
  | cons Segment Rest ih =>
    cases Rest with
    | nil => simpa [JoinSegments] using hself Segment (h Segment (by simp))
    | cons Next More =>
      have h1 := hself Segment (h Segment (by simp))
      have h2 := ih (fun s hs => h s (List.mem_cons_of_mem _ hs))
      simp only [JoinSegments, List.map_append, List.map_cons, h1, if_true]
      rw [h2]

end LocatorLemmas2

/-- C30: in `Locate` the chop count is computed on the package name itself, and
the two orders agree for every package name: replacing the separators and then
dropping that many characters gives the string obtained by dropping them first
and replacing afterwards. The count is the index of the first separator at or
after position `1` plus one, and for a path of a single segment it is zero and
nothing is dropped. -/
theorem locate_orders_agree (ModuleName : FString) :
    ULuaModuleLocator_ByPackage.PackageModuleName ModuleName
      = ULuaModuleLocator_ByPackage.ChopThenReplace ModuleName ∧
    (∀ (First : Char) (Root Rest : List Char), ModuleName = ⟨First :: (Root ++ '/' :: Rest)⟩ →
      '/' ∉ Root →
      ULuaModuleLocator_ByPackage.ChopCount ModuleName = ((Root.length + 1 : Nat) : Int) + 1) ∧
    (∀ (First : Char) (Segment : List Char), ModuleName = ⟨First :: Segment⟩ → Segment ≠ [] →
      '/' ∉ Segment →
      ULuaModuleLocator_ByPackage.ChopCount ModuleName = 0 ∧
      ULuaModuleLocator_ByPackage.PackageModuleName ModuleName
        = FString.Replace ModuleName '/' '.') := by
  refine ⟨?_, ?_, ?_⟩
  · simp [ULuaModuleLocator_ByPackage.PackageModuleName,
      ULuaModuleLocator_ByPackage.ChopThenReplace, FString.RightChop, FString.Replace,
      List.map_drop]
  · intro First Root Rest hName hRoot
    subst hName
    rw [ULuaModuleLocator_ByPackage.chopCount_root First Root Rest hRoot]
    push_cast
    ring
  · intro First Segment hName hNonempty hSeg
    subst hName
    have hk := ULuaModuleLocator_ByPackage.chopCount_single First Segment hNonempty hSeg
    refine ⟨hk, ?_⟩
    simp [ULuaModuleLocator_ByPackage.PackageModuleName, hk, FString.RightChop]

/-! ## `Append` with the proxy itself as the source -/

section SelfAppendLemmas

variable {α : Type}

/-- Once the array has been grown to `2n` slots, the copy loop that started at
slot `n` does not stop after `n` rounds: round `n` addresses slot `2n`, which is
outside the array. -/
theorem FLuaArray.appendSelfLoop_overrun (Inner : ITypeInterface α) (n : Nat) (hn : 1 ≤ n) :
    ∀ (k i : Nat) (a : FLuaArray α), i + k = n → a.ScriptArray.Data.length = 2 * n →
      FLuaArray.AppendSelfLoop Inner (n : Int) a i = none := by
  intro k
  induction k with
  | zero =>
    intro i a hi hlen
    have hin : i = n := by omega
    subst hin
    rw [FLuaArray.AppendSelfLoop]
    have hlt : (i : Int) < a.Num := by
      simp only [FLuaArray.Num, FScriptArray.Num, hlen]
      push_cast
      omega
    have hdest : a.GetData ((i : Int) + (i : Int)) = none := by
      have : ((i : Int) + (i : Int)) = ((i + i : Nat) : Int) := by push_cast; rfl
      rw [this, FLuaArray.getData_natCast]
      exact List.getElem?_eq_none (by omega)
    simp only [hlt, if_true, hdest]
  | succ k ih =>
    intro i a hi hlen
    rw [FLuaArray.AppendSelfLoop]
    have hlt : (i : Int) < a.Num := by
      simp only [FLuaArray.Num, FScriptArray.Num, hlen]
      push_cast
      omega
    have hd : n + i < a.ScriptArray.Data.length := by omega
    have hs : i < a.ScriptArray.Data.length := by omega
    have hcast : ((n : Int) + (i : Int)) = ((n + i : Nat) : Int) := by push_cast; rfl
    have hdest : a.GetData ((n : Int) + (i : Int)) = some a.ScriptArray.Data[n + i] := by
      rw [hcast, FLuaArray.getData_natCast]
      exact List.getElem?_eq_getElem hd
    have hsrc : a.GetData (i : Int) = some a.ScriptArray.Data[i] := by
      rw [FLuaArray.getData_natCast]
      exact List.getElem?_eq_getElem hs
    have hstore := FLuaArray.store_natCast a (n + i)
      (Inner.Copy a.ScriptArray.Data[n + i] a.ScriptArray.Data[i]) hd
    rw [← hcast] at hstore
    simp only [hlt, if_true, hdest, hsrc]
    split
    · rename_i b hb
      rw [hstore] at hb
      simp only [Option.some.injEq] at hb
      subst hb
      exact ih (i + 1) _ (by omega) (by simpa using hlen)
    · rfl

end SelfAppendLemmas

/-- C26, the code at every input of the claim: for every proxy with `n ≥ 1`
elements, `Append` with the proxy itself as the source grows the array to `2n`
slots and then runs its copy loop up to the new length, so that round `n`
addresses slot `2n`, outside the array; the call has no defined result. -/
theorem array_self_append_overruns {α : Type} (Inner : ITypeInterface α) (Raw : Nat → α)
    (a : FLuaArray α) (hn : 1 ≤ a.Num) :
    FLuaArray.AppendSelf Inner Raw a = none := by
  have hpos : a.Num > 0 := by omega
  have hlen : (a.ScriptArray.Data.length : Int) = a.Num := rfl
  have hn1 : 1 ≤ a.ScriptArray.Data.length := by
    have : (1 : Int) ≤ (a.ScriptArray.Data.length : Int) := by rw [hlen]; exact hn
    exact_mod_cast this
  obtain ⟨b, hb, -, -, hblen, -⟩ := FLuaArray.construct_spec Inner a.ScriptArray.Data.length
    { a with ScriptArray := ⟨a.ScriptArray.Data ++
        FScriptArray.RawSlots Raw a.ScriptArray.Data.length a.Num⟩ }
    a.ScriptArray.Data.length
    (by simp [FScriptArray.rawSlots_length, FLuaArray.Num, FScriptArray.Num])
  have hb2 : b.ScriptArray.Data.length = 2 * a.ScriptArray.Data.length := by
    rw [hblen]
    simp [FScriptArray.rawSlots_length, FLuaArray.Num, FScriptArray.Num]
    omega
  have hloop := FLuaArray.appendSelfLoop_overrun Inner a.ScriptArray.Data.length hn1
    a.ScriptArray.Data.length 0 b (by omega) hb2
  have hadd : FLuaArray.AddDefaulted Inner Raw a a.Num
      = some (((a.ScriptArray.Data.length : Nat) : Int), b) := by
    simp only [FLuaArray.AddDefaulted, FScriptArray.Add, FLuaArray.Num, FScriptArray.Num,
      Int.toNat_ofNat] at hb ⊢
    simp [hb]
  simp only [FLuaArray.AppendSelf, hpos, if_true, hadd, Option.bind_eq_bind, Option.some_bind]
  exact hloop

/-- Instance of C26 at the failing input: the proxy over `[5]` appended to itself. -/
theorem array_self_append_overruns_witness :
    FLuaArray.AppendSelf natInterface sampleRaw singleArray = none :=
  array_self_append_overruns natInterface sampleRaw singleArray (by decide)

/-! ## The marker payload -/

section MarkerLemmas

/-- The little endian bytes of a number decode to the number modulo the range of
the bytes. -/
theorem WriteUnaligned.decode (n : Nat) :
    ∀ p : Nat, ((List.range n).map (fun i => p / 256 ^ i % 256)).foldr
      (fun b acc => b + 256 * acc) 0 = p % 256 ^ n := by
  induction n with
  | zero => intro p; simp [Nat.mod_one]
  | succ n ih =>
    intro p
    rw [List.range_succ_eq_map, List.map_cons, List.map_map, List.foldr_cons]
    have hfun : ((fun i => p / 256 ^ i % 256) ∘ Nat.succ)
        = fun i => (p / 256) / 256 ^ i % 256 := by
      funext i
      simp only [Function.comp, Nat.pow_succ, Nat.div_div_eq_div_mul, Nat.mul_comm]
    rw [hfun, ih (p / 256)]
    simp only [Nat.pow_zero, Nat.div_one]
    rw [Nat.pow_succ, Nat.mul_comm (256 ^ n) 256, Nat.mod_mul]

/-- A pointer of 64 bits is read back from its eight bytes. -/
theorem ReadUnaligned.of_write (Pointer : ObjId) (h : Pointer < 2 ^ 64) :
    ReadUnaligned (WriteUnaligned Pointer) = Pointer := by
  have hlen : (WriteUnaligned Pointer).length = PointerSize := by simp [WriteUnaligned]
  have htake : (WriteUnaligned Pointer).take PointerSize = WriteUnaligned Pointer := by
    rw [← hlen, List.take_length]
  rw [ReadUnaligned, htake, WriteUnaligned, WriteUnaligned.decode PointerSize Pointer]
  apply Nat.mod_eq_of_lt
  have : (256 : Nat) ^ PointerSize = 2 ^ 64 := by decide
  rw [this]
  exact h

end MarkerLemmas

/-- C25: `SetActive(true)` on a true override record `Self` (not active yet) of a
function that is not itself a `ULuaFunction` leaves a script body from which `Get`
returns exactly `Self`, for every 64-bit address `Self`. For every function that is
not a `ULuaFunction`, `Get` returns null whenever the script body is shorter than
the header of `6` bytes plus the `8` bytes of a pointer, or does not start with
the header. -/
theorem marker_payload_back_pointer (w : World) (Self Function Class : ObjId)
    (self function : UFunction) (part : ULuaFunctionPart) (o : ULuaOverridesClass)
    (hS : w.Functions Self = some self) (hp : self.LuaFunction = some part)
    (hact : part.bActivated = false) (hadd : part.bAdded = false)
    (hFrom : part.From = some Function) (hF : w.Functions Function = some function)
    (hne : Function ≠ Self)
    (hoc : w.OverridesClasses self.Outer = some o) (hOwner : o.Owner = some Class)
    (hNative : function.LuaFunction = none) (hPtr : Self < 2 ^ 64) :
    (∃ w2, ULuaFunction.SetActive w Self true = some w2 ∧
      ULuaFunction.Get w2 (some Function) = some Self) ∧
    (∀ (v : World) (Other : ObjId) (other : UFunction), v.Functions Other = some other →
      other.LuaFunction = none →
      (other.Script.length < ScriptMagicHeaderSize + PointerSize ∨
        other.Script.take ScriptMagicHeaderSize ≠ ScriptMagicHeader) →
      ULuaFunction.Get v (some Other) = none) ∧
    ScriptMagicHeaderSize = 6 ∧ PointerSize = 8 := by
  refine ⟨?_, ?_, rfl, rfl⟩
  · obtain ⟨w2, hw2, -, -, -, hFun⟩ := ULuaFunction.setActive_true_own w Self Function Class
      self function part o hS hp hact hadd hFrom hF hne hoc hOwner
    refine ⟨w2, hw2, ?_⟩
    have hF2 : w2.Functions Function
        = some { function with FunctionFlags := function.FunctionFlags ||| FUNC_Native,
                               NativeFunc := FNativeFuncPtr.execScriptCallLua,
                               Script := ScriptMagicHeader ++ WriteUnaligned Self } := by
      rw [hFun, Assign_other _ _ _ _ hne, Assign_same]
    have hlen : (ScriptMagicHeader ++ WriteUnaligned Self).length
        = ScriptMagicHeaderSize + PointerSize := by
      simp [ScriptMagicHeaderSize, WriteUnaligned]
    have htake : (ScriptMagicHeader ++ WriteUnaligned Self).take ScriptMagicHeaderSize
        = ScriptMagicHeader := by
      simp [ScriptMagicHeaderSize]
    have hdrop : (ScriptMagicHeader ++ WriteUnaligned Self).drop ScriptMagicHeaderSize
        = WriteUnaligned Self := by
      simp [ScriptMagicHeaderSize]
    simp only [ULuaFunction.Get, hF2, hNative, Option.isSome_none, Bool.false_eq_true, if_false,
      hlen, lt_irrefl, htake, ne_eq, not_true_eq_false, hdrop,
      ReadUnaligned.of_write Self hPtr]
  · intro v Other other hO hN hBad
    rcases hBad with hShort | hHead
    · simp [ULuaFunction.Get, hO, hN, hShort]
    · simp only [ULuaFunction.Get, hO, hN, Option.isSome_none, Bool.false_eq_true, if_false]
      split
      · rfl
      · simp [hHead]

/-- Instance of C25: the suspended override of `ReceiveTick` is activated again. -/
theorem marker_payload_back_pointer_witness :
    (∃ w2, ULuaFunction.SetActive suspendedWorld 201 true = some w2 ∧
      ULuaFunction.Get w2 (some 8) = some 201) ∧
    (∀ (v : World) (Other : ObjId) (other : UFunction), v.Functions Other = some other →
      other.LuaFunction = none →
      (other.Script.length < ScriptMagicHeaderSize + PointerSize ∨
        other.Script.take ScriptMagicHeaderSize ≠ ScriptMagicHeader) →
      ULuaFunction.Get v (some Other) = none) ∧
    ScriptMagicHeaderSize = 6 ∧ PointerSize = 8 :=
  marker_payload_back_pointer suspendedWorld 201 8 100 restingRecord restingTick
    ⟨some 8, some 202, false, false⟩ ⟨some 100, [201]⟩ rfl rfl rfl rfl rfl rfl (by decide)
    rfl rfl rfl (by decide)

/-! ## The watchdog and the lifetime of its guards -/

section GuardLifetimeLemmas

/-- The last element of a list does not change when an element is put in front of
a list that is not empty. -/
theorem List.getLast?_cons_nonempty {β : Type} (a : β) (l : List β) (h : l ≠ []) :
    (a :: l).getLast? = l.getLast? := by
  cases l with
  | nil => exact absurd rfl h
  | cons b rest => simp [List.getLast?_cons_cons]

/-- Every event keeps the watchdog consistent with the running calls, and no
event uses a destroyed guard. -/
theorem EScriptEvent.apply_consistent (s : FDeadLoopCheck × List (Option Nat))
    (Event : EScriptEvent) (h : WatchdogConsistent s) :
    ∃ t, EScriptEvent.Apply s Event = some t ∧ WatchdogConsistent t := by
  obtain ⟨d, Guards⟩ := s
  obtain ⟨hLive, hCount, hOuter⟩ := h
  simp only at hLive hCount hOuter
  cases Event with
  | Call Address =>
    by_cases hT : d.Timeout ≤ 0
    · refine ⟨(d, none :: Guards), by simp [EScriptEvent.Apply, FDeadLoopCheck.MakeGuard, hT], ?_⟩
      exact ⟨by simpa [LiveOf] using hLive, by simpa [LiveOf] using hCount,
        by simpa [LiveOf] using hOuter⟩
    · refine ⟨(FGuard.New d Address, some Address :: Guards),
        by simp [EScriptEvent.Apply, FDeadLoopCheck.MakeGuard, hT], ?_⟩
      have hlive2 : LiveOf (some Address :: Guards) = Address :: LiveOf Guards := by
        simp [LiveOf]
      refine ⟨?_, ?_, ?_⟩
      · simp only [FGuard.New, hlive2, hLive]
      · simp only [FGuard.New, FRunner.GuardEnter, hlive2, List.length_cons]
        split
        · simp only [hCount]
          push_cast
          ring
        · simp only [hCount]
          push_cast
          ring
      · intro _ Guard hTG
        rw [hlive2]
        by_cases hgt : d.Runner.GuardCounter + 1 > 1
        · simp only [FGuard.New, FRunner.GuardEnter, hgt, if_true] at hTG
          have hne0 : d.Runner.GuardCounter ≠ 0 := by omega
          have hlast := hOuter hne0 Guard hTG
          have hnil : LiveOf Guards ≠ [] := by
            intro hnil
            rw [hnil] at hlast
            simp at hlast
          rw [List.getLast?_cons_nonempty _ _ hnil]
          exact hlast
        · simp only [FGuard.New, FRunner.GuardEnter, hgt, if_false, Option.some.injEq] at hTG
          have hzero : (LiveOf Guards).length = 0 := by
            have : d.Runner.GuardCounter = 0 := by
              have hnn : (0 : Int) ≤ ((LiveOf Guards).length : Int) := Int.natCast_nonneg _
              omega
            rw [this] at hCount
            exact_mod_cast hCount.symm
          rw [List.eq_nil_of_length_eq_zero hzero, hTG]
          rfl
  | Return =>
    cases Guards with
    | nil => exact ⟨(d, []), rfl, hLive, hCount, hOuter⟩
    | cons Top Below =>
      cases Top with
      | none =>
        refine ⟨(d, Below), rfl, ?_⟩
        exact ⟨by simpa [LiveOf] using hLive, by simpa [LiveOf] using hCount,
          by simpa [LiveOf] using hOuter⟩
      | some Guard =>
        have hlive2 : LiveOf (some Guard :: Below) = Guard :: LiveOf Below := by
          simp [LiveOf]
        rw [hlive2] at hLive hCount hOuter
        refine ⟨(FGuard.Delete d Guard, Below), rfl, ?_, ?_, ?_⟩
        · simp [FGuard.Delete, hLive]
        · simp only [FGuard.Delete, FRunner.GuardLeave, hCount, List.length_cons]
          push_cast
          ring
        · intro hne Recorded hTG
          simp only [FGuard.Delete, FRunner.GuardLeave] at hne hTG
          have hne0 : d.Runner.GuardCounter ≠ 0 := by
            rw [hCount]
            simp only [List.length_cons]
            push_cast
            omega
          have hlast := hOuter hne0 Recorded hTG
          have hnil : LiveOf Below ≠ [] := by
            intro hnil
            rw [hCount, hnil] at hne
            simp at hne
          rw [List.getLast?_cons_nonempty _ _ hnil] at hlast
          exact hlast
  | Tick =>
    simp only [EScriptEvent.Apply, FDeadLoopCheck.RunRound]
    by_cases hRun : d.Runner.bRunning = true
    · by_cases hC0 : d.Runner.GuardCounter = 0
      · exact ⟨(d, Guards), by simp [hRun, hC0], hLive, hCount, hOuter⟩
      · by_cases hlt : d.Runner.TimeoutCounter + 1 < d.Timeout
        · refine ⟨({ d with Runner := { d.Runner with
              TimeoutCounter := d.Runner.TimeoutCounter + 1 } }, Guards),
            by simp [hRun, hC0, hlt], ?_⟩
          exact ⟨hLive, hCount, hOuter⟩
        · cases hTG : d.Runner.TimeoutGuard with
          | none =>
            refine ⟨({ d with Runner := { d.Runner with
                TimeoutCounter := d.Runner.TimeoutCounter + 1 } }, Guards),
              by simp [hRun, hC0, hlt, hTG], ?_⟩
            refine ⟨hLive, hCount, ?_⟩
            intro _ Recorded hRec
            have hRec2 : d.Runner.TimeoutGuard = some Recorded := hRec
            rw [hTG] at hRec2
            exact Option.noConfusion hRec2
          | some Recorded =>
            have hlast := hOuter hC0 Recorded hTG
            have hmem : Recorded ∈ d.LiveGuards := by
              rw [hLive]
              exact List.mem_of_getLast?_eq_some hlast
            refine ⟨({ d with
                Runner := { d.Runner with TimeoutCounter := d.Runner.TimeoutCounter + 1,
                                          TimeoutGuard := none },
                Hook := if d.Hook = none then some lua_Hook.OnLuaLineEvent else d.Hook,
                SetTimeoutCalls := d.SetTimeoutCalls ++ [Recorded] }, Guards),
              by simp [hRun, hC0, hlt, hTG, FGuard.SetTimeout, hmem], ?_⟩
            refine ⟨hLive, hCount, ?_⟩
            intro _ Other hRec
            exact Option.noConfusion hRec
    · exact ⟨(d, Guards), by simp [hRun], hLive, hCount, hOuter⟩

/-- Every sequence of events keeps the watchdog consistent with the running
calls, and none of its events uses a destroyed guard. -/
theorem RunScriptEvents.consistent :
    ∀ (Events : List EScriptEvent) (s : FDeadLoopCheck × List (Option Nat)),
      WatchdogConsistent s →
      ∃ t, RunScriptEvents s Events = some t ∧ WatchdogConsistent t := by
  intro Events
  induction Events with
  | nil => intro s h; exact ⟨s, rfl, h⟩
  | cons Event Rest ih =>
    intro s h
    obtain ⟨t, ht, hc⟩ := EScriptEvent.apply_consistent s Event h
    obtain ⟨u, hu, hcu⟩ := ih t hc
    exact ⟨u, by rw [RunScriptEvents.cons_step, ht]; exact hu, hcu⟩

end GuardLifetimeLemmas

/-- C27: from a state in which the watchdog agrees with the running calls (as
after construction), every sequence of calls, returns in LIFO order and watchdog
rounds runs without a use of a destroyed guard and ends in such a state: the
counter is the number of live guards and not negative; while it is not zero, a
recorded guard is the outermost live guard and is alive; and a round with the
counter at zero does not touch the recorded guard. -/
theorem watchdog_guard_alive (s : FDeadLoopCheck × List (Option Nat))
    (Events : List EScriptEvent) (h : WatchdogConsistent s) :
    ∃ t, RunScriptEvents s Events = some t ∧
      t.1.Runner.GuardCounter = ((LiveOf t.2).length : Int) ∧
      t.1.LiveGuards = LiveOf t.2 ∧
      0 ≤ t.1.Runner.GuardCounter ∧
      (t.1.Runner.GuardCounter ≠ 0 → ∀ Guard, t.1.Runner.TimeoutGuard = some Guard →
        (LiveOf t.2).getLast? = some Guard ∧ Guard ∈ t.1.LiveGuards) ∧
      (t.1.Runner.GuardCounter = 0 → t.1.RunRound = some t.1) := by
  obtain ⟨t, ht, hLive, hCount, hOuter⟩ := RunScriptEvents.consistent Events s h
  refine ⟨t, ht, hCount, hLive, ?_, ?_, ?_⟩
  · rw [hCount]
    exact Int.natCast_nonneg _
  · intro hne Guard hTG
    have hlast := hOuter hne Guard hTG
    refine ⟨hlast, ?_⟩
    rw [hLive]
    exact List.mem_of_getLast?_eq_some hlast
  · intro h0
    simp [FDeadLoopCheck.RunRound, h0]

/-- Instance of C27: the watchdog with `Timeout = 2` right after construction and
the script of three rounds with a nested call. -/
theorem watchdog_guard_alive_witness :
    ∃ t, RunScriptEvents (armedWatchdog, []) (EScriptEvent.Call 10 :: busyScript) = some t ∧
      t.1.Runner.GuardCounter = ((LiveOf t.2).length : Int) ∧
      t.1.LiveGuards = LiveOf t.2 ∧
      0 ≤ t.1.Runner.GuardCounter ∧
      (t.1.Runner.GuardCounter ≠ 0 → ∀ Guard, t.1.Runner.TimeoutGuard = some Guard →
        (LiveOf t.2).getLast? = some Guard ∧ Guard ∈ t.1.LiveGuards) ∧
      (t.1.Runner.GuardCounter = 0 → t.1.RunRound = some t.1) :=
  watchdog_guard_alive (armedWatchdog, []) (EScriptEvent.Call 10 :: busyScript)
    ⟨rfl, rfl, fun h => absurd rfl h⟩

/-! ## Binding an object -/

/-- C28, the code at the failing input: for a class that still needs its post
load, `BindClass` returns false and leaves `Error` empty; `Bind` drops the returned
flag, finds `Error` empty, binds class and object in the object registry and
returns true. -/
theorem bind_ignores_bindClass_result :
    (UUnLuaManager.BindClass postLoadFacts ⟨[], []⟩ 5 "").1 = false ∧
    (UUnLuaManager.BindClass postLoadFacts ⟨[], []⟩ 5 "").2.1 = "" ∧
    (UUnLuaManager.Bind postLoadFacts ⟨[], []⟩ 1 5).1 = true ∧
    (UUnLuaManager.Bind postLoadFacts ⟨[], []⟩ 1 5).2.BoundObjects = [5, 1] ∧
    (UUnLuaManager.Bind postLoadFacts ⟨[], []⟩ 1 5).2.Classes = [] := by
  decide

/-! ## Suspending and resuming overrides -/

section SetActiveLemmas

/-- A lookup under another name does not see the entries filtered out by a name. -/
theorem List.lookup_filter_other (Map : List (String × ObjId)) (Name Other : String)
    (h : Other ≠ Name) :
    (Map.filter (fun e => e.1 != Name)).lookup Other = Map.lookup Other := by
  induction Map with
  | nil => rfl
  | cons e rest ih =>
    obtain ⟨k, v⟩ := e
    by_cases hk : k = Name
    · subst hk
      have hko : (Other == k) = false := by simpa using h
      simp [List.filter_cons, List.lookup_cons, hko, ih]
    · have hkn : (k != Name) = true := by simpa using hk
      rw [List.filter_cons, hkn]
      simp only [if_true, List.lookup_cons]
      rw [ih]

/-- No entry is left under the name that was filtered out. -/
theorem List.lookup_filter_self (Map : List (String × ObjId)) (Name : String) :
    (Map.filter (fun e => e.1 != Name)).lookup Name = none := by
  induction Map with
  | nil => rfl
  | cons e rest ih =>
    obtain ⟨k, v⟩ := e
    by_cases hk : k = Name
    · subst hk
      simp [List.filter_cons, ih]
    · have hkn : (k != Name) = true := by simpa using hk
      have hnk : (Name == k) = false := by simpa using fun h => hk h.symm
      rw [List.filter_cons, hkn]
      simp only [if_true, List.lookup_cons, hnk, ih]

/-- Filtering by a name that has no entry changes nothing. -/
theorem List.filter_of_lookup_none (Map : List (String × ObjId)) (Name : String)
    (h : Map.lookup Name = none) : Map.filter (fun e => e.1 != Name) = Map := by
  induction Map with
  | nil => rfl
  | cons e rest ih =>
    obtain ⟨k, v⟩ := e
    by_cases hk : k = Name
    · subst hk
      simp [List.lookup_cons] at h
    · have hnk : (Name == k) = false := by simpa using fun h => hk h.symm
      have hkn : (k != Name) = true := by simpa using hk
      simp only [List.lookup_cons, hnk] at h
      rw [List.filter_cons, hkn]
      simp only [if_true]
      rw [ih h]

end SetActiveLemmas

section SetActiveLemmas2

/-- One call of `SetActive` on a record with a live original and, for a true
override, a live backup: it succeeds, writes none of the members that make up the
frame of an object, sets the activation flag of the record and of no other
object, and changes the function map of the class at the name of the record
only, and only for a newly added function whose flag changes. -/
theorem ULuaFunction.setActive_effect (w : World) (Self Class Function : ObjId)
    (bActive : Bool) (self : UFunction) (part : ULuaFunctionPart) (o : ULuaOverridesClass)
    (hS : w.Functions Self = some self) (hp : self.LuaFunction = some part)
    (hFrom : part.From = some Function) (hne : Function ≠ Self)
    (hF : (w.Functions Function).isSome)
    (hoc : w.OverridesClasses self.Outer = some o) (hOwner : o.Owner = some Class)
    (hBackup : part.bAdded = false →
      ∃ Backup, part.Overridden = some Backup ∧ (w.Functions Backup).isSome)
    (hName : bActive = true → part.bAdded = true → part.bActivated = false →
      w.FindFunctionByName Class self.Name = none) :
    ∃ w2, ULuaFunction.SetActive w Self bActive = some w2 ∧
      w2.OverridesClasses = w.OverridesClasses ∧ w2.Overrides = w.Overrides ∧
      (∀ Id, w2.Frame Id = w.Frame Id) ∧
      w2.Active Self = some bActive ∧ (∀ Id, Id ≠ Self → w2.Active Id = w.Active Id) ∧
      (∀ Name, w2.FindFunctionByName Class Name =
        if part.bAdded = true ∧ part.bActivated ≠ bActive ∧ Name = self.Name then
          (if bActive = true then some Self else none)
        else w.FindFunctionByName Class Name) := by
  obtain ⟨function, hFv⟩ := Option.isSome_iff_exists.1 hF
  by_cases hEq : part.bActivated = bActive
  · refine ⟨w, by simp [ULuaFunction.SetActive, hS, hp, hEq], rfl, rfl, fun _ => rfl, ?_,
      fun _ _ => rfl, ?_⟩
    · simp [World.Active, hS, hp, hEq]
    · intro Name
      simp [hEq]
  · cases hb : bActive with
    | true =>
      have hact : part.bActivated = false := by
        cases hpa : part.bActivated
        · rfl
        · exact absurd (hpa.trans hb.symm) hEq
      cases hadd : part.bAdded with
      | true =>
        have hN := hName hb hadd hact
        cases hnat : function.HasAnyFunctionFlags FUNC_Native <;>
        · simp only [ULuaFunction.SetActive, hS, hp, hact, hFrom, hFv, hoc, hOwner,
            ULuaFunction.Activate, hadd, hN, hnat, World.setFunction, World.AddNativeFunction,
            World.AddFunctionToFunctionMap, Option.isSome_none,
            Option.bind_eq_bind, Option.some_bind, Option.map_some', Bool.false_eq_true,
            if_false, if_true, Assign_same]
          refine ⟨_, rfl, rfl, rfl, ?_, ?_, ?_, ?_⟩
          · intro Id
            by_cases h1 : Id = Self
            · subst h1; simp [World.Frame, Assign, hS, hp, hFrom, hadd]
            · simp [World.Frame, Assign, h1]
          · simp [World.Active, Assign]
          · intro Id h1
            simp [World.Active, Assign, h1]
          · intro Name
            by_cases hn : Name = self.Name
            · subst hn
              simp [World.FindFunctionByName, Assign, List.lookup_cons]
            · have hn2 : (Name == self.Name) = false := by simpa using hn
              simp [World.FindFunctionByName, Assign, List.lookup_cons, hn, hn2,
                List.lookup_filter_other _ _ _ hn]
      | false =>
        simp only [ULuaFunction.SetActive, hS, hp, hact, hFrom, hFv, hoc, hOwner,
          ULuaFunction.Activate, hadd, World.setFunction, World.AddNativeFunction,
          Option.bind_eq_bind, Option.some_bind, Option.map_some', Bool.false_eq_true,
          if_false, if_true, Assign_same, Assign_other _ _ _ _ hne,
          Assign_other _ _ _ _ hne.symm]
        refine ⟨_, rfl, rfl, rfl, ?_, ?_, ?_, ?_⟩
        · intro Id
          by_cases h1 : Id = Self
          · subst h1; simp [World.Frame, Assign, hS, hp, hFrom, hadd]
          · by_cases h2 : Id = Function
            · subst h2; simp [World.Frame, Assign, h1, hFv]
            · simp [World.Frame, Assign, h1, h2]
        · simp [World.Active, Assign]
        · intro Id h1
          by_cases h2 : Id = Function
          · subst h2; simp [World.Active, Assign, h1, hFv]
          · simp [World.Active, Assign, h1, h2]
        · intro Name
          simp [World.FindFunctionByName]
    | false =>
      have hact : part.bActivated = true := by
        cases hpa : part.bActivated
        · exact absurd (hpa.trans hb.symm) hEq
        · rfl
      cases hadd : part.bAdded with
      | true =>
        simp only [ULuaFunction.SetActive, hS, hp, hact, hFrom, hFv, hoc, hOwner,
          ULuaFunction.Deactivate, hadd, World.setFunction,
          World.RemoveFunctionFromFunctionMap,
          Option.bind_eq_bind, Option.some_bind, Option.map_some', Bool.true_eq_false,
          Bool.false_eq_true, if_false, if_true]
        refine ⟨_, rfl, rfl, rfl, ?_, ?_, ?_, ?_⟩
        · intro Id
          by_cases h1 : Id = Self
          · subst h1; simp [World.Frame, Assign, hS, hp, hFrom, hadd]
          · simp [World.Frame, Assign, h1]
        · simp [World.Active, Assign]
        · intro Id h1
          simp [World.Active, Assign, h1]
        · intro Name
          by_cases hn : Name = self.Name
          · subst hn
            simp [World.FindFunctionByName, Assign, List.lookup_filter_self]
          · simp [World.FindFunctionByName, Assign, hn, List.lookup_filter_other _ _ _ hn]
      | false =>
        obtain ⟨Backup, hOv, hB⟩ := hBackup hadd
        obtain ⟨backup, hBv⟩ := Option.isSome_iff_exists.1 hB
        simp only [ULuaFunction.SetActive, hS, hp, hact, hFrom, hFv, hoc, hOwner,
          ULuaFunction.Deactivate, hadd, hOv, hBv, World.setFunction, World.AddNativeFunction,
          Option.bind_eq_bind, Option.some_bind, Option.map_some', Bool.true_eq_false,
          Bool.false_eq_true, if_false, if_true, Assign_other _ _ _ _ hne.symm]
        refine ⟨_, rfl, rfl, rfl, ?_, ?_, ?_, ?_⟩
        · intro Id
          by_cases h1 : Id = Self
          · subst h1; simp [World.Frame, Assign, hS, hp, hFrom, hadd, hOv]
          · by_cases h2 : Id = Function
            · subst h2; simp [World.Frame, Assign, h1, hFv]
            · simp [World.Frame, Assign, h1, h2]
        · simp [World.Active, Assign]
        · intro Id h1
          by_cases h2 : Id = Function
          · subst h2; simp [World.Active, Assign, h1, hFv]
          · simp [World.Active, Assign, h1, h2]
        · intro Name
          simp [World.FindFunctionByName]

end SetActiveLemmas2

section SetActiveLemmas3

/-- Function `SetActive(true)` on a true override that is not active, as a world. -/
theorem ULuaFunction.setActive_true_own_world (w : World) (Self Function Class : ObjId)
    (self function : UFunction) (part : ULuaFunctionPart) (o : ULuaOverridesClass)
    (hS : w.Functions Self = some self) (hp : self.LuaFunction = some part)
    (hact : part.bActivated = false) (hadd : part.bAdded = false)
    (hFrom : part.From = some Function) (hF : w.Functions Function = some function)
    (hne : Function ≠ Self)
    (hoc : w.OverridesClasses self.Outer = some o) (hOwner : o.Owner = some Class) :
    ULuaFunction.SetActive w Self true = some
      { w with
        Functions := Assign (Assign (Assign w.Functions Self
            (some { self with SuperStruct := function.SuperStruct, Script := function.Script }))
          Function
            (some { function with FunctionFlags := function.FunctionFlags ||| FUNC_Native,
                                  NativeFunc := FNativeFuncPtr.execScriptCallLua,
                                  Script := ScriptMagicHeader ++ WriteUnaligned Self }))
          Self
            (some { self with SuperStruct := function.SuperStruct, Script := function.Script,
                              LuaFunction := some { part with bActivated := true } }),
        NativeFunctionLookupTable := Assign w.NativeFunctionLookupTable function.Outer
          (w.NativeFunctionLookupTable function.Outer ++
            [(function.Name, FNativeFuncPtr.execScriptCallLua)]) } := by
  simp only [ULuaFunction.SetActive, hS, hp, hact, hFrom, hF, hoc, hOwner,
    ULuaFunction.Activate, hadd, World.setFunction, World.AddNativeFunction,
    Option.bind_eq_bind, Option.some_bind, Option.map_some', Bool.false_eq_true, if_false,
    if_true, Assign_same, Assign_other _ _ _ _ hne, Assign_other _ _ _ _ hne.symm]

/-- Function `SetActive(false)` on an active true override, as a world. -/
theorem ULuaFunction.setActive_false_own_world (w : World) (Self Function Class Backup : ObjId)
    (self function backup : UFunction) (part : ULuaFunctionPart) (o : ULuaOverridesClass)
    (hS : w.Functions Self = some self) (hp : self.LuaFunction = some part)
    (hact : part.bActivated = true) (hadd : part.bAdded = false)
    (hFrom : part.From = some Function) (hF : w.Functions Function = some function)
    (hne : Function ≠ Self)
    (hoc : w.OverridesClasses self.Outer = some o) (hOwner : o.Owner = some Class)
    (hOv : part.Overridden = some Backup) (hB : w.Functions Backup = some backup) :
    ULuaFunction.SetActive w Self false = some
      { w with
        Functions := Assign (Assign w.Functions Function
            (some { function with Script := self.Script, NativeFunc := backup.NativeFunc,
                                  FunctionFlags := backup.FunctionFlags }))
          Self (some { self with LuaFunction := some { part with bActivated := false } }),
        NativeFunctionLookupTable := Assign w.NativeFunctionLookupTable function.Outer
          (w.NativeFunctionLookupTable function.Outer ++
            [(function.Name, backup.NativeFunc)]) } := by
  simp only [ULuaFunction.SetActive, hS, hp, hact, hFrom, hF, hoc, hOwner,
    ULuaFunction.Deactivate, hadd, hOv, hB, World.setFunction, World.AddNativeFunction,
    Option.bind_eq_bind, Option.some_bind, Option.map_some', Bool.false_eq_true,
    Bool.true_eq_false, if_false, if_true, Assign_same, Assign_other _ _ _ _ hne,
    Assign_other _ _ _ _ hne.symm]

end SetActiveLemmas3

section SetActiveLemmas4

/-- Function `SetActive(true)` on a newly added function that is not active: the record
and the function map of the class. -/
theorem ULuaFunction.setActive_true_added_map (w : World) (Self Function Class : ObjId)
    (self function : UFunction) (part : ULuaFunctionPart) (o : ULuaOverridesClass)
    (hS : w.Functions Self = some self) (hp : self.LuaFunction = some part)
    (hact : part.bActivated = false) (hadd : part.bAdded = true)
    (hFrom : part.From = some Function) (hF : w.Functions Function = some function)
    (hoc : w.OverridesClasses self.Outer = some o) (hOwner : o.Owner = some Class)
    (hName : w.FindFunctionByName Class self.Name = none) :
    ∃ w2, ULuaFunction.SetActive w Self true = some w2 ∧
      w2.OverridesClasses = w.OverridesClasses ∧
      w2.Functions = Assign w.Functions Self
        (some { self with SuperStruct := some Function,
                          FunctionFlags := self.FunctionFlags ||| FUNC_Native,
                          NativeFunc := FNativeFuncPtr.execCallLua,
                          LuaFunction := some { part with bActivated := true } }) ∧
      w2.FuncMap = Assign w.FuncMap Class
        ((self.Name, Self) :: (w.FuncMap Class).filter (fun e => e.1 != self.Name)) := by
  cases hnat : function.HasAnyFunctionFlags FUNC_Native <;>
  · simp only [ULuaFunction.SetActive, hS, hp, hact, hFrom, hF, hoc, hOwner,
      ULuaFunction.Activate, hadd, hName, hnat, World.setFunction, World.AddNativeFunction,
      World.AddFunctionToFunctionMap, Option.isSome_none,
      Option.bind_eq_bind, Option.some_bind, Option.map_some', Bool.false_eq_true, if_false,
      if_true, Assign_same]
    refine ⟨_, rfl, rfl, ?_, rfl⟩
    funext Id
    simp only [Assign]
    by_cases h1 : Id = Self
    · subst h1; simp
    · simp [h1]

/-- Function `SetActive(false)` on an active newly added function: the record and the
function map of the class. -/
theorem ULuaFunction.setActive_false_added_map (w : World) (Self Function Class : ObjId)
    (self function : UFunction) (part : ULuaFunctionPart) (o : ULuaOverridesClass)
    (hS : w.Functions Self = some self) (hp : self.LuaFunction = some part)
    (hact : part.bActivated = true) (hadd : part.bAdded = true)
    (hFrom : part.From = some Function) (hF : w.Functions Function = some function)
    (hoc : w.OverridesClasses self.Outer = some o) (hOwner : o.Owner = some Class) :
    ∃ w2, ULuaFunction.SetActive w Self false = some w2 ∧
      w2.Functions = Assign w.Functions Self
        (some { self with LuaFunction := some { part with bActivated := false } }) ∧
      w2.FuncMap = Assign w.FuncMap Class
        ((w.FuncMap Class).filter (fun e => e.1 != self.Name)) := by
  simp only [ULuaFunction.SetActive, hS, hp, hact, hFrom, hF, hoc, hOwner,
    ULuaFunction.Deactivate, hadd, World.setFunction, World.RemoveFunctionFromFunctionMap,
    Option.bind_eq_bind, Option.some_bind, Option.map_some', Bool.false_eq_true,
    Bool.true_eq_false, if_false, if_true]
  exact ⟨_, rfl, rfl, rfl⟩

/-- For a true override whose original is in the state its backup holds,
`SetActive(true)` followed by `SetActive(false)` gives back the original object and
leaves the function maps alone. -/
theorem ULuaFunction.setActive_round_trip_own (w : World) (Self Function Class Backup : ObjId)
    (self function backup : UFunction) (part : ULuaFunctionPart) (o : ULuaOverridesClass)
    (hS : w.Functions Self = some self) (hp : self.LuaFunction = some part)
    (hact : part.bActivated = false) (hadd : part.bAdded = false)
    (hFrom : part.From = some Function) (hF : w.Functions Function = some function)
    (hne : Function ≠ Self)
    (hoc : w.OverridesClasses self.Outer = some o) (hOwner : o.Owner = some Class)
    (hOv : part.Overridden = some Backup) (hB : w.Functions Backup = some backup)
    (hBF : Backup ≠ Function) (hBS : Backup ≠ Self)
    (hNat : backup.NativeFunc = function.NativeFunc)
    (hFlags : backup.FunctionFlags = function.FunctionFlags) :
    ∃ w1 w2, ULuaFunction.SetActive w Self true = some w1 ∧
      w1.Functions Function = some
        { function with FunctionFlags := function.FunctionFlags ||| FUNC_Native,
                        NativeFunc := FNativeFuncPtr.execScriptCallLua,
                        Script := ScriptMagicHeader ++ WriteUnaligned Self } ∧
      w1.Active Self = some true ∧
      ULuaFunction.SetActive w1 Self false = some w2 ∧
      w2.Functions Function = some function ∧ w2.FuncMap = w.FuncMap ∧
      w2.Active Self = some false := by
  have h1 := ULuaFunction.setActive_true_own_world w Self Function Class self function part o
    hS hp hact hadd hFrom hF hne hoc hOwner
  obtain ⟨w1, h1, hFun1, hOC1, hMap1⟩ : ∃ w1, ULuaFunction.SetActive w Self true = some w1 ∧
      w1.Functions = Assign (Assign (Assign w.Functions Self
          (some { self with SuperStruct := function.SuperStruct, Script := function.Script }))
        Function
          (some { function with FunctionFlags := function.FunctionFlags ||| FUNC_Native,
                                NativeFunc := FNativeFuncPtr.execScriptCallLua,
                                Script := ScriptMagicHeader ++ WriteUnaligned Self }))
        Self
          (some { self with SuperStruct := function.SuperStruct, Script := function.Script,
                            LuaFunction := some { part with bActivated := true } }) ∧
      w1.OverridesClasses = w.OverridesClasses ∧ w1.FuncMap = w.FuncMap :=
    ⟨_, h1, rfl, rfl, rfl⟩
  have h2 := ULuaFunction.setActive_false_own_world w1 Self Function Class Backup
      { self with SuperStruct := function.SuperStruct, Script := function.Script,
                  LuaFunction := some { part with bActivated := true } }
      { function with FunctionFlags := function.FunctionFlags ||| FUNC_Native,
                      NativeFunc := FNativeFuncPtr.execScriptCallLua,
                      Script := ScriptMagicHeader ++ WriteUnaligned Self }
      backup { part with bActivated := true } o
      (by rw [hFun1, Assign_same]) rfl rfl hadd hFrom
      (by rw [hFun1, Assign_other _ _ _ _ hne, Assign_same]) hne
      (by rw [hOC1]; exact hoc) hOwner hOv
      (by rw [hFun1, Assign_other _ _ _ _ hBS, Assign_other _ _ _ _ hBF,
            Assign_other _ _ _ _ hBS]
          exact hB)
  refine ⟨w1, _, h1, ?_, ?_, h2, ?_, ?_, ?_⟩
  · rw [hFun1, Assign_other _ _ _ _ hne, Assign_same]
  · simp [World.Active, hFun1, Assign]
  · simp only [Assign_other _ _ _ _ hne, Assign_same, hNat, hFlags]
  · exact hMap1
  · simp [World.Active, Assign]

/-- For a newly added function whose name is free in the class,
`SetActive(true)` followed by `SetActive(false)` leaves the original and the function
maps as they were. -/
theorem ULuaFunction.setActive_round_trip_added (w : World) (Self Function Class : ObjId)
    (self function : UFunction) (part : ULuaFunctionPart) (o : ULuaOverridesClass)
    (hS : w.Functions Self = some self) (hp : self.LuaFunction = some part)
    (hact : part.bActivated = false) (hadd : part.bAdded = true)
    (hFrom : part.From = some Function) (hF : w.Functions Function = some function)
    (hne : Function ≠ Self)
    (hoc : w.OverridesClasses self.Outer = some o) (hOwner : o.Owner = some Class)
    (hName : w.FindFunctionByName Class self.Name = none) :
    ∃ w1 w2, ULuaFunction.SetActive w Self true = some w1 ∧
      w1.FindFunctionByName Class self.Name = some Self ∧
      w1.Active Self = some true ∧
      ULuaFunction.SetActive w1 Self false = some w2 ∧
      w2.Functions Function = some function ∧ w2.FuncMap = w.FuncMap ∧
      w2.Active Self = some false := by
  obtain ⟨w1, h1, hOC1, hFun1, hMap1⟩ := ULuaFunction.setActive_true_added_map w Self Function
    Class self function part o hS hp hact hadd hFrom hF hoc hOwner hName
  obtain ⟨w2, h2, hFun2, hMap2⟩ := ULuaFunction.setActive_false_added_map w1 Self Function Class
    { self with SuperStruct := some Function,
                FunctionFlags := self.FunctionFlags ||| FUNC_Native,
                NativeFunc := FNativeFuncPtr.execCallLua,
                LuaFunction := some { part with bActivated := true } }
    function { part with bActivated := true } o
    (by rw [hFun1, Assign_same]) rfl rfl hadd hFrom
    (by rw [hFun1, Assign_other _ _ _ _ hne, hF]) (by rw [hOC1]; exact hoc) hOwner
  refine ⟨w1, w2, h1, ?_, ?_, h2, ?_, ?_, ?_⟩
  · simp [World.FindFunctionByName, hMap1, Assign]
  · simp [World.Active, hFun1, Assign]
  · rw [hFun2, Assign_other _ _ _ _ hne, hFun1, Assign_other _ _ _ _ hne, hF]
  · rw [hMap2, hMap1]
    funext Key
    by_cases hk : Key = Class
    · subst hk
      simp [Assign, List.filter_cons, List.filter_of_lookup_none _ _ hName]
    · simp [Assign, hk]
  · simp [World.Active, hFun2, Assign]

end SetActiveLemmas4

section SuspendResume

/-- An object has a frame exactly when it is alive. -/
theorem World.frame_isSome (w : World) (Id : ObjId) :
    (w.Frame Id).isSome = (w.Functions Id).isSome := by
  simp [World.Frame]

/-- The frame of a `ULuaFunction` gives its object and members. -/
theorem World.frame_record (w : World) (Id Outer : ObjId) (Name : String)
    (From Overridden : Option ObjId) (bAdded : Bool)
    (h : w.Frame Id = some (Outer, Name, some (From, Overridden, bAdded))) :
    ∃ self part, w.Functions Id = some self ∧ self.LuaFunction = some part ∧
      self.Outer = Outer ∧ self.Name = Name ∧ part.From = From ∧
      part.Overridden = Overridden ∧ part.bAdded = bAdded := by
  unfold World.Frame at h
  cases hf : w.Functions Id with
  | none => simp [hf] at h
  | some self =>
    cases hl : self.LuaFunction with
    | none => simp [hf, hl] at h
    | some part =>
      simp only [hf, hl, Option.map_some', Option.some.injEq, Prod.mk.injEq] at h
      exact ⟨self, part, rfl, hl, h.1, h.2.1, h.2.2.1, h.2.2.2.1, h.2.2.2.2⟩

/-- The name of a newly added record, from its object. -/
theorem World.addedName_of_record (w : World) (Id : ObjId) (self : UFunction)
    (part : ULuaFunctionPart) (hS : w.Functions Id = some self)
    (hp : self.LuaFunction = some part) :
    w.AddedName Id = if part.bAdded = true then some self.Name else none := by
  cases hb : part.bAdded <;> simp [World.AddedName, World.Frame, hS, hp, hb]

/-- Worlds with the same frames have the same names of added records. -/
theorem World.addedName_congr (w Base : World) (h : ∀ Id, w.Frame Id = Base.Frame Id)
    (Id : ObjId) : w.AddedName Id = Base.AddedName Id := by
  simp only [World.AddedName, h Id]

/-- Worlds with the same frames have the same sound records. -/
theorem World.soundRecord_congr (w Base : World) (h : ∀ Id, w.Frame Id = Base.Frame Id)
    (OverridesClass Child : ObjId) (hs : Base.SoundRecord OverridesClass Child) :
    w.SoundRecord OverridesClass Child := by
  obtain ⟨Name, From, Overridden, bAdded, h1, h2, h3, h4⟩ := hs
  refine ⟨Name, From, Overridden, bAdded, (h Child).trans h1, h2, by rw [h From]; exact h3, ?_⟩
  intro hb
  obtain ⟨Backup, hO, hB⟩ := h4 hb
  exact ⟨Backup, hO, by rw [h Backup]; exact hB⟩

/-- One round of `ULuaOverridesClass::SetActive`: `SetActive(bActive)` on a sound
record of the chain succeeds, keeps the records, sets the flag of the record
and of no other object, and keeps the names of the inactive added records
free. -/
theorem ULuaFunction.setActive_step (w : World) (OverridesClass Class : ObjId)
    (o : ULuaOverridesClass) (Children : List ObjId) (c : ObjId) (bActive : Bool)
    (hc : c ∈ Children) (hoc : w.OverridesClasses OverridesClass = some o)
    (hOwner : o.Owner = some Class)
    (hSound : ∀ d ∈ Children, w.SoundRecord OverridesClass d)
    (hDist : w.DistinctNames Children) (hFree : w.FreeNames Class Children) :
    ∃ w2, ULuaFunction.SetActive w c bActive = some w2 ∧ w2.SameRecords w ∧
      w2.Active c = some bActive ∧ (∀ Id, Id ≠ c → w2.Active Id = w.Active Id) ∧
      w2.FreeNames Class Children := by
  obtain ⟨Name, From, Overridden, bAdded, h1, h2, h3, h4⟩ := hSound c hc
  obtain ⟨self, part, hS, hp, hOuter, hNm, hFrom, hOv, hAdd⟩ :=
    World.frame_record w c OverridesClass Name (some From) Overridden bAdded h1
  have hAN : w.AddedName c = if part.bAdded = true then some self.Name else none :=
    World.addedName_of_record w c self part hS hp
  have hAct : w.Active c = some part.bActivated := by simp [World.Active, hS, hp]
  obtain ⟨w2, hw2, hOC, hOvr, hFr, hA1, hA2, hFind⟩ :=
    ULuaFunction.setActive_effect w c Class From bActive self part o hS hp hFrom h2
      (by rw [← World.frame_isSome]; exact h3) (by rw [hOuter]; exact hoc) hOwner
      (by
        intro hb
        obtain ⟨Backup, hO, hB⟩ := h4 (hAdd.symm.trans hb)
        exact ⟨Backup, hOv.trans hO, by rw [← World.frame_isSome]; exact hB⟩)
      (by
        intro _ hb ha
        exact hFree c hc self.Name (by rw [hAN, if_pos hb]) (by rw [hAct, ha]))
  refine ⟨w2, hw2, ⟨hOC, hOvr, hFr⟩, hA1, hA2, ?_⟩
  intro d hd Nm hdN hdA
  rw [World.addedName_congr w2 w hFr] at hdN
  rw [hFind Nm]
  by_cases hdc : d = c
  · subst hdc
    have hbF : bActive = false := by
      rw [hA1] at hdA
      exact (Option.some.inj hdA)
    split
    · rw [if_neg (by simp [hbF])]
    · rename_i hcond
      apply hFree d hd Nm hdN
      rw [hAct]
      rw [hAN] at hdN
      by_cases hb : part.bAdded = true
      · rw [if_pos hb] at hdN
        have hNmEq : Nm = self.Name := (Option.some.inj hdN).symm
        have : ¬ part.bActivated ≠ bActive := fun hx => hcond ⟨hb, hx, hNmEq⟩
        rw [not_not.1 this, hbF]
      · rw [if_neg hb] at hdN
        exact Option.noConfusion hdN
  · have hdA2 : w.Active d = some false := by rw [← hA2 d hdc]; exact hdA
    have hOld := hFree d hd Nm hdN hdA2
    split
    · rename_i hcond
      by_cases hbT : bActive = true
      · exfalso
        apply hdc
        apply hDist d hd c hc Nm hdN
        rw [hAN, if_pos hcond.1, hcond.2.2]
      · rw [if_neg hbT]
    · exact hOld

/-- The rounds of `ULuaOverridesClass::SetActive` over a part of the chain: all of
them succeed, the records are kept, and every record of the part, as every
object whose flag was `bActive` already, ends with the flag `bActive`. -/
theorem ULuaOverridesClass.setActive_rounds (OverridesClass Class : ObjId)
    (o : ULuaOverridesClass) (Children : List ObjId) (bActive : Bool)
    (hOwner : o.Owner = some Class) :
    ∀ (Rest : List ObjId) (w : World), (∀ c ∈ Rest, c ∈ Children) →
      w.OverridesClasses OverridesClass = some o →
      (∀ d ∈ Children, w.SoundRecord OverridesClass d) →
      w.DistinctNames Children → w.FreeNames Class Children →
      ∃ w2, Rest.foldlM (fun w LuaFunction => ULuaFunction.SetActive w LuaFunction bActive) w
          = some w2 ∧ w2.SameRecords w ∧
        (∀ c, c ∈ Rest ∨ w.Active c = some bActive → w2.Active c = some bActive) ∧
        w2.FreeNames Class Children := by
  intro Rest
  induction Rest with
  | nil =>
    intro w _ _ _ _ hFree
    refine ⟨w, rfl, ⟨rfl, rfl, fun _ => rfl⟩, ?_, hFree⟩
    intro c hc
    rcases hc with hc | hc
    · exact absurd hc (List.not_mem_nil c)
    · exact hc
  | cons c Rest ih =>
    intro w hSub hoc hSound hDist hFree
    obtain ⟨w1, hw1, ⟨hOC1, hOv1, hFr1⟩, hA1, hA2, hFree1⟩ :=
      ULuaFunction.setActive_step w OverridesClass Class o Children c bActive
        (hSub c (List.mem_cons_self c Rest)) hoc hOwner hSound hDist hFree
    obtain ⟨w2, hw2, ⟨hOC2, hOv2, hFr2⟩, hAll, hFree2⟩ :=
      ih w1 (fun d hd => hSub d (List.mem_cons_of_mem c hd)) (by rw [hOC1]; exact hoc)
        (fun d hd => World.soundRecord_congr w1 w hFr1 OverridesClass d (hSound d hd))
        (by
          intro a ha b hb Nm hAa hAb
          rw [World.addedName_congr w1 w hFr1] at hAa hAb
          exact hDist a ha b hb Nm hAa hAb)
        hFree1
    refine ⟨w2, ?_, ⟨hOC2.trans hOC1, hOv2.trans hOv1, fun Id => (hFr2 Id).trans (hFr1 Id)⟩,
      ?_, hFree2⟩
    · simp only [List.foldlM_cons, hw1, Option.bind_eq_bind, Option.some_bind]
      exact hw2
    · intro d hd
      by_cases hdc : d = c
      · subst hdc
        exact hAll d (Or.inr hA1)
      · rcases hd with hd | hd
        · rcases List.mem_cons.1 hd with hd | hd
          · exact absurd hd hdc
          · exact hAll d (Or.inl hd)
        · exact hAll d (Or.inr (by rw [hA2 d hdc]; exact hd))

/-- Function `Suspend` followed by `Resume` on a class whose override records are
sound: both succeed, every record is inactive in between and active at the end,
and the records are the ones of the start. -/
theorem FLuaOverrides.suspend_resume_records (w : World) (Class OverridesClass : ObjId)
    (o : ULuaOverridesClass) (hReg : w.Overrides Class = some OverridesClass)
    (hoc : w.OverridesClasses OverridesClass = some o) (hOwner : o.Owner = some Class)
    (hSound : ∀ c ∈ o.Children, w.SoundRecord OverridesClass c)
    (hDist : w.DistinctNames o.Children) (hFree : w.FreeNames Class o.Children) :
    ∃ w1 w2, FLuaOverrides.Suspend w Class = some w1 ∧
      (∀ c ∈ o.Children, w1.Active c = some false) ∧
      FLuaOverrides.Resume w1 Class = some w2 ∧
      (∀ c ∈ o.Children, w2.Active c = some true) ∧ w2.SameRecords w := by
  obtain ⟨w1, hw1, ⟨hOC1, hOv1, hFr1⟩, hAll1, hFree1⟩ :=
    ULuaOverridesClass.setActive_rounds OverridesClass Class o o.Children false hOwner
      o.Children w (fun _ h => h) hoc hSound hDist hFree
  obtain ⟨w2, hw2, ⟨hOC2, hOv2, hFr2⟩, hAll2, _⟩ :=
    ULuaOverridesClass.setActive_rounds OverridesClass Class o o.Children true hOwner
      o.Children w1 (fun _ h => h) (by rw [hOC1]; exact hoc)
      (fun d hd => World.soundRecord_congr w1 w hFr1 OverridesClass d (hSound d hd))
      (by
        intro a ha b hb Nm hAa hAb
        rw [World.addedName_congr w1 w hFr1] at hAa hAb
        exact hDist a ha b hb Nm hAa hAb)
      hFree1
  refine ⟨w1, w2, ?_, fun c hc => hAll1 c (Or.inl hc), ?_, fun c hc => hAll2 c (Or.inl hc),
    ⟨hOC2.trans hOC1, hOv2.trans hOv1, fun Id => (hFr2 Id).trans (hFr1 Id)⟩⟩
  · simp only [FLuaOverrides.Suspend, hReg, hoc, ULuaOverridesClass.SetActive,
      Option.bind_eq_bind, Option.some_bind]
    exact hw1
  · have hReg1 : w1.Overrides Class = some OverridesClass := by rw [hOv1]; exact hReg
    have hoc1 : w1.OverridesClasses OverridesClass = some o := by rw [hOC1]; exact hoc
    simp only [FLuaOverrides.Resume, hReg1, hoc1, ULuaOverridesClass.SetActive,
      Option.bind_eq_bind, Option.some_bind]
    exact hw2

end SuspendResume

/-- C22: `ULuaFunction::SetActive(false)` undoes `SetActive(true)`: for a record
that is not active, with a live original (for a true override, one in the state
its backup holds; for a newly added function, one whose name the class does not
have yet), `SetActive(true)` activates the record and the following
`SetActive(false)` leaves the object of the original (script body, dispatch
entry, flags) and the function maps of all classes as they were before. And
`Suspend` followed by `Resume` on a class with sound records succeeds, makes every
record of the chain inactive and then active, and keeps the override classes,
their chains, the registry and the frame of every object. -/
theorem setActive_inverse :
    (∀ (w : World) (Self Function Class : ObjId) (self function : UFunction)
        (part : ULuaFunctionPart) (o : ULuaOverridesClass),
      w.Functions Self = some self → self.LuaFunction = some part →
      part.bActivated = false → part.From = some Function →
      w.Functions Function = some function → Function ≠ Self →
      w.OverridesClasses self.Outer = some o → o.Owner = some Class →
      (part.bAdded = false → ∃ Backup backup, part.Overridden = some Backup ∧
        w.Functions Backup = some backup ∧ Backup ≠ Function ∧ Backup ≠ Self ∧
        backup.NativeFunc = function.NativeFunc ∧
        backup.FunctionFlags = function.FunctionFlags) →
      (part.bAdded = true → w.FindFunctionByName Class self.Name = none) →
      ∃ w1 w2, ULuaFunction.SetActive w Self true = some w1 ∧
        w1.Active Self = some true ∧
        (part.bAdded = false → (w1.Functions Function).map (fun f => f.NativeFunc) =
          some FNativeFuncPtr.execScriptCallLua) ∧
        (part.bAdded = true → w1.FindFunctionByName Class self.Name = some Self) ∧
        ULuaFunction.SetActive w1 Self false = some w2 ∧
        w2.Functions Function = some function ∧ w2.FuncMap = w.FuncMap ∧
        w2.Active Self = some false) ∧
    (∀ (w : World) (Class OverridesClass : ObjId) (o : ULuaOverridesClass),
      w.Overrides Class = some OverridesClass →
      w.OverridesClasses OverridesClass = some o → o.Owner = some Class →
      (∀ c ∈ o.Children, w.SoundRecord OverridesClass c) →
      w.DistinctNames o.Children → w.FreeNames Class o.Children →
      ∃ w1 w2, FLuaOverrides.Suspend w Class = some w1 ∧
        (∀ c ∈ o.Children, w1.Active c = some false) ∧
        FLuaOverrides.Resume w1 Class = some w2 ∧
        (∀ c ∈ o.Children, w2.Active c = some true) ∧ w2.SameRecords w) := by
  constructor
  · intro w Self Function Class self function part o hS hp hact hFrom hF hne hoc hOwner
      hBackup hName
    cases hadd : part.bAdded with
    | false =>
      obtain ⟨Backup, backup, hOv, hB, hBF, hBS, hNat, hFlags⟩ := hBackup hadd
      obtain ⟨w1, w2, h1, hF1, hA1, h2, hF2, hM2, hA2⟩ :=
        ULuaFunction.setActive_round_trip_own w Self Function Class Backup self function
          backup part o hS hp hact hadd hFrom hF hne hoc hOwner hOv hB hBF hBS hNat hFlags
      exact ⟨w1, w2, h1, hA1, fun _ => by rw [hF1]; rfl, fun h => Bool.noConfusion h,
        h2, hF2, hM2, hA2⟩
    | true =>
      obtain ⟨w1, w2, h1, hN1, hA1, h2, hF2, hM2, hA2⟩ :=
        ULuaFunction.setActive_round_trip_added w Self Function Class self function part o
          hS hp hact hadd hFrom hF hne hoc hOwner (hName hadd)
      exact ⟨w1, w2, h1, hA1, fun h => Bool.noConfusion h, fun _ => hN1, h2, hF2, hM2, hA2⟩
  · intro w Class OverridesClass o hReg hoc hOwner hSound hDist hFree
    exact FLuaOverrides.suspend_resume_records w Class OverridesClass o hReg hoc hOwner hSound
      hDist hFree

/-- Instance of C22: the suspended override of `ReceiveTick`, the added function
`OnDamaged`, and `Suspend` then `Resume` on class `100` with both records. -/
theorem setActive_inverse_witness :
    (∃ w1 w2, ULuaFunction.SetActive suspendedWorld 201 true = some w1 ∧
      w1.Active 201 = some true ∧
      ULuaFunction.SetActive w1 201 false = some w2 ∧
      w2.Functions 8 = some restingTick ∧ w2.FuncMap = suspendedWorld.FuncMap) ∧
    (∃ w1 w2, ULuaFunction.SetActive addedWorld 203 true = some w1 ∧
      w1.FindFunctionByName 100 "OnDamaged" = some 203 ∧
      ULuaFunction.SetActive w1 203 false = some w2 ∧
      w2.FuncMap = addedWorld.FuncMap) ∧
    (∃ w1 w2, FLuaOverrides.Suspend addedWorld 100 = some w1 ∧
      w1.Active 201 = some false ∧ w1.Active 203 = some false ∧
      FLuaOverrides.Resume w1 100 = some w2 ∧
      w2.Active 201 = some true ∧ w2.Active 203 = some true ∧
      w2.OverridesClasses = addedWorld.OverridesClasses) := by
  refine ⟨?_, ?_, ?_⟩
  · obtain ⟨w1, w2, h1, hA1, _, _, h2, hF2, hM2, _⟩ :=
      setActive_inverse.1 suspendedWorld 201 8 100 restingRecord restingTick
        ⟨some 8, some 202, false, false⟩ ⟨some 100, [201]⟩ rfl rfl rfl rfl rfl (by decide)
        rfl rfl (fun _ => ⟨202, tickBackup, rfl, rfl, by decide, by decide, rfl, rfl⟩)
        (fun h => Bool.noConfusion h)
    exact ⟨w1, w2, h1, hA1, h2, hF2, hM2⟩
  · obtain ⟨w1, w2, h1, _, _, hN1, h2, _, hM2, _⟩ :=
      setActive_inverse.1 addedWorld 203 7 100 addedRecord sampleFunction
        ⟨some 7, none, false, true⟩ ⟨some 100, [203, 201]⟩ rfl rfl rfl rfl rfl (by decide)
        rfl rfl (fun h => Bool.noConfusion h) (fun _ => rfl)
    exact ⟨w1, w2, h1, hN1 rfl, h2, hM2⟩
  · have hSound : ∀ c ∈ [203, 201], addedWorld.SoundRecord 200 c := by
      intro c hc
      simp only [List.mem_cons, List.mem_singleton, List.not_mem_nil, or_false] at hc
      rcases hc with hc | hc
      · subst hc
        exact ⟨"OnDamaged", 7, none, true, rfl, by decide, rfl, fun h => Bool.noConfusion h⟩
      · subst hc
        exact ⟨"ReceiveTick", 8, some 202, false, rfl, by decide, rfl,
          fun _ => ⟨202, rfl, rfl⟩⟩
    have hDist : addedWorld.DistinctNames [203, 201] := by
      intro c hc d hd Nm hA hB
      simp only [List.mem_cons, List.mem_singleton, List.not_mem_nil, or_false] at hc hd
      have h201 : addedWorld.AddedName 201 = none := rfl
      rcases hc with hc | hc <;> rcases hd with hd | hd <;> subst hc <;> subst hd
      · rfl
      · rw [h201] at hB; exact Option.noConfusion hB
      · rw [h201] at hA; exact Option.noConfusion hA
      · rfl
    have hFree : addedWorld.FreeNames 100 [203, 201] := by
      intro c hc Nm hA _
      simp only [List.mem_cons, List.mem_singleton, List.not_mem_nil, or_false] at hc
      have h201 : addedWorld.AddedName 201 = none := rfl
      have h203 : addedWorld.AddedName 203 = some "OnDamaged" := rfl
      rcases hc with hc | hc <;> subst hc
      · rw [h203] at hA
        rw [← Option.some.inj hA]
        rfl
      · rw [h201] at hA; exact Option.noConfusion hA
    obtain ⟨w1, w2, h1, hA1, h2, hA2, hSame⟩ :=
      setActive_inverse.2 addedWorld 100 200 ⟨some 100, [203, 201]⟩ rfl rfl rfl hSound hDist
        hFree
    exact ⟨w1, w2, h1, hA1 201 (by simp), hA1 203 (by simp), h2, hA2 201 (by simp),
      hA2 203 (by simp), hSame.1⟩

end UnLua
